import Mathlib

/-!
# Lowering of GPU launches to Vulkan runtime calls

A shallow embedding of `pmlc/conversion/gpu/gpu_to_vulkan.cc`
(`ConvertGpuLaunchFuncToVulkanCalls`) and the properties proved about it.

Conventions of the embedding.

* The program is a list of operations in walk order; an operation is named
  by its index in that list.  Each operation records its block and its order
  index inside the block, its operands and the types of its results.
* A value is an operation result or a block argument, together with its
  type (in MLIR the type is stored in the value).
* The calls the pass creates with a builder placed at a launch operation are
  inserted right before that operation, which is then erased.  The slot of
  the launch operation therefore stands for the position of the calls that
  replace it: once a launch is lowered its slot holds the `bindAllBuffers`
  call with the kernel operands, and the `deinitVulkan` member is the slot
  of the launch whose lowering created the `deinitVulkan` call.  The memref
  casts and typed binding calls that later replace a `bindAllBuffers` call
  are internal operations as well (`isInternalOperation`), so the slot is
  kept as that call while buffers are bound.
* `spirv::serialize`, the `VLOG_IS_ON(4)` switch and the `TypeID` of an
  element type are defined outside `gpu_to_vulkan.cc`; they are inputs of
  the embedding (`Env`).
* The input program has no call to `bindAllBuffers` other than the ones the
  pass creates; a slot holds such a call only after its launch is lowered.
* Counters (`numKernel`, `lauchFuncIndex`, binding indices) are natural
  numbers: a program has fewer than `2^31` operations and operands, and the
  copy mode is at most 3, so their conversions to `int32_t` and `int64_t`
  change nothing.  The byte size of a buffer, the size of the binary and the
  subgroup size are converted as in the source.
* A result `none` means that the C++ does not return normally: the worklist
  loop has not emptied its worklist, or a null `deinitVulkan` is
  dereferenced.
-/

namespace pmlc.conversion.gpu

/-! ## Constants -/

def kPrint_memref_f32 : String := "print_memref_f32"
def kInitVulkan : String := "initVulkan"
def kDeinitVulkan : String := "deinitVulkan"
def kRun : String := "run"
def kCreateVulkanLaunchKernelAction : String := "createVulkanLaunchKernelAction"
def kSetVulkanLaunchKernelAction : String := "setVulkanLaunchKernelAction"
def kCreateVulkanMemoryTransferAction : String := "createVulkanMemoryTransferAction"
def kAddVulkanLaunchActionToSchedule : String := "addVulkanLaunchActionToSchedule"
def kBindAllBuffers : String := "bindAllBuffers"
def kBindBufferBFloat16 : String := "bindBufferBFloat16"
def kBindBufferFloat16 : String := "bindBufferFloat16"
def kBindBufferFloat32 : String := "bindBufferFloat32"
def kBindBufferFloat64 : String := "bindBufferFloat64"
def kBindBufferInteger8 : String := "bindBufferInteger8"
def kBindBufferInteger16 : String := "bindBufferInteger16"
def kBindBufferInteger32 : String := "bindBufferInteger32"
def kBindBufferInteger64 : String := "bindBufferInteger64"
def kSPIRVBinary : String := "SPIRV_BIN"

def kByteBits : Nat := 8
def kBufferCopyModeInit : Nat := 0
def kBufferCopyModeHostToDevice : Nat := 1 <<< 0
def kBufferCopyModeDeviceToHost : Nat := 1 <<< 1

/-! ## Data model -/

/-- Element types that have a bit width (`isIntOrFloat`): integers of any
width (signless, signed or unsigned alike, as `isInteger(w)` only looks at
the width) and the four float types. -/
inductive ElemType where
  | integer (width : Nat)
  | bf16
  | f16
  | f32
  | f64
  deriving DecidableEq, Repr

/-- The type of a value: a ranked memref (`MemRefType`) with its shape and
element type, or any other type (index, scalar, unranked memref, ...). -/
inductive MlirType where
  | memref (shape : List Int) (elementType : ElemType)
  | other
  deriving DecidableEq, Repr

/-- Where a value comes from: a block argument or the result of an
operation. -/
inductive ValueSource where
  | blockArgument (block : Nat) (index : Nat)
  | opResult (op : Nat) (index : Nat)
  deriving DecidableEq, Repr

/-- An SSA value (`mlir::Value`). -/
structure Value where
  source : ValueSource
  type : MlirType
  deriving DecidableEq, Repr

/-- What the pass reads from a `gpu.launch_func`: the kernel name, the
`value` integer attribute of the operation defining each grid size operand
(absent when that operation has no such attribute) and the constant matched
by `m_Constant` on the block size x operand (absent when it is not a
compile-time constant). -/
structure LaunchFuncOp where
  kernelName : String
  gridX : Option Int
  gridY : Option Int
  gridZ : Option Int
  blockSizeX : Option Int
  deriving DecidableEq, Repr

/-- The operation kinds the pass tells apart. `call` is `mlir::CallOp`;
every other operation, `LLVM::CallOp` included, is `other`. -/
inductive OpKind where
  | alloc
  | memRefCast
  | call (callee : String)
  | launchFunc (launch : LaunchFuncOp)
  | other
  deriving DecidableEq, Repr

/-- An operation with its block, its order index in the block, its operands
and the types of its results. -/
structure Operation where
  kind : OpKind
  block : Nat
  order : Nat
  operands : List Value
  resultTypes : List MlirType
  deriving DecidableEq, Repr

instance : Inhabited Operation := ⟨⟨OpKind.other, 0, 0, [], []⟩⟩

/-- The operations of the module in walk order. -/
structure IR where
  ops : List Operation
  deriving DecidableEq, Repr

/-- A use of a value (`OpOperand`): the owning operation and the operand
number. -/
structure Use where
  owner : Nat
  operandNumber : Nat
  deriving DecidableEq, Repr

/-- The operation at an index (the default operation when out of range). -/
def IR.getOp (ir : IR) (op : Nat) : Operation := ir.ops.getD op default

def IR.getBlock (ir : IR) (op : Nat) : Nat := (ir.getOp op).block

/-- Order test `a->isBeforeInBlock(b)` on the order indices. -/
def IR.isBeforeInBlock (ir : IR) (a b : Nat) : Bool :=
  decide ((ir.getOp a).order < (ir.getOp b).order)

/-- The uses of `v` among the operands of one operation, from operand
number `i` on. -/
def operandUses (v : Value) (owner : Nat) : Nat → List Value → List Use
  | _, [] => []
  | i, w :: ws =>
    if w = v then Use.mk owner i :: operandUses v owner (i + 1) ws
    else operandUses v owner (i + 1) ws

/-- The uses of `v` in a list of operations whose first index is `o`. -/
def usesFrom (v : Value) : Nat → List Operation → List Use
  | _, [] => []
  | o, op :: rest => operandUses v o 0 op.operands ++ usesFrom v (o + 1) rest

/-- All uses of a value (`value.getUses()`). -/
def IR.getUses (ir : IR) (v : Value) : List Use := usesFrom v 0 ir.ops

/-- The results of operation `owner`, from result number `i` on. -/
def opResultsFrom (owner : Nat) : Nat → List MlirType → List Value
  | _, [] => []
  | i, t :: ts => Value.mk (ValueSource.opResult owner i) t :: opResultsFrom owner (i + 1) ts

/-- The results of an operation (`owner->getOpResults()`). -/
def IR.getOpResults (ir : IR) (owner : Nat) : List Value :=
  opResultsFrom owner 0 (ir.getOp owner).resultTypes

/-! ## Copy-direction analysis -/

/-- Translation of `isInternalOperation`. -/
def isInternalOperation (optionalSymbols : List String) (op : Operation) : Bool :=
  let callOp : Option String :=
    match op.kind with
    | OpKind.call callee => some callee
    | _ => none
  match callOp with
  | some callee =>
    if callee = kBindAllBuffers ∨ callee ∈ optionalSymbols then true
    else false
  | none =>
    match op.kind with
    | OpKind.alloc => true
    | OpKind.memRefCast => true
    | _ => false

/-- Insertion into the `llvm::SetVector` worklist. The list holds the
vector back to front: its head is `uses.back()`. -/
def setVectorInsert (uses : List Use) (u : Use) : List Use :=
  if u ∈ uses then uses else u :: uses

/-- Insertion into the `llvm::SmallSet` of operation pointers. -/
def smallSetInsert (operations : List Nat) (op : Nat) : List Nat :=
  if op ∈ operations then operations else operations ++ [op]

/-- The uses inserted after `owner` has been popped: for every result of
`owner`, every use of that result, in that order. -/
def IR.pushResultUses (ir : IR) (owner : Nat) (uses : List Use) : List Use :=
  (ir.getOpResults owner).foldl (fun acc r => (ir.getUses r).foldl setVectorInsert acc) uses

/-- The worklist loop of `getExternalDependentOperations`: pop the back of
the worklist, record its owner, insert the uses of the owner's results. -/
def walkUses (ir : IR) : Nat → List Use → List Nat → Option (List Nat)
  | _, [], operations => some operations
  | 0, _ :: _, _ => none
  | fuel + 1, use :: uses, operations =>
    walkUses ir fuel (ir.pushResultUses use.owner uses) (smallSetInsert operations use.owner)

/-- The number of insertions made after `owner` has been popped. -/
def IR.pushCount (ir : IR) (owner : Nat) : Nat :=
  ((ir.getOpResults owner).map (fun r => (ir.getUses r).length)).sum

/-- The largest number of insertions one pop can make. -/
def IR.maxPush (ir : IR) : Nat :=
  ((List.range ir.ops.length).map ir.pushCount).foldr max 0

/-- A number of loop iterations that is enough for every acyclic def-use
graph (see `walkUses_isSome`): every pop removes one use and inserts at most
`maxPush` uses whose owners come later in a topological numbering. -/
def IR.walkFuel (ir : IR) (value : Value) : Nat :=
  (ir.getUses value).length * (ir.maxPush + 1) ^ ir.ops.length + 1

/-- Translation of `getExternalDependentOperations` for a value defined by
an operation. The final loop erases the internal operations from the set
while iterating over it; on the pointer set this removes exactly the
internal operations. -/
def getExternalDependentOperations (ir : IR) (optionalSymbols : List String)
    (value : Value) : Option (List Nat) :=
  match value.source with
  | ValueSource.blockArgument _ _ => none
  | ValueSource.opResult definingOp _ =>
    match walkUses ir (ir.walkFuel value) ((ir.getUses value).foldl setVectorInsert [])
        (smallSetInsert [] definingOp) with
    | none => none
    | some operations =>
      some (operations.filter (fun op => !isInternalOperation optionalSymbols (ir.getOp op)))

/-- The loop of `getBufferCopyMode` over the dependent operations; the
second component counts the warnings emitted. -/
def copyModeLoop (ir : IR) (deinitVulkan : Option Nat) (callOp : Nat) :
    List Nat → Nat → Nat → Option (Nat × Nat)
  | [], copyMode, warnings => some (copyMode, warnings)
  | op :: rest, copyMode, warnings =>
    if ir.getBlock op = ir.getBlock callOp then
      if ir.isBeforeInBlock op callOp then
        copyModeLoop ir deinitVulkan callOp rest (copyMode ||| kBufferCopyModeHostToDevice) warnings
      else
        match deinitVulkan with
        | none => none
        | some deinit =>
          if ir.isBeforeInBlock deinit op then
            copyModeLoop ir deinitVulkan callOp rest (copyMode ||| kBufferCopyModeDeviceToHost)
              warnings
          else
            copyModeLoop ir deinitVulkan callOp rest copyMode (warnings + 1)
    else
      copyModeLoop ir deinitVulkan callOp rest
        (copyMode ||| (kBufferCopyModeHostToDevice ||| kBufferCopyModeDeviceToHost)) warnings

/-- Translation of `getBufferCopyMode`: the copy mode bits and the number of
warnings emitted on the call. -/
def getBufferCopyMode (ir : IR) (optionalSymbols : List String) (deinitVulkan : Option Nat)
    (callOp : Nat) (buffer : Value) : Option (Nat × Nat) :=
  match buffer.source with
  | ValueSource.blockArgument _ _ =>
    some (kBufferCopyModeInit ||| (kBufferCopyModeHostToDevice ||| kBufferCopyModeDeviceToHost), 0)
  | ValueSource.opResult _ _ =>
    match getExternalDependentOperations ir optionalSymbols buffer with
    | none => none
    | some operationDeps => copyModeLoop ir deinitVulkan callOp operationDeps kBufferCopyModeInit 0

/-! ## Pass state and emitted calls -/

inductive LogicalResult where
  | success
  | failure
  deriving DecidableEq, Repr

/-- A SPIR-V module, given by what `spirv::serialize` does on it: failure,
or the 32-bit words of the binary. -/
structure SpirvModule where
  serialized : Option (List Nat)
  deriving DecidableEq, Repr

/-- The inputs of the pass that are defined outside the translated source:
the `spirv::ModuleOp`s of the module in program order, the verbosity test
`VLOG_IS_ON(4)`, and the `TypeID` of an element type as the address that
`mlirTypeComparator` compares. -/
structure Env where
  modules : List SpirvModule
  vlog4 : Bool
  typeID : ElemType → Nat

/-- An operand of a created call. -/
inductive Arg where
  /-- The `vulkanRuntime` member: the result of the `initVulkan` call
  created at the given slot, or the null value. -/
  | runtime (handle : Option Nat)
  /-- An `LLVM::ConstantOp` of the given integer width and value. -/
  | constant (width : Nat) (value : Int)
  /-- An `LLVM::ConstantOp` built from an attribute read from the program
  (null when the attribute is absent). -/
  | attribute (value : Option Int)
  /-- The address of a global string created by `LLVM::createGlobalString`. -/
  | globalString (name : String) (value : List Nat)
  /-- A value of the program. -/
  | value (v : Value)
  /-- A `MemRefCastOp` of a buffer to the unranked memref type. -/
  | memRefCast (v : Value)
  deriving DecidableEq, Repr

/-- A created call operation: an `LLVM::CallOp` or an `mlir::CallOp`. -/
structure Call where
  llvm : Bool
  callee : String
  operands : List Arg
  numResults : Nat
  deriving DecidableEq, Repr

/-- The `llvm::SmallSet<mlir::Type, 4, mlirTypeComparator>`: a vector while
it holds at most four elements, a `std::set` ordered by the comparator
afterwards. -/
structure TypeSet where
  vector : List ElemType
  set : List ElemType
  deriving DecidableEq, Repr

/-- Translation of `mlirTypeComparator`. -/
def mlirTypeComparator (typeID : ElemType → Nat) (x y : ElemType) : Bool :=
  decide (typeID x > typeID y)

/-- Insertion into a `std::set` kept as the list of its elements in
comparator order: an element equivalent to one already there is dropped. -/
def stdSetInsert (comp : ElemType → ElemType → Bool) : List ElemType → ElemType → List ElemType
  | [], v => [v]
  | x :: xs, v =>
    if comp v x then v :: x :: xs
    else if comp x v then x :: stdSetInsert comp xs v
    else x :: xs

/-- Translation of `SmallSet::insert`. -/
def TypeSet.insert (typeID : ElemType → Nat) (s : TypeSet) (v : ElemType) : TypeSet :=
  if s.set ≠ [] then
    { s with set := stdSetInsert (mlirTypeComparator typeID) s.set v }
  else if v ∈ s.vector then s
  else if s.vector.length < 4 then { s with vector := s.vector ++ [v] }
  else
    { vector := []
      set := stdSetInsert (mlirTypeComparator typeID)
        (s.vector.reverse.foldl (stdSetInsert (mlirTypeComparator typeID)) []) v }

/-- The elements in iteration order. -/
def TypeSet.elements (s : TypeSet) : List ElemType :=
  if s.set ≠ [] then s.set else s.vector

/-- Insertion into the `llvm::SmallSet<StringRef, 4>`. -/
def symbolInsert (symbols : List String) (name : String) : List String :=
  if name ∈ symbols then symbols else symbols ++ [name]

/-- The members of the pass object. -/
structure PassState where
  numKernel : Nat
  lauchFuncIndex : Nat
  vulkanRuntime : Option Nat
  deinitVulkan : Option Nat
  bufferMap : List (Value × (Nat × Nat))
  bufferElementTypes : TypeSet
  optionalSymbols : List String
  /-- Set by `signalPassFailure`. -/
  passFailed : Bool
  /-- Number of warnings emitted. -/
  warnings : Nat
  deriving DecidableEq, Repr

def PassState.initial : PassState :=
  { numKernel := 0, lauchFuncIndex := 0, vulkanRuntime := none, deinitVulkan := none,
    bufferMap := [], bufferElementTypes := ⟨[], []⟩, optionalSymbols := [],
    passFailed := false, warnings := 0 }

/-- Translation of `getBufferBindingFunc`; `none` is the null pointer. -/
def getBufferBindingFunc (elementType : ElemType) : Option String :=
  if elementType = ElemType.integer 8 then some kBindBufferInteger8
  else if elementType = ElemType.integer 16 then some kBindBufferInteger16
  else if elementType = ElemType.integer 32 then some kBindBufferInteger32
  else if elementType = ElemType.integer 64 then some kBindBufferInteger64
  else if elementType = ElemType.bf16 then some kBindBufferBFloat16
  else if elementType = ElemType.f16 then some kBindBufferFloat16
  else if elementType = ElemType.f32 then some kBindBufferFloat32
  else if elementType = ElemType.f64 then some kBindBufferFloat64
  else none

/-- The `StringRef` made from a `const char *`: empty for the null
pointer. -/
def stringRef : Option String → String
  | some s => s
  | none => ""

def getIntOrFloatBitWidth : ElemType → Nat
  | ElemType.integer width => width
  | ElemType.bf16 => 16
  | ElemType.f16 => 16
  | ElemType.f32 => 32
  | ElemType.f64 => 64

/-- Translation of `llvm::divideCeil`. -/
def divideCeil (numerator denominator : Nat) : Nat :=
  (numerator + denominator - 1) / denominator

/-- Conversion of an integer to `uint32_t`. -/
def toUInt32 (v : Int) : Nat := (v % 4294967296).toNat

/-- Conversion of an integer to `int32_t`, the argument type of
`getI32IntegerAttr`. -/
def toInt32 (v : Int) : Int :=
  if v % 4294967296 < 2147483648 then v % 4294967296 else v % 4294967296 - 4294967296

/-- The loop `numElement *= dim` on a `uint32_t`. -/
def numElementOf (shape : List Int) : Nat :=
  shape.foldl (fun numElement dim => toUInt32 ((numElement : Int) * dim)) 1

/-! ## Buffer binding -/

/-- The call to the typed binding function for one buffer: the runtime, the
descriptor set, the binding index, the byte size, the copy mode and the
buffer cast to an unranked memref. -/
def bindBufferCall (vulkanRuntime : Option Nat) (elementType : ElemType) (bindIndex : Nat)
    (bufferByteSize : Int) (copyMode : Nat) (buffer : Value) : Call :=
  { llvm := false
    callee := stringRef (getBufferBindingFunc elementType)
    operands := [Arg.runtime vulkanRuntime, Arg.constant 32 0,
      Arg.constant 32 bindIndex, Arg.constant 32 bufferByteSize,
      Arg.constant 32 copyMode, Arg.memRefCast buffer]
    numResults := 0 }

/-- The byte size constant of a memref: `numElement * elementTypeSize`
computed on `uint32_t` and passed to `getI32IntegerAttr`. -/
def bufferByteSizeOf (shape : List Int) (elementType : ElemType) : Int :=
  let numElement := numElementOf shape
  let elementTypeSize := toUInt32 (divideCeil (getIntOrFloatBitWidth elementType) kByteBits)
  toInt32 (toUInt32 ((numElement : Int) * elementTypeSize))

/-- The loop of `bindBuffers` from binding index `bindIndex` on: the result,
the state and the binding calls created, in order. -/
def bindBuffersFrom (env : Env) (ir : IR) (callOp : Nat) :
    Nat → List Value → PassState → Option (LogicalResult × PassState × List Call)
  | _, [], st => some (LogicalResult.success, st, [])
  | bindIndex, buffer :: rest, st =>
    match buffer.type with
    | MlirType.memref shape elementType =>
      let st1 := { st with bufferElementTypes := st.bufferElementTypes.insert env.typeID elementType }
      let bufferByteSize := bufferByteSizeOf shape elementType
      match getBufferCopyMode ir st1.optionalSymbols st1.deinitVulkan callOp buffer with
      | none => none
      | some (copyMode, warned) =>
        let call := bindBufferCall st1.vulkanRuntime elementType bindIndex bufferByteSize copyMode
          buffer
        let st2 := { st1 with
          optionalSymbols := symbolInsert st1.optionalSymbols
            (stringRef (getBufferBindingFunc elementType))
          warnings := st1.warnings + warned }
        match bindBuffersFrom env ir callOp (bindIndex + 1) rest st2 with
        | none => none
        | some (result, st3, calls) => some (result, st3, call :: calls)
    | MlirType.other => some (LogicalResult.failure, st, [])

/-- Translation of `bindBuffers` for the `bindAllBuffers` call at slot
`callOp` with operands `buffers`. -/
def bindBuffers (env : Env) (ir : IR) (st : PassState) (callOp : Nat) (buffers : List Value) :
    Option (LogicalResult × PassState × List Call) :=
  bindBuffersFrom env ir callOp 0 buffers st

/-! ## Transfers between launches -/

/-- Assignment `map[key] = value` on the `llvm::DenseMap`, kept as the list
of its entries. -/
def denseMapSet (map : List (Value × (Nat × Nat))) (key : Value) (value : Nat × Nat) :
    List (Value × (Nat × Nat)) :=
  match map with
  | [] => [(key, value)]
  | pair :: rest =>
    if pair.1 = key then (key, value) :: rest else pair :: denseMapSet rest key value

/-- The call created for one matching entry of `bufferMap`. -/
def transferCall (vulkanRuntime : Option Nat) (second : Nat × Nat) (lauchFuncIndex i : Nat) :
    Call :=
  { llvm := true
    callee := kCreateVulkanMemoryTransferAction
    operands := [Arg.runtime vulkanRuntime, Arg.constant 64 second.1, Arg.constant 64 second.2,
      Arg.constant 64 lauchFuncIndex, Arg.constant 64 i]
    numResults := 0 }

/-- The inner loop of `transferBuffers` over the entries of `bufferMap` for
the buffer at position `i`: the calls created and the optional symbols. -/
def transferMatches (vulkanRuntime : Option Nat) (lauchFuncIndex i : Nat) (buffer : Value) :
    List (Value × (Nat × Nat)) → List String → List Call × List String
  | [], optionalSymbols => ([], optionalSymbols)
  | pair :: rest, optionalSymbols =>
    if pair.1 = buffer then
      let r := transferMatches vulkanRuntime lauchFuncIndex i buffer rest
        (symbolInsert optionalSymbols kCreateVulkanMemoryTransferAction)
      (transferCall vulkanRuntime pair.2 lauchFuncIndex i :: r.1, r.2)
    else transferMatches vulkanRuntime lauchFuncIndex i buffer rest optionalSymbols

/-- The outer loop of `transferBuffers` from position `i` on. -/
def transferBuffersFrom : Nat → List Value → PassState → PassState × List Call
  | _, [], st => (st, [])
  | i, buffer :: rest, st =>
    let m := transferMatches st.vulkanRuntime st.lauchFuncIndex i buffer st.bufferMap
      st.optionalSymbols
    let st1 := { st with
      optionalSymbols := m.2
      bufferMap := denseMapSet st.bufferMap buffer (st.lauchFuncIndex, i) }
    let r := transferBuffersFrom (i + 1) rest st1
    (r.1, m.1 ++ r.2)

/-- Translation of `transferBuffers`; it always succeeds. -/
def transferBuffers (st : PassState) (buffers : List Value) :
    LogicalResult × PassState × List Call :=
  let r := transferBuffersFrom 0 buffers st
  (LogicalResult.success, r.1, r.2)

/-! ## Lowering of one launch -/

/-- The bytes of a 32-bit word as `memcpy` lays them out. -/
def wordBytes (w : Nat) : List Nat :=
  [w % 256, w / 256 % 256, w / 65536 % 256, w / 16777216 % 256]

/-- The loop of `createBinaryShader` over the SPIR-V modules:
`spirv::serialize` fills `binary` with the words of the module. -/
def createBinaryShaderLoop (lauchFuncIndex : Nat) :
    Nat → List SpirvModule → List Nat → LogicalResult × List Nat
  | _, [], binary => (LogicalResult.success, binary)
  | shader_index, spirvModule :: rest, binary =>
    if shader_index = lauchFuncIndex then
      match spirvModule.serialized with
      | none => (LogicalResult.failure, binary)
      | some words => createBinaryShaderLoop lauchFuncIndex (shader_index + 1) rest words
    else createBinaryShaderLoop lauchFuncIndex (shader_index + 1) rest binary

/-- Translation of `createBinaryShader`: the result and the bytes of
`binaryShader` (left empty on failure). -/
def createBinaryShader (env : Env) (lauchFuncIndex : Nat) : LogicalResult × List Nat :=
  match createBinaryShaderLoop lauchFuncIndex 0 env.modules [] with
  | (LogicalResult.failure, _) => (LogicalResult.failure, [])
  | (LogicalResult.success, binary) => (LogicalResult.success, binary.flatMap wordBytes)

/-- Translation of `printBuffer`: the calls created and the optional
symbols. It always succeeds. -/
def printBuffer (optionalSymbols : List String) (buffer : Value) : List Call × List String :=
  match buffer.type with
  | MlirType.memref _ elementType =>
    if elementType = ElemType.f32 then
      ([{ llvm := false, callee := kPrint_memref_f32, operands := [Arg.memRefCast buffer],
          numResults := 0 }],
        symbolInsert optionalSymbols kPrint_memref_f32)
    else ([], optionalSymbols)
  | MlirType.other => ([], optionalSymbols)

/-- The loop over the buffers that prints them. -/
def printBuffers : List Value → List String → List Call × List String
  | [], optionalSymbols => ([], optionalSymbols)
  | buffer :: rest, optionalSymbols =>
    let p := printBuffer optionalSymbols buffer
    let r := printBuffers rest p.2
    (p.1 ++ r.1, r.2)

/-- Number of size operands of a `gpu.launch_func` (grid and block sizes);
the kernel operands follow them. -/
def kNumConfigOperands : Nat := 6

/-- The kernel operands `launchOp.operands()`. -/
def kernelOperands (op : Operation) : List Value := op.operands.drop kNumConfigOperands

/-- The calls created at one slot: `before` holds the calls created before
the `bindAllBuffers` call (or all calls when none is created), `after` the
calls created after it. -/
structure Site where
  before : List Call
  after : List Call
  deriving DecidableEq, Repr

/-- The call to `initVulkan`; its result is the runtime handle. -/
def initVulkanCall : Call :=
  { llvm := true, callee := kInitVulkan, operands := [], numResults := 1 }

/-- The state after the `initVulkan` call has been created when the launch
is the first one: `vulkanRuntime` is the result of the call created at
`slot`. -/
def afterInit (st : PassState) (slot : Nat) : PassState :=
  if st.lauchFuncIndex = 0 then { st with vulkanRuntime := some slot } else st

/-- Translation of `createEntryPointNameConstant`: the global string named
after the kernel and the launch index, holding the kernel name and a
terminating zero. -/
def createEntryPointNameConstant (name : String) (lauchFuncIndex : Nat) : Arg :=
  Arg.globalString (name ++ "_spv_entry_point_name" ++ toString lauchFuncIndex)
    (name.toList.map Char.toNat ++ [0])

/-- The call to `createVulkanLaunchKernelAction`: the runtime, the global
with the SPIR-V binary, its size, the global with the entry point name and
the three grid sizes. -/
def createLaunchKernelActionCall (vulkanRuntime : Option Nat) (lauchFuncIndex : Nat)
    (binary : List Nat) (launchOp : LaunchFuncOp) : Call :=
  { llvm := true
    callee := kCreateVulkanLaunchKernelAction
    operands := [Arg.runtime vulkanRuntime,
      Arg.globalString (kSPIRVBinary ++ toString lauchFuncIndex) binary,
      Arg.constant 32 (toInt32 binary.length),
      createEntryPointNameConstant launchOp.kernelName lauchFuncIndex,
      Arg.attribute launchOp.gridX, Arg.attribute launchOp.gridY, Arg.attribute launchOp.gridZ]
    numResults := 0 }

/-- The subgroup size: the constant block size x, or 1. -/
def subgroupSizeOf (launchOp : LaunchFuncOp) : Int :=
  match launchOp.blockSizeX with
  | some v => v
  | none => 1

/-- The call to `setVulkanLaunchKernelAction`. -/
def setLaunchKernelActionCall (vulkanRuntime : Option Nat) (launchOp : LaunchFuncOp) : Call :=
  { llvm := true
    callee := kSetVulkanLaunchKernelAction
    operands := [Arg.runtime vulkanRuntime, Arg.constant 32 (toInt32 (subgroupSizeOf launchOp))]
    numResults := 0 }

/-- The call to `addVulkanLaunchActionToSchedule`. -/
def addLaunchActionToScheduleCall (vulkanRuntime : Option Nat) : Call :=
  { llvm := true, callee := kAddVulkanLaunchActionToSchedule
    operands := [Arg.runtime vulkanRuntime], numResults := 0 }

/-- The call to `run`. -/
def runCall (vulkanRuntime : Option Nat) : Call :=
  { llvm := true, callee := kRun, operands := [Arg.runtime vulkanRuntime], numResults := 0 }

/-- The call to `deinitVulkan`. -/
def deinitVulkanCall (vulkanRuntime : Option Nat) : Call :=
  { llvm := true, callee := kDeinitVulkan, operands := [Arg.runtime vulkanRuntime],
    numResults := 0 }

/-- The operation standing in the slot of a lowered launch: the
`bindAllBuffers` call on the kernel operands. -/
def bindAllBuffersOp (op : Operation) : Operation :=
  { op with kind := OpKind.call kBindAllBuffers, operands := kernelOperands op }

/-- Translation of `convertGpuLaunchFunc` for the launch operation `op` at
`slot`: the new state, the operation left in the slot and the calls
created. `transferBuffers` never fails, so its failure branch is never
taken. -/
def convertGpuLaunchFunc (env : Env) (st : PassState) (slot : Nat) (op : Operation)
    (launchOp : LaunchFuncOp) : PassState × Operation × Site :=
  let initCalls : List Call := if st.lauchFuncIndex = 0 then [initVulkanCall] else []
  let st1 : PassState := afterInit st slot
  match createBinaryShader env st1.lauchFuncIndex with
  | (LogicalResult.failure, _) => ({ st1 with passFailed := true }, op, ⟨initCalls, []⟩)
  | (LogicalResult.success, binary) =>
    let createCall :=
      createLaunchKernelActionCall st1.vulkanRuntime st1.lauchFuncIndex binary launchOp
    let setCall := setLaunchKernelActionCall st1.vulkanRuntime launchOp
    match transferBuffers st1 (kernelOperands op) with
    | (LogicalResult.failure, st2, _) =>
      ({ st2 with passFailed := true }, bindAllBuffersOp op,
        ⟨initCalls ++ [createCall], [setCall]⟩)
    | (LogicalResult.success, st2, transfers) =>
      let addCall := addLaunchActionToScheduleCall st2.vulkanRuntime
      let last : Bool := decide (st2.lauchFuncIndex = st2.numKernel - 1)
      let finalCalls : List Call :=
        if last then [runCall st2.vulkanRuntime, deinitVulkanCall st2.vulkanRuntime] else []
      let st3 : PassState := if last then { st2 with deinitVulkan := some slot } else st2
      let prints : List Call × List String :=
        if env.vlog4 then printBuffers (kernelOperands op) st3.optionalSymbols
        else ([], st3.optionalSymbols)
      ({ st3 with optionalSymbols := prints.2, lauchFuncIndex := st3.lauchFuncIndex + 1 },
        bindAllBuffersOp op,
        ⟨initCalls ++ [createCall], [setCall] ++ transfers ++ [addCall] ++ finalCalls ++ prints.1⟩)

/-! ## The pass -/

/-- The walk that lowers every `gpu.launch_func`, from slot `slot` on: the
state, the operations left in the slots and the calls created at each
slot. -/
def convertAll (env : Env) : Nat → List Operation → PassState →
    PassState × List Operation × List Site
  | _, [], st => (st, [], [])
  | slot, op :: rest, st =>
    match op.kind with
    | OpKind.launchFunc launchOp =>
      let c := convertGpuLaunchFunc env st slot op launchOp
      let r := convertAll env (slot + 1) rest c.1
      (r.1, c.2.1 :: r.2.1, c.2.2 :: r.2.2)
    | _ =>
      let r := convertAll env (slot + 1) rest st
      (r.1, op :: r.2.1, ⟨[], []⟩ :: r.2.2)

/-- The walk over the `bindAllBuffers` calls, from slot `slot` on: each call
is replaced by the calls `bindBuffers` creates (its result is not looked
at). The outcome lists, for every slot, the calls that stand there in the
end. -/
def bindAll (env : Env) (ir : IR) : Nat → List Operation → List Site → PassState →
    Option (PassState × List (List Call))
  | _, [], _, st => some (st, [])
  | slot, op :: rest, sites, st =>
    let site : Site := sites.headD ⟨[], []⟩
    if op.kind = OpKind.call kBindAllBuffers then
      match bindBuffers env ir st slot op.operands with
      | none => none
      | some (_, st1, calls) =>
        match bindAll env ir (slot + 1) rest sites.tail st1 with
        | none => none
        | some (st2, out) => some (st2, (site.before ++ calls ++ site.after) :: out)
    else
      match bindAll env ir (slot + 1) rest sites.tail st with
      | none => none
      | some (st2, out) => some (st2, (site.before ++ site.after) :: out)

/-- The names declared for the element types seen, in iteration order. -/
def declareBindingFuncs (optionalSymbols : List String) : List ElemType → List String
  | [] => []
  | bufferElementType :: rest =>
    let func := stringRef (getBufferBindingFunc bufferElementType)
    if func ∈ optionalSymbols then func :: declareBindingFuncs optionalSymbols rest
    else declareBindingFuncs optionalSymbols rest

/-- Translation of `declareVulkanFunctions`: the names of the functions
declared, in order. -/
def declareVulkanFunctions (st : PassState) : List String :=
  [kInitVulkan, kCreateVulkanLaunchKernelAction, kSetVulkanLaunchKernelAction,
    kAddVulkanLaunchActionToSchedule, kRun, kDeinitVulkan]
  ++ (if kPrint_memref_f32 ∈ st.optionalSymbols then [kPrint_memref_f32] else [])
  ++ (if kCreateVulkanMemoryTransferAction ∈ st.optionalSymbols then
        [kCreateVulkanMemoryTransferAction] else [])
  ++ declareBindingFuncs st.optionalSymbols st.bufferElementTypes.elements

/-- Number of `gpu.launch_func` operations (the first walk). -/
def countLaunches : List Operation → Nat
  | [] => 0
  | op :: rest =>
    match op.kind with
    | OpKind.launchFunc _ => countLaunches rest + 1
    | _ => countLaunches rest

/-- What the pass leaves behind. -/
structure PassResult where
  state : PassState
  /-- The calls standing at each slot, in walk order. -/
  emitted : List (List Call)
  /-- The functions declared. -/
  declared : List String
  deriving DecidableEq, Repr

/-- Translation of `runOnOperation`. -/
def runOnOperation (env : Env) (ir : IR) : Option PassResult :=
  let st0 : PassState := { PassState.initial with numKernel := countLaunches ir.ops }
  let c := convertAll env 0 ir.ops st0
  match bindAll env ⟨c.2.1⟩ 0 c.2.1 c.2.2 c.1 with
  | none => none
  | some (st, emitted) =>
    some { state := st, emitted := emitted, declared := declareVulkanFunctions st }

/-! ## Well-formedness -/

/-- The def-use graph is acyclic: the operations have a topological
numbering `rank` in which every operation that uses a result of another
operation comes after it. -/
def IR.Acyclic (ir : IR) : Prop :=
  ∃ rank : Nat → Nat, (∀ o, o < ir.ops.length → rank o < ir.ops.length) ∧
    ∀ user op, ir.ops[user]? = some op → ∀ v ∈ op.operands, ∀ o i,
      v.source = ValueSource.opResult o i → rank o < rank user

/-- Every operand of the operation at index `user` that is an operation
result is defined at a smaller index. -/
def operandsDefinedBefore (user : Nat) (operands : List Value) : Bool :=
  operands.all (fun v =>
    match v.source with
    | ValueSource.opResult o _ => decide (o < user)
    | ValueSource.blockArgument _ _ => true)

/-- The check `operandsDefinedBefore` on a list of operations whose first
index is `user`. -/
def definedBeforeUseFrom : Nat → List Operation → Bool
  | _, [] => true
  | user, op :: rest => operandsDefinedBefore user op.operands && definedBeforeUseFrom (user + 1) rest

/-- Definitions come before uses in walk order (a decidable sufficient
condition for `IR.Acyclic`). -/
def IR.definedBeforeUse (ir : IR) : Bool := definedBeforeUseFrom 0 ir.ops

/-- The external dependency set of a buffer, empty when
`getExternalDependentOperations` gives none. -/
def externalDeps (ir : IR) (optionalSymbols : List String) (buffer : Value) : List Nat :=
  (getExternalDependentOperations ir optionalSymbols buffer).getD []

/-- The weight of a use in the termination measure of `walkUses`. -/
def useWeight (ir : IR) (rank : Nat → Nat) (u : Use) : Nat :=
  (ir.maxPush + 1) ^ (ir.ops.length - rank u.owner)

/-- The termination measure of `walkUses`: the sum of the weights of the
uses in the worklist. -/
def worklistWeight (ir : IR) (rank : Nat → Nat) (uses : List Use) : Nat :=
  (uses.map (useWeight ir rank)).sum

/-- The bits the loop of `getBufferCopyMode` adds for dependencies that all
lie in the block of the call, each before the call or after `deinitVulkan`. -/
def localBits (ir : IR) (deinit callOp : Nat) (deps : List Nat) : Nat :=
  (if deps.any (fun op => ir.isBeforeInBlock op callOp) then kBufferCopyModeHostToDevice else 0)
    ||| (if deps.any (fun op => ir.isBeforeInBlock deinit op) then kBufferCopyModeDeviceToHost
         else 0)


/-- The positions at which `v` occurs in a list whose first position is
`i`. -/
def positions (v : Value) : Nat → List Value → List Nat
  | _, [] => []
  | i, w :: ws => if w = v then i :: positions v (i + 1) ws else positions v (i + 1) ws

/-- The keys of the map are pairwise distinct, as in every `DenseMap`. -/
def KeysDistinct (map : List (Value × (Nat × Nat))) : Prop := (map.map Prod.fst).Nodup

/-! ## Notions used in the statements about the pass -/

/-- The calls created after the `bindAllBuffers` call when a launch is
lowered in state `st` (after `initVulkan`), with `transfers` the transfer
calls and `symbols` the optional symbols recorded so far. -/
def callsAfterBind (env : Env) (st : PassState) (op : Operation) (launchOp : LaunchFuncOp)
    (transfers : List Call) (symbols : List String) : List Call :=
  [setLaunchKernelActionCall st.vulkanRuntime launchOp] ++ transfers
    ++ [addLaunchActionToScheduleCall st.vulkanRuntime]
    ++ (if st.lauchFuncIndex = st.numKernel - 1 then
          [runCall st.vulkanRuntime, deinitVulkanCall st.vulkanRuntime] else [])
    ++ (if env.vlog4 then (printBuffers (kernelOperands op) symbols).1 else [])

/-- The members that `bindBuffers` does not write. -/
def SameRuntime (st st2 : PassState) : Prop :=
  st2.vulkanRuntime = st.vulkanRuntime ∧ st2.deinitVulkan = st.deinitVulkan ∧
    st2.lauchFuncIndex = st.lauchFuncIndex ∧ st2.numKernel = st.numKernel ∧
    st2.passFailed = st.passFailed ∧ st2.bufferMap = st.bufferMap

/-- A typed binding call on the runtime `rt`. -/
def IsBindingCall (rt : Option Nat) (c : Call) : Prop :=
  ∃ elementType bindIndex bufferByteSize copyMode buffer,
    c = bindBufferCall rt elementType bindIndex bufferByteSize copyMode buffer

/-- The calls standing at each slot once the binding calls `binds` of the
slot are put between the calls created before and after the
`bindAllBuffers` call. -/
def weaveSlots : List Site → List (List Call) → List (List Call)
  | site :: sites, b :: binds => (site.before ++ b ++ site.after) :: weaveSlots sites binds
  | _, _ => []

/-- A call that is not `initVulkan`, `run` or `deinitVulkan` and whose
runtime operands, if any, are `rt`. -/
def CallOK (rt : Option Nat) (c : Call) : Prop :=
  c.callee ≠ kInitVulkan ∧ c.callee ≠ kRun ∧ c.callee ≠ kDeinitVulkan ∧
    ∀ h, Arg.runtime h ∈ c.operands → h = rt

/-- The state in which the walk over the launches starts. -/
def startState (ir : IR) : PassState :=
  { PassState.initial with numKernel := countLaunches ir.ops }

/-- The invariant of the transfer table during the walk over the launches:
distinct keys, every record made by an earlier launch, and at most
`numKernel` launches lowered once the remaining ones are. -/
def TransferInv (total : Nat) (ops : List Operation) (st : PassState) : Prop :=
  KeysDistinct st.bufferMap ∧
    (∀ v src, (v, src) ∈ st.bufferMap → src.1 < st.lauchFuncIndex) ∧
    st.lauchFuncIndex + countLaunches ops ≤ st.numKernel ∧ st.numKernel = total

/-- No launch names a buffer twice among its kernel operands. -/
def noRepeatedOperands (ir : IR) : Bool :=
  ir.ops.all (fun op =>
    match op.kind with
    | OpKind.launchFunc _ => decide (kernelOperands op).Nodup
    | _ => true)

/-- The invariant of the walk over the launches when serialization fails
first for the launch index `k`: the launch index counts the launches met so
far up to `k`, where it stays, and the pass has failed once launch `k` has
been met. -/
def FailInv (k total : Nat) (ops : List Operation) (st : PassState) : Prop :=
  countLaunches ops ≤ total ∧
    st.lauchFuncIndex = min (total - countLaunches ops) k ∧
    (k < total - countLaunches ops → st.passFailed = true)

/-- The number of calls to `name` in a list of calls. -/
def countCallee (name : String) (calls : List Call) : Nat :=
  (calls.filter (fun c => decide (c.callee = name))).length

/-- The invariant of the walk over the launches when every shader module
serializes: the launch index counts the launches met so far. -/
def LowerInv (total : Nat) (ops : List Operation) (st : PassState) : Prop :=
  st.lauchFuncIndex + countLaunches ops = total ∧ st.numKernel = total

/-! ## Example programs -/

/-- A buffer allocated by operation 0 of the example programs. -/
def exampleBuffer : Value := ⟨ValueSource.opResult 0 0, MlirType.memref [4] ElemType.f32⟩

/-- A block with an allocation, a host write, a lowered launch (the
`bindAllBuffers` call, where `deinitVulkan` stands as well) and a host
read. -/
def exampleLocalIR : IR :=
  ⟨[⟨OpKind.alloc, 0, 0, [], [MlirType.memref [4] ElemType.f32]⟩,
    ⟨OpKind.other, 0, 1, [exampleBuffer], []⟩,
    ⟨OpKind.call kBindAllBuffers, 0, 2, [exampleBuffer], []⟩,
    ⟨OpKind.other, 0, 3, [exampleBuffer], []⟩]⟩

/-- The six grid and block size operands of the example launches. -/
def exampleConfig : List Value :=
  List.replicate 6 ⟨ValueSource.blockArgument 0 0, MlirType.other⟩

/-- The launch of the example programs. -/
def exampleLaunch : LaunchFuncOp := ⟨"kernel", some 1, some 1, some 1, some 32⟩

/-- Three shader modules that serialize. -/
def exampleEnv : Env := ⟨[⟨some [1, 2]⟩, ⟨some [3]⟩, ⟨some [4]⟩], false, fun _ => 0⟩

/-- One shader module whose serialization fails. -/
def exampleFailEnv : Env := ⟨[⟨none⟩], false, fun _ => 0⟩

/-- An allocation, three launches on the allocated buffer and a host
read. -/
def exampleChainIR : IR :=
  ⟨[⟨OpKind.alloc, 0, 0, [], [MlirType.memref [4] ElemType.f32]⟩,
    ⟨OpKind.launchFunc exampleLaunch, 0, 1, exampleConfig ++ [exampleBuffer], []⟩,
    ⟨OpKind.launchFunc exampleLaunch, 0, 2, exampleConfig ++ [exampleBuffer], []⟩,
    ⟨OpKind.launchFunc exampleLaunch, 0, 3, exampleConfig ++ [exampleBuffer], []⟩,
    ⟨OpKind.other, 0, 4, [exampleBuffer], []⟩]⟩

/-- One launch on an allocated buffer. -/
def exampleOneLaunchIR : IR :=
  ⟨[⟨OpKind.alloc, 0, 0, [], [MlirType.memref [4] ElemType.f32]⟩,
    ⟨OpKind.launchFunc exampleLaunch, 0, 1, exampleConfig ++ [exampleBuffer], []⟩]⟩

/-- One launch that names the allocated buffer twice. -/
def exampleDuplicateIR : IR :=
  ⟨[⟨OpKind.alloc, 0, 0, [], [MlirType.memref [4] ElemType.f32]⟩,
    ⟨OpKind.launchFunc exampleLaunch, 0, 1, exampleConfig ++ [exampleBuffer, exampleBuffer],
      []⟩]⟩

/-- A kernel operand that is not a memref (a scalar function argument). -/
def exampleScalar : Value := ⟨ValueSource.blockArgument 0 1, MlirType.other⟩

/-- One launch on an allocated buffer and a scalar. -/
def exampleScalarIR : IR :=
  ⟨[⟨OpKind.alloc, 0, 0, [], [MlirType.memref [4] ElemType.f32]⟩,
    ⟨OpKind.launchFunc exampleLaunch, 0, 1, exampleConfig ++ [exampleBuffer, exampleScalar],
      []⟩]⟩

/-- A buffer of four 1-bit integers allocated by operation 0. -/
def exampleBoolBuffer : Value :=
  ⟨ValueSource.opResult 0 0, MlirType.memref [4] (ElemType.integer 1)⟩

/-- One launch on a buffer of 1-bit integers. -/
def exampleBoolIR : IR :=
  ⟨[⟨OpKind.alloc, 0, 0, [], [MlirType.memref [4] (ElemType.integer 1)]⟩,
    ⟨OpKind.launchFunc exampleLaunch, 0, 1, exampleConfig ++ [exampleBoolBuffer], []⟩]⟩

/-- A launch whose block size x is the constant 2^32 + 1. -/
def exampleWideLaunch : LaunchFuncOp := ⟨"kernel", some 1, some 1, some 1, some 4294967297⟩

/-- One launch with the block size x of `exampleWideLaunch`. -/
def exampleWideIR : IR :=
  ⟨[⟨OpKind.alloc, 0, 0, [], [MlirType.memref [4] ElemType.f32]⟩,
    ⟨OpKind.launchFunc exampleWideLaunch, 0, 1, exampleConfig ++ [exampleBuffer], []⟩]⟩

/-- A buffer of 65536 x 65536 bytes. -/
def exampleLargeBuffer : Value :=
  ⟨ValueSource.opResult 0 0, MlirType.memref [65536, 65536] (ElemType.integer 8)⟩

/-- One launch on `exampleLargeBuffer`. -/
def exampleLargeIR : IR :=
  ⟨[⟨OpKind.alloc, 0, 0, [], [MlirType.memref [65536, 65536] (ElemType.integer 8)]⟩,
    ⟨OpKind.launchFunc exampleLaunch, 0, 1, exampleConfig ++ [exampleLargeBuffer], []⟩]⟩

/-! ## Further notions and example programs -/

/-- The bits that the dependent operation `op` adds to the copy mode in the
loop of `getBufferCopyMode`, when `deinitVulkan` is set. -/
def depBits (ir : IR) (deinit callOp op : Nat) : Nat :=
  if ir.getBlock op = ir.getBlock callOp then
    if ir.isBeforeInBlock op callOp then kBufferCopyModeHostToDevice
    else if ir.isBeforeInBlock deinit op then kBufferCopyModeDeviceToHost
    else 0
  else kBufferCopyModeHostToDevice ||| kBufferCopyModeDeviceToHost

/-- The dependent operation `op` lies in the block of the launch call,
neither before the call nor after the `deinitVulkan` call: the loop of
`getBufferCopyMode` emits a warning for it. -/
def isHazard (ir : IR) (deinit callOp op : Nat) : Bool :=
  decide (ir.getBlock op = ir.getBlock callOp) && !ir.isBeforeInBlock op callOp
    && !ir.isBeforeInBlock deinit op

/-- Two lowered launches on the allocated buffer with a host operation on the
buffer between them; `deinitVulkan` stands at the second one. -/
def exampleHazardIR : IR :=
  ⟨[⟨OpKind.alloc, 0, 0, [], [MlirType.memref [4] ElemType.f32]⟩,
    ⟨OpKind.call kBindAllBuffers, 0, 1, [exampleBuffer], []⟩,
    ⟨OpKind.other, 0, 2, [exampleBuffer], []⟩,
    ⟨OpKind.call kBindAllBuffers, 0, 3, [exampleBuffer], []⟩]⟩

/-- A lowered launch on the allocated buffer and an operation on the buffer
in another block. -/
def exampleCrossIR : IR :=
  ⟨[⟨OpKind.alloc, 0, 0, [], [MlirType.memref [4] ElemType.f32]⟩,
    ⟨OpKind.call kBindAllBuffers, 0, 1, [exampleBuffer], []⟩,
    ⟨OpKind.other, 1, 0, [exampleBuffer], []⟩]⟩

/-- The operation `op` is reached from the value by following def-use edges:
it uses the value, or it is reached from a result of an operation that uses
the value. -/
inductive IR.Reaches (ir : IR) : Value → Nat → Prop
  | use (v : Value) (u : Use) : u ∈ ir.getUses v → IR.Reaches ir v u.owner
  | through (v : Value) (u : Use) (r : Value) (op : Nat) :
      u ∈ ir.getUses v → r ∈ ir.getOpResults u.owner → IR.Reaches ir r op →
        IR.Reaches ir v op

/-- A value with two uses by the same operation, whose result is used in
turn: the use by operation 2 is pushed, popped and pushed again. -/
def exampleRepushIR : IR :=
  ⟨[⟨OpKind.alloc, 0, 0, [], [MlirType.memref [4] ElemType.f32]⟩,
    ⟨OpKind.other, 0, 1, [exampleBuffer, exampleBuffer], [MlirType.other]⟩,
    ⟨OpKind.other, 0, 2, [⟨ValueSource.opResult 1 0, MlirType.other⟩], []⟩]⟩

/-- One shader module and type identifiers that depend on the class of the
type only: every integer type has the identifier 1, every float type the
identifier `floatID`. -/
def exampleTypesEnv (floatID : Nat) : Env :=
  ⟨[⟨some [1]⟩], false, fun t =>
    match t with
    | ElemType.integer _ => 1
    | _ => floatID⟩

/-- One launch on five allocated buffers of the element types i8, i16, i32,
i64 and f32. -/
def exampleFiveTypesIR : IR :=
  ⟨[⟨OpKind.alloc, 0, 0, [], [MlirType.memref [4] (ElemType.integer 8)]⟩,
    ⟨OpKind.alloc, 0, 1, [], [MlirType.memref [4] (ElemType.integer 16)]⟩,
    ⟨OpKind.alloc, 0, 2, [], [MlirType.memref [4] (ElemType.integer 32)]⟩,
    ⟨OpKind.alloc, 0, 3, [], [MlirType.memref [4] (ElemType.integer 64)]⟩,
    ⟨OpKind.alloc, 0, 4, [], [MlirType.memref [4] ElemType.f32]⟩,
    ⟨OpKind.launchFunc exampleLaunch, 0, 5, exampleConfig ++
      [⟨ValueSource.opResult 0 0, MlirType.memref [4] (ElemType.integer 8)⟩,
       ⟨ValueSource.opResult 1 0, MlirType.memref [4] (ElemType.integer 16)⟩,
       ⟨ValueSource.opResult 2 0, MlirType.memref [4] (ElemType.integer 32)⟩,
       ⟨ValueSource.opResult 3 0, MlirType.memref [4] (ElemType.integer 64)⟩,
       ⟨ValueSource.opResult 4 0, MlirType.memref [4] ElemType.f32⟩], []⟩]⟩

/-- A second buffer, allocated by operation 1. -/
def exampleBufferC : Value := ⟨ValueSource.opResult 1 0, MlirType.memref [4] ElemType.f32⟩

/-- Two launches: launch 0 on B, launch 1 on C and B, and a host read of B
after them. -/
def exampleTwoLaunchIR : IR :=
  ⟨[⟨OpKind.alloc, 0, 0, [], [MlirType.memref [4] ElemType.f32]⟩,
    ⟨OpKind.alloc, 0, 1, [], [MlirType.memref [4] ElemType.f32]⟩,
    ⟨OpKind.launchFunc exampleLaunch, 0, 2, exampleConfig ++ [exampleBuffer], []⟩,
    ⟨OpKind.launchFunc exampleLaunch, 0, 3, exampleConfig ++ [exampleBufferC, exampleBuffer],
      []⟩,
    ⟨OpKind.other, 0, 4, [exampleBuffer], []⟩]⟩

/-- The empty sites of operations that are not launches. -/
def emptySites (ops : List Operation) : List Site := ops.map (fun _ => (⟨[], []⟩ : Site))

/-- The program once every launch is lowered: each `gpu.launch_func` is
replaced by the `bindAllBuffers` call on its kernel operands. -/
def IR.lowered (ir : IR) : IR :=
  ⟨ir.ops.map (fun op =>
    match op.kind with
    | OpKind.launchFunc _ => bindAllBuffersOp op
    | _ => op)⟩

/-- No shader module at all. -/
def exampleNoModuleEnv : Env := ⟨[], false, fun _ => 0⟩

/-- A lowered launch on the allocated buffer, which nothing else uses. -/
def exampleUnusedIR : IR :=
  ⟨[⟨OpKind.alloc, 0, 0, [], [MlirType.memref [4] ElemType.f32]⟩,
    ⟨OpKind.call kBindAllBuffers, 0, 1, [exampleBuffer], []⟩]⟩

/-! ## Termination of the def-use walk -/

theorem operandUses_mem (v : Value) (owner : Nat) :
    ∀ (ws : List Value) (i : Nat) (u : Use), u ∈ operandUses v owner i ws →
      u.owner = owner ∧ v ∈ ws := by
  intro ws
  induction ws with
  | nil => intro i u h; simp [operandUses] at h
  | cons w ws ih =>
    intro i u h
    unfold operandUses at h
    split at h
    · rename_i hw
      rcases List.mem_cons.mp h with h | h
      · subst h; exact ⟨rfl, by simp [hw]⟩
      · have := ih _ _ h
        exact ⟨this.1, List.mem_cons_of_mem _ this.2⟩
    · have := ih _ _ h
      exact ⟨this.1, List.mem_cons_of_mem _ this.2⟩

theorem usesFrom_mem (v : Value) :
    ∀ (ops : List Operation) (o : Nat) (u : Use), u ∈ usesFrom v o ops →
      o ≤ u.owner ∧ ∃ op, ops[u.owner - o]? = some op ∧ v ∈ op.operands := by
  intro ops
  induction ops with
  | nil => intro o u h; simp [usesFrom] at h
  | cons op rest ih =>
    intro o u h
    unfold usesFrom at h
    rcases List.mem_append.mp h with h | h
    · have := operandUses_mem v o _ _ _ h
      refine ⟨by omega, op, ?_, this.2⟩
      simp [this.1]
    · obtain ⟨h1, op2, h2, h3⟩ := ih _ _ h
      refine ⟨by omega, op2, ?_, h3⟩
      have : u.owner - o = (u.owner - (o + 1)) + 1 := by omega
      rw [this]
      simpa using h2

theorem getUses_mem (ir : IR) (v : Value) (u : Use) (h : u ∈ ir.getUses v) :
    ∃ op, ir.ops[u.owner]? = some op ∧ v ∈ op.operands := by
  obtain ⟨_, op, h2, h3⟩ := usesFrom_mem v ir.ops 0 u h
  exact ⟨op, by simpa using h2, h3⟩

theorem getUses_owner_lt (ir : IR) (v : Value) (u : Use) (h : u ∈ ir.getUses v) :
    u.owner < ir.ops.length := by
  obtain ⟨op, h2, _⟩ := getUses_mem ir v u h
  by_contra hc
  rw [List.getElem?_eq_none (by omega)] at h2
  cases h2

theorem opResultsFrom_mem (owner : Nat) :
    ∀ (ts : List MlirType) (i : Nat) (r : Value), r ∈ opResultsFrom owner i ts →
      ∃ j, r.source = ValueSource.opResult owner j := by
  intro ts
  induction ts with
  | nil => intro i r h; simp [opResultsFrom] at h
  | cons t ts ih =>
    intro i r h
    unfold opResultsFrom at h
    rcases List.mem_cons.mp h with h | h
    · exact ⟨i, by rw [h]⟩
    · exact ih _ _ h

theorem mem_setVectorInsert (uses : List Use) (u x : Use) :
    x ∈ setVectorInsert uses u ↔ x = u ∨ x ∈ uses := by
  unfold setVectorInsert
  split
  · rename_i h
    constructor
    · intro hx; exact Or.inr hx
    · rintro (hx | hx)
      · rw [hx]; exact h
      · exact hx
  · simp

theorem mem_foldl_setVectorInsert (l : List Use) :
    ∀ (acc : List Use) (x : Use), x ∈ l.foldl setVectorInsert acc ↔ x ∈ acc ∨ x ∈ l := by
  induction l with
  | nil => intro acc x; simp
  | cons u l ih =>
    intro acc x
    simp only [List.foldl_cons, ih, mem_setVectorInsert, List.mem_cons]
    tauto

theorem mem_pushResultsFold (ir : IR) (rs : List Value) :
    ∀ (acc : List Use) (x : Use),
      x ∈ rs.foldl (fun acc r => (ir.getUses r).foldl setVectorInsert acc) acc →
        x ∈ acc ∨ ∃ r ∈ rs, x ∈ ir.getUses r := by
  induction rs with
  | nil => intro acc x h; exact Or.inl h
  | cons r rs ih =>
    intro acc x h
    simp only [List.foldl_cons] at h
    rcases ih _ _ h with h | ⟨r2, hr2, hx⟩
    · rcases (mem_foldl_setVectorInsert _ _ _).mp h with h | h
      · exact Or.inl h
      · exact Or.inr ⟨r, List.mem_cons_self _ _, h⟩
    · exact Or.inr ⟨r2, List.mem_cons_of_mem _ hr2, hx⟩

theorem worklistWeight_insert_le (ir : IR) (rank : Nat → Nat) (uses : List Use) (u : Use) :
    worklistWeight ir rank (setVectorInsert uses u) ≤ worklistWeight ir rank uses + useWeight ir rank u := by
  unfold setVectorInsert
  split
  · omega
  · simp [worklistWeight]; omega

theorem worklistWeight_foldl_le (ir : IR) (rank : Nat → Nat) (W : Nat) (l : List Use) :
    ∀ (acc : List Use), (∀ u ∈ l, useWeight ir rank u ≤ W) →
      worklistWeight ir rank (l.foldl setVectorInsert acc) ≤ worklistWeight ir rank acc + l.length * W := by
  induction l with
  | nil => intro acc _; simp
  | cons u l ih =>
    intro acc h
    simp only [List.foldl_cons, List.length_cons]
    have h1 := ih (setVectorInsert acc u) (fun x hx => h x (List.mem_cons_of_mem _ hx))
    have h2 := worklistWeight_insert_le ir rank acc u
    have h3 := h u (List.mem_cons_self _ _)
    calc worklistWeight ir rank (l.foldl setVectorInsert (setVectorInsert acc u))
        ≤ worklistWeight ir rank (setVectorInsert acc u) + l.length * W := h1
      _ ≤ worklistWeight ir rank acc + useWeight ir rank u + l.length * W := by omega
      _ ≤ worklistWeight ir rank acc + (l.length + 1) * W := by
          rw [Nat.add_mul, Nat.one_mul]; omega

theorem worklistWeight_pushFold_le (ir : IR) (rank : Nat → Nat) (W : Nat) (rs : List Value) :
    ∀ (acc : List Use), (∀ r ∈ rs, ∀ u ∈ ir.getUses r, useWeight ir rank u ≤ W) →
      worklistWeight ir rank (rs.foldl (fun acc r => (ir.getUses r).foldl setVectorInsert acc) acc)
        ≤ worklistWeight ir rank acc + (rs.map (fun r => (ir.getUses r).length)).sum * W := by
  induction rs with
  | nil => intro acc _; simp
  | cons r rs ih =>
    intro acc h
    simp only [List.foldl_cons, List.map_cons, List.sum_cons]
    have h1 := ih ((ir.getUses r).foldl setVectorInsert acc)
      (fun r2 hr2 => h r2 (List.mem_cons_of_mem _ hr2))
    have h2 := worklistWeight_foldl_le ir rank W (ir.getUses r) acc (h r (List.mem_cons_self _ _))
    rw [Nat.add_mul]
    omega

theorem le_foldr_max (values : List Nat) (x : Nat) (hx : x ∈ values) :
    x ≤ values.foldr max 0 := by
  induction values with
  | nil => exact absurd hx (List.not_mem_nil x)
  | cons y rest ih =>
    show x ≤ max y (rest.foldr max 0)
    rcases List.mem_cons.mp hx with hxy | hxr
    · rw [hxy]; exact Nat.le_max_left _ _
    · exact Nat.le_trans (ih hxr) (Nat.le_max_right _ _)

theorem pushCount_le_maxPush (ir : IR) (o : Nat) (h : o < ir.ops.length) :
    ir.pushCount o ≤ ir.maxPush := by
  unfold IR.maxPush
  apply le_foldr_max
  exact List.mem_map.mpr ⟨o, List.mem_range.mpr h, rfl⟩

/-- The uses inserted after popping a use owned by `o` are owned by
operations in range that come after `o` in the topological numbering. -/
theorem pushed_use_rank (ir : IR) (rank : Nat → Nat)
    (hrank : ∀ user op, ir.ops[user]? = some op → ∀ v ∈ op.operands, ∀ o i,
      v.source = ValueSource.opResult o i → rank o < rank user)
    (o : Nat) (r : Value) (hr : r ∈ ir.getOpResults o) (u : Use) (hu : u ∈ ir.getUses r) :
    rank o < rank u.owner := by
  obtain ⟨j, hj⟩ := opResultsFrom_mem o _ _ r hr
  obtain ⟨op, hop, hv⟩ := getUses_mem ir r u hu
  exact hrank u.owner op hop r hv o j hj

theorem worklistWeight_push_lt (ir : IR) (rank : Nat → Nat)
    (hlt : ∀ o, o < ir.ops.length → rank o < ir.ops.length)
    (hrank : ∀ user op, ir.ops[user]? = some op → ∀ v ∈ op.operands, ∀ o i,
      v.source = ValueSource.opResult o i → rank o < rank user)
    (u : Use) (uses : List Use) (hu : u.owner < ir.ops.length) :
    worklistWeight ir rank (ir.pushResultUses u.owner uses)
      < worklistWeight ir rank (u :: uses) := by
  have hr := hlt _ hu
  have hW : ∀ r ∈ ir.getOpResults u.owner, ∀ x ∈ ir.getUses r,
      useWeight ir rank x ≤ (ir.maxPush + 1) ^ (ir.ops.length - rank u.owner - 1) := by
    intro r hr x hx
    have h1 := pushed_use_rank ir rank hrank u.owner r hr x hx
    unfold useWeight
    exact Nat.pow_le_pow_right (Nat.succ_pos _) (by omega)
  have h1 := worklistWeight_pushFold_le ir rank _ (ir.getOpResults u.owner) uses hW
  have h2 := pushCount_le_maxPush ir u.owner hu
  have h3 : useWeight ir rank u
      = (ir.maxPush + 1) * (ir.maxPush + 1) ^ (ir.ops.length - rank u.owner - 1) := by
    unfold useWeight
    have : ir.ops.length - rank u.owner = (ir.ops.length - rank u.owner - 1) + 1 := by omega
    rw [this, Nat.pow_succ, Nat.mul_comm]
    simp
  have h4 : 0 < (ir.maxPush + 1) ^ (ir.ops.length - rank u.owner - 1) :=
    Nat.pos_pow_of_pos _ (Nat.succ_pos _)
  have h5 : ir.pushCount u.owner * (ir.maxPush + 1) ^ (ir.ops.length - rank u.owner - 1)
      < (ir.maxPush + 1) * (ir.maxPush + 1) ^ (ir.ops.length - rank u.owner - 1) :=
    Nat.mul_lt_mul_of_lt_of_le (by omega) (Nat.le_refl _) h4
  have h6 : worklistWeight ir rank (u :: uses)
      = useWeight ir rank u + worklistWeight ir rank uses := by
    simp [worklistWeight]
  unfold IR.pushResultUses
  unfold IR.pushCount at h5
  rw [h6, h3]
  omega

theorem pushResultUses_owner_lt (ir : IR) (o : Nat) (uses : List Use)
    (h : ∀ u ∈ uses, u.owner < ir.ops.length) :
    ∀ u ∈ ir.pushResultUses o uses, u.owner < ir.ops.length := by
  intro u hu
  rcases mem_pushResultsFold ir _ _ _ hu with hu | ⟨r, _, hu⟩
  · exact h u hu
  · exact getUses_owner_lt ir r u hu

/-- With more fuel than the weight of the worklist, the worklist loop of an
acyclic def-use graph empties its worklist. -/
theorem walkUses_isSome (ir : IR) (rank : Nat → Nat)
    (hlt : ∀ o, o < ir.ops.length → rank o < ir.ops.length)
    (hrank : ∀ user op, ir.ops[user]? = some op → ∀ v ∈ op.operands, ∀ o i,
      v.source = ValueSource.opResult o i → rank o < rank user) :
    ∀ (fuel : Nat) (uses : List Use) (operations : List Nat),
      (∀ u ∈ uses, u.owner < ir.ops.length) → worklistWeight ir rank uses < fuel →
        ∃ deps, walkUses ir fuel uses operations = some deps := by
  intro fuel
  induction fuel with
  | zero => intro uses operations _ h; omega
  | succ fuel ih =>
    intro uses operations hown hw
    cases uses with
    | nil => exact ⟨operations, by simp [walkUses]⟩
    | cons u rest =>
      have hu := hown u (List.mem_cons_self _ _)
      have h1 := worklistWeight_push_lt ir rank hlt hrank u rest hu
      have h2 := pushResultUses_owner_lt ir u.owner rest
        (fun x hx => hown x (List.mem_cons_of_mem _ hx))
      obtain ⟨deps, hd⟩ := ih (ir.pushResultUses u.owner rest)
        (smallSetInsert operations u.owner) h2 (by omega)
      exact ⟨deps, by simp [walkUses, hd]⟩

/-- On an acyclic def-use graph `getExternalDependentOperations` returns for
every value that is an operation result. -/
theorem getExternalDependentOperations_isSome (ir : IR) (optionalSymbols : List String)
    (value : Value) (definingOp index : Nat)
    (hsrc : value.source = ValueSource.opResult definingOp index) (hacyclic : ir.Acyclic) :
    ∃ deps, getExternalDependentOperations ir optionalSymbols value = some deps := by
  obtain ⟨rank, hlt, hrank⟩ := hacyclic
  have hown : ∀ u ∈ (ir.getUses value).foldl setVectorInsert [], u.owner < ir.ops.length := by
    intro u hu
    rcases (mem_foldl_setVectorInsert _ _ _).mp hu with hu | hu
    · cases hu
    · exact getUses_owner_lt ir value u hu
  have hw : worklistWeight ir rank ((ir.getUses value).foldl setVectorInsert [])
      < ir.walkFuel value := by
    have := worklistWeight_foldl_le ir rank ((ir.maxPush + 1) ^ ir.ops.length)
      (ir.getUses value) [] (by
        intro u _
        unfold useWeight
        exact Nat.pow_le_pow_right (Nat.succ_pos _) (Nat.sub_le _ _))
    have h0 : worklistWeight ir rank [] = 0 := rfl
    unfold IR.walkFuel
    omega
  obtain ⟨deps, hd⟩ := walkUses_isSome ir rank hlt hrank (ir.walkFuel value) _
    (smallSetInsert [] definingOp) hown hw
  refine ⟨deps.filter (fun op => !isInternalOperation optionalSymbols (ir.getOp op)), ?_⟩
  simp [getExternalDependentOperations, hsrc, hd]

theorem definedBeforeUseFrom_spec :
    ∀ (ops : List Operation) (start : Nat), definedBeforeUseFrom start ops = true →
      ∀ k op, ops[k]? = some op → ∀ v ∈ op.operands, ∀ o i,
        v.source = ValueSource.opResult o i → o < start + k := by
  intro ops
  induction ops with
  | nil => intro start _ k op h; simp at h
  | cons op0 rest ih =>
    intro start h k op hk v hv o i hs
    simp only [definedBeforeUseFrom, Bool.and_eq_true] at h
    cases k with
    | zero =>
      simp at hk
      subst hk
      have := (List.all_eq_true.mp h.1) v hv
      simp [hs] at this
      omega
    | succ k =>
      simp at hk
      have := ih (start + 1) h.2 k op hk v hv o i hs
      omega

/-- Definitions before uses in walk order make the def-use graph acyclic. -/
theorem acyclic_of_definedBeforeUse (ir : IR) (h : ir.definedBeforeUse = true) : ir.Acyclic := by
  refine ⟨id, fun o ho => ho, ?_⟩
  intro user op hop v hv o i hs
  have := definedBeforeUseFrom_spec ir.ops 0 h user op hop v hv o i hs
  simpa using this

/-! ## Copy-direction analysis: properties -/

theorem copyModeLoop_local (ir : IR) (deinit callOp : Nat)
    (horder : (ir.getOp callOp).order ≤ (ir.getOp deinit).order) :
    ∀ (deps : List Nat) (copyMode warnings : Nat),
      (∀ op ∈ deps, ir.getBlock op = ir.getBlock callOp ∧
        (ir.isBeforeInBlock op callOp = true ∨ ir.isBeforeInBlock deinit op = true)) →
      copyModeLoop ir (some deinit) callOp deps copyMode warnings
        = some (copyMode ||| localBits ir deinit callOp deps, warnings) := by
  intro deps
  induction deps with
  | nil => intro m w _; simp [copyModeLoop, localBits]
  | cons op rest ih =>
    intro m w h
    have hop := h op (List.mem_cons_self _ _)
    have hrest := fun x hx => h x (List.mem_cons_of_mem _ hx)
    unfold copyModeLoop
    rw [if_pos hop.1]
    by_cases hb : ir.isBeforeInBlock op callOp = true
    · have ha : ir.isBeforeInBlock deinit op = false := by
        unfold IR.isBeforeInBlock at hb ⊢
        simp at hb ⊢
        omega
      rw [if_pos hb, ih _ _ hrest]
      congr 2
      unfold localBits
      simp only [List.any_cons, hb, ha, Bool.true_or, Bool.false_or, if_true]
      by_cases h1 : rest.any (fun op => ir.isBeforeInBlock op callOp) = true
      · simp only [h1, if_true]
        rw [← Nat.or_assoc, Nat.or_assoc m, Nat.or_self, Nat.or_assoc]
      · simp only [h1, Bool.false_eq_true, if_false]
        rw [Nat.zero_or, Nat.or_assoc]
    · have ha : ir.isBeforeInBlock deinit op = true := by
        rcases hop.2 with h1 | h1
        · exact absurd h1 hb
        · exact h1
      rw [if_neg hb]
      simp only [ha, if_true]
      rw [ih _ _ hrest]
      congr 2
      unfold localBits
      have hb2 : ir.isBeforeInBlock op callOp = false := by simpa using hb
      simp only [List.any_cons, hb2, ha, Bool.true_or, Bool.false_or, if_true]
      by_cases h1 : rest.any (fun op => ir.isBeforeInBlock deinit op) = true
      · simp only [h1, if_true]
        rw [← Nat.or_assoc, Nat.or_assoc m, Nat.or_comm kBufferCopyModeDeviceToHost,
          ← Nat.or_assoc, Nat.or_assoc _ kBufferCopyModeDeviceToHost, Nat.or_self, Nat.or_assoc]
      · simp only [h1, Bool.false_eq_true, if_false]
        rw [Nat.or_zero, ← Nat.or_assoc, Nat.or_assoc m, Nat.or_comm kBufferCopyModeDeviceToHost,
          Nat.or_assoc]

/-- C1: for every launch call site and every buffer that is a block
argument, `getBufferCopyMode` returns HostToDevice|DeviceToHost (3), without
a warning, whatever the program, the recorded symbols and the `deinitVulkan`
member are. -/
theorem getBufferCopyMode_blockArgument (ir : IR) (optionalSymbols : List String)
    (deinitVulkan : Option Nat) (callOp block index : Nat) (type : MlirType) :
    getBufferCopyMode ir optionalSymbols deinitVulkan callOp
      ⟨ValueSource.blockArgument block index, type⟩ = some (3, 0) := by
  rfl

/-- C2: for a buffer defined by an operation of an acyclic program, when
every operation of its external dependency set lies in the block of the
launch call and is ordered before the launch call or after the deinit call
(which does not precede the launch call), `getBufferCopyMode` returns 1
(HostToDevice) if only before-launch dependencies exist, 2 (DeviceToHost) if
only after-teardown dependencies exist, and 3 if both exist. -/
theorem getBufferCopyMode_within_block (ir : IR) (optionalSymbols : List String)
    (deinit callOp : Nat) (buffer : Value) (definingOp index : Nat)
    (hsrc : buffer.source = ValueSource.opResult definingOp index)
    (hacyclic : ir.Acyclic)
    (horder : (ir.getOp callOp).order ≤ (ir.getOp deinit).order)
    (hlocal : ∀ op ∈ externalDeps ir optionalSymbols buffer,
      ir.getBlock op = ir.getBlock callOp ∧
        (ir.isBeforeInBlock op callOp = true ∨ ir.isBeforeInBlock deinit op = true)) :
    (((∃ op ∈ externalDeps ir optionalSymbols buffer, ir.isBeforeInBlock op callOp = true) ∧
        ¬ (∃ op ∈ externalDeps ir optionalSymbols buffer, ir.isBeforeInBlock deinit op = true)) →
      getBufferCopyMode ir optionalSymbols (some deinit) callOp buffer = some (1, 0)) ∧
    ((¬ (∃ op ∈ externalDeps ir optionalSymbols buffer, ir.isBeforeInBlock op callOp = true) ∧
        (∃ op ∈ externalDeps ir optionalSymbols buffer, ir.isBeforeInBlock deinit op = true)) →
      getBufferCopyMode ir optionalSymbols (some deinit) callOp buffer = some (2, 0)) ∧
    (((∃ op ∈ externalDeps ir optionalSymbols buffer, ir.isBeforeInBlock op callOp = true) ∧
        (∃ op ∈ externalDeps ir optionalSymbols buffer, ir.isBeforeInBlock deinit op = true)) →
      getBufferCopyMode ir optionalSymbols (some deinit) callOp buffer = some (3, 0)) := by
  obtain ⟨deps, hdeps⟩ :=
    getExternalDependentOperations_isSome ir optionalSymbols buffer definingOp index hsrc hacyclic
  have hext : externalDeps ir optionalSymbols buffer = deps := by
    simp [externalDeps, hdeps]
  rw [hext] at hlocal ⊢
  have hloop := copyModeLoop_local ir deinit callOp horder deps kBufferCopyModeInit 0 hlocal
  have hmode : getBufferCopyMode ir optionalSymbols (some deinit) callOp buffer
      = some (kBufferCopyModeInit ||| localBits ir deinit callOp deps, 0) := by
    simp only [getBufferCopyMode, hsrc, hdeps]
    exact hloop
  rw [hmode]
  have hbefore : (∃ op ∈ deps, ir.isBeforeInBlock op callOp = true) ↔
      deps.any (fun op => ir.isBeforeInBlock op callOp) = true := by
    simp [List.any_eq_true]
  have hafter : (∃ op ∈ deps, ir.isBeforeInBlock deinit op = true) ↔
      deps.any (fun op => ir.isBeforeInBlock deinit op) = true := by
    simp [List.any_eq_true]
  rw [hbefore, hafter]
  unfold localBits
  refine ⟨?_, ?_, ?_⟩
  · rintro ⟨h1, h2⟩
    simp only [h1, if_true]
    rw [if_neg h2]
    rfl
  · rintro ⟨h1, h2⟩
    simp only [h2, if_true]
    rw [if_neg h1]
    rfl
  · rintro ⟨h1, h2⟩
    simp only [h1, h2, if_true]
    rfl

/-- Witness of C2 on `exampleLocalIR`: the buffer is written by the host
before the launch and read after the teardown, so both bits are set. -/
theorem getBufferCopyMode_within_block_witness :
    getBufferCopyMode exampleLocalIR [] (some 2) 2 exampleBuffer = some (3, 0) :=
  (getBufferCopyMode_within_block exampleLocalIR [] 2 2 exampleBuffer 0 0 rfl
    (acyclic_of_definedBeforeUse exampleLocalIR (by decide)) (by decide) (by decide)).2.2
    ⟨by decide, by decide⟩

/-! ## Transfers: properties -/

theorem mem_denseMapSet (key : Value) (value : Nat × Nat) :
    ∀ (map : List (Value × (Nat × Nat))), KeysDistinct map →
      ∀ (k : Value) (v : Nat × Nat), (k, v) ∈ denseMapSet map key value ↔
        (k = key ∧ v = value) ∨ (k ≠ key ∧ (k, v) ∈ map) := by
  intro map
  induction map with
  | nil =>
    intro _ k v
    simp [denseMapSet]
  | cons p rest ih =>
    intro hd k v
    have hd2 : KeysDistinct rest := (List.nodup_cons.mp hd).2
    have hp : p.1 ∉ rest.map Prod.fst := (List.nodup_cons.mp hd).1
    unfold denseMapSet
    split
    · rename_i hk
      simp only [List.mem_cons, Prod.mk.injEq]
      constructor
      · rintro (h | h)
        · exact Or.inl h
        · by_cases hkk : k = key
          · exfalso
            apply hp
            rw [hk, ← hkk]
            exact List.mem_map.mpr ⟨(k, v), h, rfl⟩
          · exact Or.inr ⟨hkk, Or.inr h⟩
      · rintro (h | ⟨h1, h2 | h2⟩)
        · exact Or.inl h
        · exfalso; apply h1; rw [← hk, ← h2]
        · exact Or.inr h2
    · rename_i hk
      simp only [List.mem_cons, ih hd2]
      constructor
      · rintro (h | h | h)
        · refine Or.inr ⟨?_, Or.inl h⟩
          intro hkk; apply hk; rw [← hkk]
          have : (k, v).1 = p.1 := by rw [h]
          exact this.symm
        · exact Or.inl h
        · exact Or.inr ⟨h.1, Or.inr h.2⟩
      · rintro (h | ⟨h1, h2 | h2⟩)
        · exact Or.inr (Or.inl h)
        · exact Or.inl h2
        · exact Or.inr (Or.inr ⟨h1, h2⟩)

theorem keys_denseMapSet (key : Value) (value : Nat × Nat) :
    ∀ (map : List (Value × (Nat × Nat))) (k : Value),
      k ∈ (denseMapSet map key value).map Prod.fst ↔ k = key ∨ k ∈ map.map Prod.fst := by
  intro map
  induction map with
  | nil => intro k; simp [denseMapSet]
  | cons p rest ih =>
    intro k
    unfold denseMapSet
    split
    · rename_i hk
      simp [hk]
    · simp only [List.map_cons, List.mem_cons, ih]
      tauto

theorem keysDistinct_denseMapSet (key : Value) (value : Nat × Nat) :
    ∀ (map : List (Value × (Nat × Nat))), KeysDistinct map →
      KeysDistinct (denseMapSet map key value) := by
  intro map
  induction map with
  | nil => intro _; simp [denseMapSet, KeysDistinct]
  | cons p rest ih =>
    intro hd
    have hd2 : KeysDistinct rest := (List.nodup_cons.mp hd).2
    have hp : p.1 ∉ rest.map Prod.fst := (List.nodup_cons.mp hd).1
    unfold denseMapSet
    split
    · rename_i hk
      unfold KeysDistinct
      simp only [List.map_cons, List.nodup_cons]
      exact ⟨by rw [← hk]; exact hp, hd2⟩
    · rename_i hk
      unfold KeysDistinct
      simp only [List.map_cons, List.nodup_cons]
      refine ⟨?_, ih hd2⟩
      intro h
      rcases (keys_denseMapSet key value rest p.1).mp h with h | h
      · exact hk h
      · exact hp h

theorem keysDistinct_unique {map : List (Value × (Nat × Nat))} (hd : KeysDistinct map)
    {k : Value} {v w : Nat × Nat} (hv : (k, v) ∈ map) (hw : (k, w) ∈ map) : v = w := by
  induction map with
  | nil => cases hv
  | cons p rest ih =>
    have hd2 : KeysDistinct rest := (List.nodup_cons.mp hd).2
    have hp : p.1 ∉ rest.map Prod.fst := (List.nodup_cons.mp hd).1
    rcases List.mem_cons.mp hv with hv | hv <;> rcases List.mem_cons.mp hw with hw | hw
    · have := hv.trans hw.symm
      exact (Prod.mk.inj this).2
    · exfalso; apply hp; rw [← hv]; exact List.mem_map.mpr ⟨(k, w), hw, rfl⟩
    · exfalso; apply hp; rw [← hw]; exact List.mem_map.mpr ⟨(k, v), hv, rfl⟩
    · exact ih hd2 hv hw

theorem mem_transferMatches (rt : Option Nat) (k i : Nat) (buffer : Value) :
    ∀ (map : List (Value × (Nat × Nat))) (symbols : List String) (c : Call),
      c ∈ (transferMatches rt k i buffer map symbols).1 ↔
        ∃ src, (buffer, src) ∈ map ∧ c = transferCall rt src k i := by
  intro map
  induction map with
  | nil => intro symbols c; simp [transferMatches]
  | cons p rest ih =>
    intro symbols c
    unfold transferMatches
    split
    · rename_i hp
      simp only [List.mem_cons, ih]
      constructor
      · rintro (h | ⟨src, h1, h2⟩)
        · exact ⟨p.2, Or.inl (by rw [← hp]), h⟩
        · exact ⟨src, Or.inr h1, h2⟩
      · rintro ⟨src, h1 | h1, h2⟩
        · left; rw [h2, ← h1]
        · exact Or.inr ⟨src, h1, h2⟩
    · rename_i hp
      simp only [List.mem_cons, ih]
      constructor
      · rintro ⟨src, h1, h2⟩
        exact ⟨src, Or.inr h1, h2⟩
      · rintro ⟨src, h1 | h1, h2⟩
        · exfalso; apply hp; rw [← h1]
        · exact ⟨src, h1, h2⟩

theorem positions_ge (v : Value) :
    ∀ (args : List Value) (i p : Nat), p ∈ positions v i args →
      i ≤ p ∧ args[p - i]? = some v := by
  intro args
  induction args with
  | nil => intro i p h; simp [positions] at h
  | cons w ws ih =>
    intro i p h
    unfold positions at h
    split at h
    · rename_i hw
      rcases List.mem_cons.mp h with h | h
      · subst h; simp [hw]
      · obtain ⟨h1, h2⟩ := ih _ _ h
        refine ⟨by omega, ?_⟩
        have : p - i = (p - (i + 1)) + 1 := by omega
        rw [this]; simpa using h2
    · obtain ⟨h1, h2⟩ := ih _ _ h
      refine ⟨by omega, ?_⟩
      have : p - i = (p - (i + 1)) + 1 := by omega
      rw [this]; simpa using h2

theorem mem_positions (v : Value) :
    ∀ (args : List Value) (i j : Nat), args[j]? = some v → (i + j) ∈ positions v i args := by
  intro args
  induction args with
  | nil => intro i j h; simp at h
  | cons w ws ih =>
    intro i j h
    unfold positions
    cases j with
    | zero =>
      simp at h
      simp [h]
    | succ j =>
      simp at h
      have := ih (i + 1) j h
      have e : i + 1 + j = i + (j + 1) := by omega
      rw [e] at this
      split
      · exact List.mem_cons_of_mem _ this
      · exact this

theorem positions_nil_not_mem (v : Value) :
    ∀ (args : List Value) (i : Nat), positions v i args = [] → v ∉ args := by
  intro args i h hv
  obtain ⟨j, hj⟩ := List.getElem?_of_mem hv
  have := mem_positions v args i j hj
  rw [h] at this
  cases this

theorem transferBuffersFrom_frame :
    ∀ (args : List Value) (i : Nat) (st : PassState),
      (transferBuffersFrom i args st).1.lauchFuncIndex = st.lauchFuncIndex ∧
      (transferBuffersFrom i args st).1.vulkanRuntime = st.vulkanRuntime ∧
      (transferBuffersFrom i args st).1.numKernel = st.numKernel ∧
      (transferBuffersFrom i args st).1.deinitVulkan = st.deinitVulkan ∧
      (transferBuffersFrom i args st).1.passFailed = st.passFailed := by
  intro args
  induction args with
  | nil => intro i st; simp [transferBuffersFrom]
  | cons a rest ih =>
    intro i st
    simp only [transferBuffersFrom]
    have := ih (i + 1) { st with
      optionalSymbols := (transferMatches st.vulkanRuntime st.lauchFuncIndex i a st.bufferMap
        st.optionalSymbols).2
      bufferMap := denseMapSet st.bufferMap a (st.lauchFuncIndex, i) }
    simpa using this

theorem transferBuffersFrom_keys :
    ∀ (args : List Value) (i : Nat) (st : PassState), KeysDistinct st.bufferMap →
      KeysDistinct (transferBuffersFrom i args st).1.bufferMap := by
  intro args
  induction args with
  | nil => intro i st h; simpa [transferBuffersFrom] using h
  | cons a rest ih =>
    intro i st h
    simp only [transferBuffersFrom]
    exact ih (i + 1) _ (keysDistinct_denseMapSet a _ _ h)

/-- A buffer that is not among the arguments keeps its record. -/
theorem transferBuffersFrom_absent (v : Value) :
    ∀ (args : List Value) (i : Nat) (st : PassState), KeysDistinct st.bufferMap →
      v ∉ args → ∀ src, (v, src) ∈ (transferBuffersFrom i args st).1.bufferMap ↔
        (v, src) ∈ st.bufferMap := by
  intro args
  induction args with
  | nil => intro i st _ _ src; simp [transferBuffersFrom]
  | cons a rest ih =>
    intro i st h hv src
    simp only [transferBuffersFrom]
    have hva : v ≠ a := fun e => hv (by simp [e])
    have hvr : v ∉ rest := fun e => hv (List.mem_cons_of_mem _ e)
    rw [ih (i + 1) _ (keysDistinct_denseMapSet a _ _ h) hvr src]
    simp only [mem_denseMapSet a _ _ h]
    constructor
    · rintro (h1 | h1)
      · exact absurd h1.1 hva
      · exact h1.2
    · intro h1; exact Or.inr ⟨hva, h1⟩

/-- A buffer that occurs once among the arguments, at position `p`, is
recorded with the current launch index and `p`. -/
theorem transferBuffersFrom_once (v : Value) :
    ∀ (args : List Value) (i : Nat) (st : PassState) (p : Nat), KeysDistinct st.bufferMap →
      positions v i args = [p] →
        (v, (st.lauchFuncIndex, p)) ∈ (transferBuffersFrom i args st).1.bufferMap := by
  intro args
  induction args with
  | nil => intro i st p _ h; simp [positions] at h
  | cons a rest ih =>
    intro i st p h hp
    simp only [transferBuffersFrom]
    unfold positions at hp
    split at hp
    · rename_i ha
      have hpi : i = p := by injection hp
      have hnil : positions v (i + 1) rest = [] := by injection hp
      have hvr := positions_nil_not_mem v rest (i + 1) hnil
      rw [transferBuffersFrom_absent v rest (i + 1) _ (keysDistinct_denseMapSet a _ _ h) hvr]
      rw [mem_denseMapSet a _ _ h]
      exact Or.inl ⟨ha.symm, by simp [hpi]⟩
    · have := ih (i + 1) { st with
        optionalSymbols := (transferMatches st.vulkanRuntime st.lauchFuncIndex i a st.bufferMap
          st.optionalSymbols).2
        bufferMap := denseMapSet st.bufferMap a (st.lauchFuncIndex, i) } p
        (keysDistinct_denseMapSet a _ _ h) hp
      simpa using this

/-- At the first position of a buffer that has a record, the transfer from
that record is created. -/
theorem transferBuffersFrom_first (v : Value) (src : Nat × Nat) :
    ∀ (args : List Value) (i : Nat) (st : PassState) (p : Nat) (ps : List Nat),
      KeysDistinct st.bufferMap → positions v i args = p :: ps → (v, src) ∈ st.bufferMap →
        transferCall st.vulkanRuntime src st.lauchFuncIndex p
          ∈ (transferBuffersFrom i args st).2 := by
  intro args
  induction args with
  | nil => intro i st p ps _ h; simp [positions] at h
  | cons a rest ih =>
    intro i st p ps h hp hsrc
    simp only [transferBuffersFrom]
    unfold positions at hp
    split at hp
    · rename_i ha
      have hpi : i = p := by injection hp
      apply List.mem_append_left
      rw [mem_transferMatches]
      exact ⟨src, by rw [ha]; exact hsrc, by rw [hpi]⟩
    · rename_i ha
      apply List.mem_append_right
      have := ih (i + 1) { st with
        optionalSymbols := (transferMatches st.vulkanRuntime st.lauchFuncIndex i a st.bufferMap
          st.optionalSymbols).2
        bufferMap := denseMapSet st.bufferMap a (st.lauchFuncIndex, i) } p ps
        (keysDistinct_denseMapSet a _ _ h) hp
        ((mem_denseMapSet a _ _ h v src).mpr (Or.inr ⟨fun e => ha e.symm, hsrc⟩))
      simpa using this

/-- Every transfer created is for an argument, from the record the buffer
had on entry or from an earlier position of the same launch. -/
theorem transferBuffersFrom_source :
    ∀ (args : List Value) (i : Nat) (st : PassState), KeysDistinct st.bufferMap →
      ∀ c ∈ (transferBuffersFrom i args st).2, ∃ j v src,
        args[j]? = some v ∧ c = transferCall st.vulkanRuntime src st.lauchFuncIndex (i + j) ∧
          ((v, src) ∈ st.bufferMap ∨ (src.1 = st.lauchFuncIndex ∧ v ∈ args.take j)) := by
  intro args
  induction args with
  | nil => intro i st _ c h; simp [transferBuffersFrom] at h
  | cons a rest ih =>
    intro i st h c hc
    simp only [transferBuffersFrom] at hc
    rcases List.mem_append.mp hc with hc | hc
    · obtain ⟨src, h1, h2⟩ := (mem_transferMatches _ _ _ _ _ _ _).mp hc
      exact ⟨0, a, src, by simp, by simpa using h2, Or.inl h1⟩
    · obtain ⟨j, v, src, h1, h2, h3⟩ := ih (i + 1) _ (keysDistinct_denseMapSet a _ _ h) c hc
      refine ⟨j + 1, v, src, by simpa using h1, ?_, ?_⟩
      · have e : i + (j + 1) = i + 1 + j := by omega
        rw [e]; simpa using h2
      · rcases h3 with h3 | h3
        · rcases (mem_denseMapSet a _ _ h v src).mp h3 with h4 | h4
          · right
            simp only [List.take_succ_cons, List.mem_cons]
            refine ⟨?_, Or.inl h4.1⟩
            rw [h4.2]
          · exact Or.inl h4.2
        · right
          simp only [List.take_succ_cons, List.mem_cons]
          exact ⟨by simpa using h3.1, Or.inr h3.2⟩

theorem afterInit_fields (st : PassState) (slot : Nat) :
    (afterInit st slot).lauchFuncIndex = st.lauchFuncIndex ∧
    (afterInit st slot).bufferMap = st.bufferMap ∧
    (afterInit st slot).numKernel = st.numKernel ∧
    (afterInit st slot).passFailed = st.passFailed ∧
    (afterInit st slot).deinitVulkan = st.deinitVulkan := by
  unfold afterInit
  split <;> simp

theorem createBinaryShader_cases (env : Env) (k : Nat) :
    createBinaryShader env k = (LogicalResult.failure, []) ∨
      ∃ binary, createBinaryShader env k = (LogicalResult.success, binary) := by
  unfold createBinaryShader
  split
  · exact Or.inl rfl
  · exact Or.inr ⟨_, rfl⟩

theorem convertGpuLaunchFunc_lowered (env : Env) (st : PassState) (slot : Nat) (op : Operation)
    (launchOp : LaunchFuncOp) (binary : List Nat)
    (hser : createBinaryShader env st.lauchFuncIndex = (LogicalResult.success, binary)) :
    (convertGpuLaunchFunc env st slot op launchOp).1.bufferMap
        = (transferBuffersFrom 0 (kernelOperands op) (afterInit st slot)).1.bufferMap ∧
    (convertGpuLaunchFunc env st slot op launchOp).1.lauchFuncIndex = st.lauchFuncIndex + 1 ∧
    (convertGpuLaunchFunc env st slot op launchOp).1.vulkanRuntime
        = (afterInit st slot).vulkanRuntime ∧
    (convertGpuLaunchFunc env st slot op launchOp).1.numKernel = st.numKernel ∧
    (convertGpuLaunchFunc env st slot op launchOp).1.passFailed = st.passFailed ∧
    (convertGpuLaunchFunc env st slot op launchOp).1.deinitVulkan
        = (if st.lauchFuncIndex = st.numKernel - 1 then some slot else st.deinitVulkan) ∧
    (convertGpuLaunchFunc env st slot op launchOp).2.1 = bindAllBuffersOp op ∧
    (convertGpuLaunchFunc env st slot op launchOp).2.2.before
        = (if st.lauchFuncIndex = 0 then [initVulkanCall] else [])
          ++ [createLaunchKernelActionCall (afterInit st slot).vulkanRuntime st.lauchFuncIndex
                binary launchOp] ∧
    (convertGpuLaunchFunc env st slot op launchOp).2.2.after
        = callsAfterBind env (afterInit st slot) op launchOp
            (transferBuffersFrom 0 (kernelOperands op) (afterInit st slot)).2
            (transferBuffersFrom 0 (kernelOperands op) (afterInit st slot)).1.optionalSymbols := by
  have hf := transferBuffersFrom_frame (kernelOperands op) 0 (afterInit st slot)
  have ha := afterInit_fields st slot
  obtain ⟨hf1, hf2, hf3, hf4, hf5⟩ := hf
  obtain ⟨ha1, ha2, ha3, ha4, ha5⟩ := ha
  unfold convertGpuLaunchFunc
  simp only [transferBuffers, ha1, hser, hf1, hf2, hf3]
  by_cases hl : st.lauchFuncIndex = st.numKernel - 1
  · cases hv : env.vlog4 <;>
      simp [hl, hv, callsAfterBind, ha1, ha3, hf1, hf2, hf3, hf4, hf5, ha4, ha5]
  · cases hv : env.vlog4 <;>
      simp [hl, hv, callsAfterBind, ha1, ha3, hf1, hf2, hf3, hf4, hf5, ha4, ha5]

theorem transferCall_inj {rt rt2 : Option Nat} {src src2 : Nat × Nat} {k k2 i i2 : Nat}
    (h : transferCall rt src k i = transferCall rt2 src2 k2 i2) :
    rt = rt2 ∧ src = src2 ∧ k = k2 ∧ i = i2 := by
  simp only [transferCall, Call.mk.injEq, List.cons.injEq, Arg.runtime.injEq,
    Arg.constant.injEq, Nat.cast_inj, true_and, and_true] at h
  obtain ⟨h1, h2, h3, h4, h5⟩ := h
  exact ⟨h1, Prod.ext h2 h3, h4, h5⟩

theorem printBuffers_callee :
    ∀ (buffers : List Value) (symbols : List String), ∀ c ∈ (printBuffers buffers symbols).1,
      c.callee = kPrint_memref_f32 := by
  intro buffers
  induction buffers with
  | nil => intro symbols c h; simp [printBuffers] at h
  | cons b rest ih =>
    intro symbols c h
    simp only [printBuffers] at h
    rcases List.mem_append.mp h with h | h
    · unfold printBuffer at h
      split at h
      · split at h
        · simp at h; rw [h]
        · simp at h
      · simp at h
    · exact ih _ c h

/-- A transfer call among the calls created after the `bindAllBuffers` call
is one of the transfer calls. -/
theorem mem_callsAfterBind_transfer (env : Env) (st : PassState) (op : Operation)
    (launchOp : LaunchFuncOp) (transfers : List Call) (symbols : List String) (c : Call)
    (hc : c ∈ callsAfterBind env st op launchOp transfers symbols)
    (hcallee : c.callee = kCreateVulkanMemoryTransferAction) : c ∈ transfers := by
  unfold callsAfterBind at hc
  simp only [List.mem_append, List.mem_singleton] at hc
  rcases hc with (((hc | hc) | hc) | hc) | hc
  · rw [hc] at hcallee
    exact absurd (show kSetVulkanLaunchKernelAction = kCreateVulkanMemoryTransferAction
      from hcallee) (by decide)
  · exact hc
  · rw [hc] at hcallee
    exact absurd (show kAddVulkanLaunchActionToSchedule = kCreateVulkanMemoryTransferAction
      from hcallee) (by decide)
  · split at hc
    · simp only [List.mem_cons, List.mem_singleton] at hc
      rcases hc with hc | hc | hc
      · rw [hc] at hcallee
        exact absurd (show kRun = kCreateVulkanMemoryTransferAction from hcallee) (by decide)
      · rw [hc] at hcallee
        exact absurd (show kDeinitVulkan = kCreateVulkanMemoryTransferAction from hcallee)
          (by decide)
      · cases hc
    · cases hc
  · split at hc
    · have := printBuffers_callee _ _ c hc
      rw [this] at hcallee
      exact absurd hcallee (by decide)
    · cases hc

theorem transfers_subset_callsAfterBind (env : Env) (st : PassState) (op : Operation)
    (launchOp : LaunchFuncOp) (transfers : List Call) (symbols : List String) (c : Call)
    (hc : c ∈ transfers) : c ∈ callsAfterBind env st op launchOp transfers symbols := by
  unfold callsAfterBind
  simp only [List.mem_append, List.mem_singleton]
  exact Or.inl (Or.inl (Or.inl (Or.inr hc)))

theorem afterInit_of_ne_zero (st : PassState) (slot : Nat) (h : st.lauchFuncIndex ≠ 0) :
    afterInit st slot = st := by
  unfold afterInit
  rw [if_neg h]

/-- C3: three launches lowered one after the other, each naming `buffer`
once among its kernel operands (at positions `b1`, `b2`, `b3`): lowering the
second launch creates the transfer from (first launch, `b1`) to (second
launch, `b2`), lowering the third creates the transfer from (second launch,
`b2`) to (third launch, `b3`), and no call created for the third launch is a
transfer from the first launch to (third launch, `b3`). -/
theorem transfer_chaining (env : Env) (st : PassState) (s1 s2 s3 : Nat)
    (op1 op2 op3 : Operation) (l1 l2 l3 : LaunchFuncOp) (buffer : Value) (b1 b2 b3 : Nat)
    (hkeys : KeysDistinct st.bufferMap)
    (hser1 : (createBinaryShader env st.lauchFuncIndex).1 = LogicalResult.success)
    (hser2 : (createBinaryShader env (st.lauchFuncIndex + 1)).1 = LogicalResult.success)
    (hser3 : (createBinaryShader env (st.lauchFuncIndex + 2)).1 = LogicalResult.success)
    (h1 : positions buffer 0 (kernelOperands op1) = [b1])
    (h2 : positions buffer 0 (kernelOperands op2) = [b2])
    (h3 : positions buffer 0 (kernelOperands op3) = [b3]) :
    transferCall (afterInit st s1).vulkanRuntime (st.lauchFuncIndex, b1) (st.lauchFuncIndex + 1) b2
      ∈ (convertGpuLaunchFunc env (convertGpuLaunchFunc env st s1 op1 l1).1 s2 op2 l2).2.2.after ∧
    transferCall (afterInit st s1).vulkanRuntime (st.lauchFuncIndex + 1, b2)
        (st.lauchFuncIndex + 2) b3
      ∈ (convertGpuLaunchFunc env (convertGpuLaunchFunc env
          (convertGpuLaunchFunc env st s1 op1 l1).1 s2 op2 l2).1 s3 op3 l3).2.2.after ∧
    ∀ (c : Call) (rt : Option Nat) (sb : Nat),
      c ∈ (convertGpuLaunchFunc env (convertGpuLaunchFunc env
            (convertGpuLaunchFunc env st s1 op1 l1).1 s2 op2 l2).1 s3 op3 l3).2.2.before
          ++ (convertGpuLaunchFunc env (convertGpuLaunchFunc env
            (convertGpuLaunchFunc env st s1 op1 l1).1 s2 op2 l2).1 s3 op3 l3).2.2.after →
        c ≠ transferCall rt (st.lauchFuncIndex, sb) (st.lauchFuncIndex + 2) b3 := by
  rcases createBinaryShader_cases env st.lauchFuncIndex with e | ⟨bin1, e1⟩
  · rw [e] at hser1; cases hser1
  rcases createBinaryShader_cases env (st.lauchFuncIndex + 1) with e | ⟨bin2, e2⟩
  · rw [e] at hser2; cases hser2
  rcases createBinaryShader_cases env (st.lauchFuncIndex + 2) with e | ⟨bin3, e3⟩
  · rw [e] at hser3; cases hser3
  -- first launch
  obtain ⟨m1, i1, r1, -, -, -, -, -, -⟩ := convertGpuLaunchFunc_lowered env st s1 op1 l1 bin1 e1
  generalize convertGpuLaunchFunc env st s1 op1 l1 = c1 at *
  obtain ⟨ai1, ai2, -, -, -⟩ := afterInit_fields st s1
  have k0 : KeysDistinct (afterInit st s1).bufferMap := by rw [ai2]; exact hkeys
  have k1 : KeysDistinct c1.1.bufferMap := by
    rw [m1]; exact transferBuffersFrom_keys _ _ _ k0
  have rec1 : (buffer, (st.lauchFuncIndex, b1)) ∈ c1.1.bufferMap := by
    rw [m1, ← ai1]; exact transferBuffersFrom_once buffer _ 0 _ b1 k0 h1
  -- second launch
  have n1 : c1.1.lauchFuncIndex ≠ 0 := by rw [i1]; omega
  have e2' : createBinaryShader env c1.1.lauchFuncIndex = (LogicalResult.success, bin2) := by
    rw [i1]; exact e2
  obtain ⟨m2, i2, r2, -, -, -, -, -, a2⟩ := convertGpuLaunchFunc_lowered env c1.1 s2 op2 l2 bin2 e2'
  rw [afterInit_of_ne_zero c1.1 s2 n1] at m2 r2 a2
  have t2 := transferBuffersFrom_first buffer (st.lauchFuncIndex, b1) _ 0 c1.1 b2 [] k1 h2 rec1
  have k2 : KeysDistinct (convertGpuLaunchFunc env c1.1 s2 op2 l2).1.bufferMap := by
    rw [m2]; exact transferBuffersFrom_keys _ _ _ k1
  have rec2 : (buffer, (st.lauchFuncIndex + 1, b2))
      ∈ (convertGpuLaunchFunc env c1.1 s2 op2 l2).1.bufferMap := by
    rw [m2, ← i1]; exact transferBuffersFrom_once buffer _ 0 _ b2 k1 h2
  refine ⟨?_, ?_, ?_⟩
  · rw [a2]
    apply transfers_subset_callsAfterBind
    rw [r1, i1] at t2
    exact t2
  all_goals
    generalize convertGpuLaunchFunc env c1.1 s2 op2 l2 = c2 at *
    have n2 : c2.1.lauchFuncIndex ≠ 0 := by rw [i2]; omega
    have e3' : createBinaryShader env c2.1.lauchFuncIndex = (LogicalResult.success, bin3) := by
      rw [i2, i1]; exact e3
    obtain ⟨-, -, -, -, -, -, -, bf3, a3⟩ :=
      convertGpuLaunchFunc_lowered env c2.1 s3 op3 l3 bin3 e3'
    rw [afterInit_of_ne_zero c2.1 s3 n2] at bf3 a3
  · have t3 := transferBuffersFrom_first buffer (st.lauchFuncIndex + 1, b2) _ 0 c2.1 b3 [] k2 h3
      rec2
    rw [a3]
    apply transfers_subset_callsAfterBind
    rw [r2, r1, i2, i1] at t3
    exact t3
  · intro c rt sb hc hEq
    have hcallee : c.callee = kCreateVulkanMemoryTransferAction := by rw [hEq]; rfl
    rw [bf3, a3, if_neg n2] at hc
    rcases List.mem_append.mp hc with hc | hc
    · simp only [List.nil_append, List.mem_singleton] at hc
      rw [hc] at hcallee
      exact absurd (show kCreateVulkanLaunchKernelAction = kCreateVulkanMemoryTransferAction
        from hcallee) (by decide)
    · have hct := mem_callsAfterBind_transfer _ _ _ _ _ _ c hc hcallee
      obtain ⟨j, v, src, hj, hcj, hsrc⟩ := transferBuffersFrom_source _ 0 c2.1 k2 c hct
      rw [hEq] at hcj
      obtain ⟨-, hs, hk, hb⟩ := transferCall_inj hcj
      have hpos := (positions_ge buffer _ 0 b3 (by rw [h3]; simp)).2
      simp only [Nat.sub_zero, Nat.zero_add] at hpos hb
      rw [← hb] at hj
      rw [hpos] at hj
      injection hj with hv
      rcases hsrc with hsrc | hsrc
      · rw [← hv, ← hs] at hsrc
        have := keysDistinct_unique k2 hsrc rec2
        injection this with h _
        omega
      · rw [← hs, i2, i1] at hsrc
        have := hsrc.1
        simp at this
        omega

/-! ## The pass: properties -/

theorem copyModeLoop_isSome (ir : IR) (deinit callOp : Nat) :
    ∀ (deps : List Nat) (copyMode warnings : Nat),
      ∃ r, copyModeLoop ir (some deinit) callOp deps copyMode warnings = some r := by
  intro deps
  induction deps with
  | nil => intro m w; exact ⟨_, rfl⟩
  | cons op rest ih =>
    intro m w
    unfold copyModeLoop
    split
    · split
      · exact ih _ _
      · simp only
        split
        · exact ih _ _
        · exact ih _ _
    · exact ih _ _

/-- On an acyclic program, with `deinitVulkan` set, `getBufferCopyMode`
returns. -/
theorem getBufferCopyMode_isSome (ir : IR) (optionalSymbols : List String) (deinit callOp : Nat)
    (buffer : Value) (hacyclic : ir.Acyclic) :
    ∃ r, getBufferCopyMode ir optionalSymbols (some deinit) callOp buffer = some r := by
  unfold getBufferCopyMode
  split
  · exact ⟨_, rfl⟩
  · rename_i d i hsrc
    obtain ⟨deps, hdeps⟩ :=
      getExternalDependentOperations_isSome ir optionalSymbols buffer d i hsrc hacyclic
    rw [hdeps]
    exact copyModeLoop_isSome ir deinit callOp deps _ _

theorem bindBuffersFrom_spec (env : Env) (ir : IR) (callOp : Nat) :
    ∀ (buffers : List Value) (bindIndex : Nat) (st : PassState) (result : LogicalResult)
      (st2 : PassState) (calls : List Call),
      bindBuffersFrom env ir callOp bindIndex buffers st = some (result, st2, calls) →
        SameRuntime st st2 ∧ ∀ c ∈ calls, IsBindingCall st.vulkanRuntime c := by
  intro buffers
  induction buffers with
  | nil =>
    intro i st res st2 calls h
    simp only [bindBuffersFrom, Option.some.injEq, Prod.mk.injEq] at h
    obtain ⟨-, h2, h3⟩ := h
    subst h2; subst h3
    exact ⟨⟨rfl, rfl, rfl, rfl, rfl, rfl⟩, by simp⟩
  | cons b rest ih =>
    intro i st res st2 calls h
    unfold bindBuffersFrom at h
    split at h
    · rename_i shape elementType hty
      simp only at h
      split at h
      · cases h
      · rename_i copyMode warned hmode
        split at h
        · cases h
        · rename_i res3 st3 calls3 hrec
          simp only [Option.some.injEq, Prod.mk.injEq] at h
          obtain ⟨-, h2, h3⟩ := h
          subst h2; subst h3
          obtain ⟨hs, hc⟩ := ih _ _ _ _ _ hrec
          refine ⟨?_, ?_⟩
          · obtain ⟨a1, a2, a3, a4, a5, a6⟩ := hs
            exact ⟨a1, a2, a3, a4, a5, a6⟩
          · intro c hcm
            rcases List.mem_cons.mp hcm with hcm | hcm
            · exact ⟨_, _, _, _, _, hcm⟩
            · exact hc c hcm
    · simp only [Option.some.injEq, Prod.mk.injEq] at h
      obtain ⟨-, h2, h3⟩ := h
      subst h2; subst h3
      exact ⟨⟨rfl, rfl, rfl, rfl, rfl, rfl⟩, by simp⟩

theorem bindBuffersFrom_isSome (env : Env) (ir : IR) (callOp : Nat) (hacyclic : ir.Acyclic) :
    ∀ (buffers : List Value) (bindIndex : Nat) (st : PassState) (deinit : Nat),
      st.deinitVulkan = some deinit →
        ∃ r, bindBuffersFrom env ir callOp bindIndex buffers st = some r := by
  intro buffers
  induction buffers with
  | nil => intro i st d _; exact ⟨_, rfl⟩
  | cons b rest ih =>
    intro i st d hd
    unfold bindBuffersFrom
    split
    · rename_i shape elementType hty
      simp only [hd]
      obtain ⟨m, hm⟩ := getBufferCopyMode_isSome ir st.optionalSymbols d callOp b hacyclic
      rw [hm]
      simp only
      obtain ⟨r, hr⟩ := ih (i + 1)
        { st with
          deinitVulkan := some d
          bufferElementTypes := st.bufferElementTypes.insert env.typeID elementType
          optionalSymbols := symbolInsert st.optionalSymbols
            (stringRef (getBufferBindingFunc elementType))
          warnings := st.warnings + m.2 } d rfl
      rw [hr]
      exact ⟨_, rfl⟩
    · exact ⟨_, rfl⟩

theorem SameRuntime.refl (st : PassState) : SameRuntime st st := ⟨rfl, rfl, rfl, rfl, rfl, rfl⟩

theorem SameRuntime.trans {a b c : PassState} (hab : SameRuntime a b) (hbc : SameRuntime b c) :
    SameRuntime a c := by
  unfold SameRuntime at *
  refine ⟨hbc.1.trans hab.1, hbc.2.1.trans hab.2.1, hbc.2.2.1.trans hab.2.2.1, ?_, ?_, ?_⟩
  · exact hbc.2.2.2.1.trans hab.2.2.2.1
  · exact hbc.2.2.2.2.1.trans hab.2.2.2.2.1
  · exact hbc.2.2.2.2.2.trans hab.2.2.2.2.2

theorem bindAll_spec (env : Env) (ir : IR) :
    ∀ (ops : List Operation) (slot : Nat) (sites : List Site) (st st2 : PassState)
      (out : List (List Call)), sites.length = ops.length →
      bindAll env ir slot ops sites st = some (st2, out) →
        SameRuntime st st2 ∧ ∃ binds : List (List Call), binds.length = ops.length ∧
          out = weaveSlots sites binds ∧
          (∀ (j : Nat) (op : Operation), ops[j]? = some op → op.kind ≠ OpKind.call kBindAllBuffers →
            binds[j]? = some []) ∧
          (∀ (j : Nat) (op : Operation), ops[j]? = some op → op.kind = OpKind.call kBindAllBuffers →
            ∃ stj result stj2 calls, SameRuntime st stj ∧
              bindBuffers env ir stj (slot + j) op.operands = some (result, stj2, calls) ∧
              binds[j]? = some calls) ∧
          (∀ b ∈ binds, ∀ c ∈ b, IsBindingCall st.vulkanRuntime c) := by
  intro ops
  induction ops with
  | nil =>
    intro slot sites st st2 out hlen h
    simp only [bindAll, Option.some.injEq, Prod.mk.injEq] at h
    obtain ⟨h1, h2⟩ := h
    subst h1; subst h2
    have : sites = [] := List.length_eq_zero.mp hlen
    subst this
    exact ⟨SameRuntime.refl _, [], rfl, rfl, by simp, by simp, by simp⟩
  | cons op rest ih =>
    intro slot sites st st2 out hlen h
    cases sites with
    | nil => simp at hlen
    | cons site sites =>
      have hlen2 : sites.length = rest.length := by simpa using hlen
      unfold bindAll at h
      simp only [List.headD_cons, List.tail_cons] at h
      split at h
      · rename_i hkind
        split at h
        · cases h
        · rename_i res st1 calls hb
          split at h
          · cases h
          · rename_i st3 out3 hrec
            simp only [Option.some.injEq, Prod.mk.injEq] at h
            obtain ⟨h1, h2⟩ := h
            subst h1; subst h2
            obtain ⟨hs1, hcalls⟩ := bindBuffersFrom_spec env ir slot _ _ _ _ _ _ hb
            obtain ⟨hs3, binds, hbl, hout, hnb, hbb, hall⟩ := ih _ _ _ _ _ hlen2 hrec
            refine ⟨hs1.trans hs3, calls :: binds, by simp [hbl], by simp [weaveSlots, hout],
              ?_, ?_, ?_⟩
            · intro j opj hj hk
              cases j with
              | zero => simp at hj; subst hj; exact absurd hkind hk
              | succ j => simp at hj; simpa using hnb j opj hj hk
            · intro j opj hj hk
              cases j with
              | zero =>
                simp at hj; subst hj
                exact ⟨st, res, st1, calls, SameRuntime.refl _, hb, by simp⟩
              | succ j =>
                simp at hj
                obtain ⟨stj, r, stj2, cs, h1, h2, h3⟩ := hbb j opj hj hk
                refine ⟨stj, r, stj2, cs, hs1.trans h1, ?_, by simpa using h3⟩
                have : slot + (j + 1) = slot + 1 + j := by omega
                rw [this]; exact h2
            · intro b hb2 c hc
              rcases List.mem_cons.mp hb2 with hb2 | hb2
              · subst hb2; exact hcalls c hc
              · have := hall b hb2 c hc
                rw [hs1.1] at this
                exact this
      · rename_i hkind
        split at h
        · cases h
        · rename_i st3 out3 hrec
          simp only [Option.some.injEq, Prod.mk.injEq] at h
          obtain ⟨h1, h2⟩ := h
          subst h1; subst h2
          obtain ⟨hs3, binds, hbl, hout, hnb, hbb, hall⟩ := ih _ _ _ _ _ hlen2 hrec
          refine ⟨hs3, [] :: binds, by simp [hbl], by simp [weaveSlots, hout], ?_, ?_, ?_⟩
          · intro j opj hj hk
            cases j with
            | zero => simp
            | succ j => simp at hj; simpa using hnb j opj hj hk
          · intro j opj hj hk
            cases j with
            | zero => simp at hj; subst hj; exact absurd hk hkind
            | succ j =>
              simp at hj
              obtain ⟨stj, r, stj2, cs, h1, h2, h3⟩ := hbb j opj hj hk
              refine ⟨stj, r, stj2, cs, h1, ?_, by simpa using h3⟩
              have : slot + (j + 1) = slot + 1 + j := by omega
              rw [this]; exact h2
          · intro b hb2 c hc
            rcases List.mem_cons.mp hb2 with hb2 | hb2
            · subst hb2; cases hc
            · exact hall b hb2 c hc

theorem bindAll_isSome (env : Env) (ir : IR) (hacyclic : ir.Acyclic) :
    ∀ (ops : List Operation) (slot : Nat) (sites : List Site) (st : PassState) (deinit : Nat),
      st.deinitVulkan = some deinit → ∃ r, bindAll env ir slot ops sites st = some r := by
  intro ops
  induction ops with
  | nil => intro slot sites st d _; exact ⟨_, rfl⟩
  | cons op rest ih =>
    intro slot sites st d hd
    unfold bindAll
    simp only
    split
    · obtain ⟨r, hr⟩ := bindBuffersFrom_isSome env ir slot hacyclic op.operands 0 st d hd
      obtain ⟨res, st1, calls⟩ := r
      have hs := (bindBuffersFrom_spec env ir slot _ _ _ _ _ _ hr).1
      obtain ⟨r2, hr2⟩ := ih (slot + 1) sites.tail st1 d (by rw [hs.2.1]; exact hd)
      simp only [bindBuffers, hr, hr2]
      exact ⟨_, rfl⟩
    · obtain ⟨r2, hr2⟩ := ih (slot + 1) sites.tail st d hd
      simp only [hr2]
      exact ⟨_, rfl⟩

theorem convertGpuLaunchFunc_op (env : Env) (st : PassState) (slot : Nat) (op : Operation)
    (launchOp : LaunchFuncOp) :
    (convertGpuLaunchFunc env st slot op launchOp).2.1 = op ∨
      (convertGpuLaunchFunc env st slot op launchOp).2.1 = bindAllBuffersOp op := by
  unfold convertGpuLaunchFunc
  simp only [transferBuffers]
  split
  · exact Or.inl rfl
  · exact Or.inr rfl

theorem convertAll_ops (env : Env) :
    ∀ (ops : List Operation) (slot : Nat) (st : PassState),
      (convertAll env slot ops st).2.1.length = ops.length ∧
      (convertAll env slot ops st).2.2.length = ops.length ∧
      ∀ (j : Nat) (op : Operation), ops[j]? = some op →
        ∃ op2, (convertAll env slot ops st).2.1[j]? = some op2 ∧
          ((op2 = op) ∨ ((∃ l, op.kind = OpKind.launchFunc l) ∧ op2 = bindAllBuffersOp op)) := by
  intro ops
  induction ops with
  | nil => intro slot st; simp [convertAll]
  | cons op rest ih =>
    intro slot st
    unfold convertAll
    split
    · rename_i launchOp hk
      obtain ⟨h1, h2, h3⟩ := ih (slot + 1) (convertGpuLaunchFunc env st slot op launchOp).1
      refine ⟨by simp [h1], by simp [h2], ?_⟩
      intro j opj hj
      cases j with
      | zero =>
        simp at hj; subst hj
        rcases convertGpuLaunchFunc_op env st slot op launchOp with h | h
        · exact ⟨_, by simp, Or.inl h⟩
        · exact ⟨_, by simp, Or.inr ⟨⟨launchOp, hk⟩, h⟩⟩
      | succ j =>
        simp at hj
        obtain ⟨op2, h4, h5⟩ := h3 j opj hj
        exact ⟨op2, by simpa using h4, h5⟩
    · obtain ⟨h1, h2, h3⟩ := ih (slot + 1) st
      refine ⟨by simp [h1], by simp [h2], ?_⟩
      intro j opj hj
      cases j with
      | zero => simp at hj; subst hj; exact ⟨_, by simp, Or.inl rfl⟩
      | succ j =>
        simp at hj
        obtain ⟨op2, h4, h5⟩ := h3 j opj hj
        exact ⟨op2, by simpa using h4, h5⟩

theorem mem_kernelOperands (op : Operation) (v : Value) (h : v ∈ kernelOperands op) :
    v ∈ op.operands := List.mem_of_mem_drop h

/-- Lowering the launches keeps the def-use graph acyclic: a lowered slot
keeps the kernel operands of the launch and has no more results. -/
theorem acyclic_convertAll (env : Env) (ir : IR) (st : PassState) (h : ir.Acyclic) :
    IR.Acyclic ⟨(convertAll env 0 ir.ops st).2.1⟩ := by
  obtain ⟨rank, hlt, hrank⟩ := h
  obtain ⟨h1, -, h3⟩ := convertAll_ops env ir.ops 0 st
  refine ⟨rank, ?_, ?_⟩
  · intro o ho
    simp only [h1] at ho ⊢
    exact hlt o ho
  · intro user op2 hop2 v hv o i hs
    simp only at hop2
    have hu : user < ir.ops.length := by
      by_contra hc
      rw [List.getElem?_eq_none (by omega)] at hop2
      cases hop2
    obtain ⟨op3, h4, h5⟩ := h3 user (ir.ops[user]) (List.getElem?_eq_getElem hu)
    rw [hop2] at h4
    injection h4 with h4
    subst h4
    rcases h5 with h5 | ⟨-, h5⟩
    · rw [h5] at hv
      exact hrank user _ (List.getElem?_eq_getElem hu) v hv o i hs
    · rw [h5] at hv
      exact hrank user _ (List.getElem?_eq_getElem hu) v (mem_kernelOperands _ v hv) o i hs

theorem callOK_create (rt : Option Nat) (k : Nat) (binary : List Nat) (l : LaunchFuncOp) :
    CallOK rt (createLaunchKernelActionCall rt k binary l) := by
  refine ⟨(by decide : kCreateVulkanLaunchKernelAction ≠ kInitVulkan), (by decide : kCreateVulkanLaunchKernelAction ≠ kRun),
    (by decide : kCreateVulkanLaunchKernelAction ≠ kDeinitVulkan), ?_⟩
  intro h hm
  simp [createLaunchKernelActionCall, createEntryPointNameConstant] at hm
  exact hm

theorem callOK_set (rt : Option Nat) (l : LaunchFuncOp) :
    CallOK rt (setLaunchKernelActionCall rt l) := by
  refine ⟨(by decide : kSetVulkanLaunchKernelAction ≠ kInitVulkan), (by decide : kSetVulkanLaunchKernelAction ≠ kRun),
    (by decide : kSetVulkanLaunchKernelAction ≠ kDeinitVulkan), ?_⟩
  intro h hm
  simp [setLaunchKernelActionCall] at hm
  exact hm

theorem callOK_add (rt : Option Nat) : CallOK rt (addLaunchActionToScheduleCall rt) := by
  refine ⟨(by decide : kAddVulkanLaunchActionToSchedule ≠ kInitVulkan), (by decide : kAddVulkanLaunchActionToSchedule ≠ kRun),
    (by decide : kAddVulkanLaunchActionToSchedule ≠ kDeinitVulkan), ?_⟩
  intro h hm
  simp [addLaunchActionToScheduleCall] at hm
  exact hm

theorem callOK_transfer (rt : Option Nat) (src : Nat × Nat) (k i : Nat) :
    CallOK rt (transferCall rt src k i) := by
  refine ⟨(by decide : kCreateVulkanMemoryTransferAction ≠ kInitVulkan), (by decide : kCreateVulkanMemoryTransferAction ≠ kRun),
    (by decide : kCreateVulkanMemoryTransferAction ≠ kDeinitVulkan), ?_⟩
  intro h hm
  simp [transferCall] at hm
  exact hm

theorem bindingFunc_cases (t : ElemType) :
    stringRef (getBufferBindingFunc t) ∈ [kBindBufferInteger8, kBindBufferInteger16,
      kBindBufferInteger32, kBindBufferInteger64, kBindBufferBFloat16, kBindBufferFloat16,
      kBindBufferFloat32, kBindBufferFloat64, ""] := by
  unfold getBufferBindingFunc
  repeat' split
  all_goals simp [stringRef]

theorem callOK_bind (rt : Option Nat) (c : Call) (h : IsBindingCall rt c) : CallOK rt c := by
  obtain ⟨t, i, size, mode, buffer, hc⟩ := h
  subst hc
  have hn := bindingFunc_cases t
  have hcallee : (bindBufferCall rt t i size mode buffer).callee
      = stringRef (getBufferBindingFunc t) := rfl
  refine ⟨?_, ?_, ?_, ?_⟩
  · rw [hcallee]; intro e; rw [e] at hn; revert hn; decide
  · rw [hcallee]; intro e; rw [e] at hn; revert hn; decide
  · rw [hcallee]; intro e; rw [e] at hn; revert hn; decide
  · intro h hm
    simp [bindBufferCall] at hm
    exact hm

theorem printBuffers_operands :
    ∀ (buffers : List Value) (symbols : List String), ∀ c ∈ (printBuffers buffers symbols).1,
      ∀ h, Arg.runtime h ∉ c.operands := by
  intro buffers
  induction buffers with
  | nil => intro symbols c h; simp [printBuffers] at h
  | cons b rest ih =>
    intro symbols c h
    simp only [printBuffers] at h
    rcases List.mem_append.mp h with h | h
    · unfold printBuffer at h
      split at h
      · split at h
        · simp at h; rw [h]; simp
        · simp at h
      · simp at h
    · exact ih _ c h

theorem callOK_print (rt : Option Nat) (buffers : List Value) (symbols : List String) :
    ∀ c ∈ (printBuffers buffers symbols).1, CallOK rt c ∧
      c.callee ≠ kAddVulkanLaunchActionToSchedule := by
  intro c hc
  have h1 := printBuffers_callee buffers symbols c hc
  have h2 := printBuffers_operands buffers symbols c hc
  refine ⟨⟨?_, ?_, ?_, ?_⟩, ?_⟩
  · rw [h1]; decide
  · rw [h1]; decide
  · rw [h1]; decide
  · intro h hm; exact absurd hm (h2 h)
  · rw [h1]; decide

theorem transferBuffersFrom_form :
    ∀ (args : List Value) (i : Nat) (st : PassState), ∀ c ∈ (transferBuffersFrom i args st).2,
      ∃ src j, c = transferCall st.vulkanRuntime src st.lauchFuncIndex j := by
  intro args
  induction args with
  | nil => intro i st c h; simp [transferBuffersFrom] at h
  | cons a rest ih =>
    intro i st c hc
    simp only [transferBuffersFrom] at hc
    rcases List.mem_append.mp hc with hc | hc
    · obtain ⟨src, -, h2⟩ := (mem_transferMatches _ _ _ _ _ _ _).mp hc
      exact ⟨src, i, h2⟩
    · obtain ⟨src, j, h⟩ := ih (i + 1) _ c hc
      exact ⟨src, j, by simpa using h⟩

theorem convertGpuLaunchFunc_failed (env : Env) (st : PassState) (slot : Nat) (op : Operation)
    (launchOp : LaunchFuncOp)
    (hser : createBinaryShader env st.lauchFuncIndex = (LogicalResult.failure, [])) :
    convertGpuLaunchFunc env st slot op launchOp
      = ({ afterInit st slot with passFailed := true }, op,
          ⟨if st.lauchFuncIndex = 0 then [initVulkanCall] else [], []⟩) := by
  unfold convertGpuLaunchFunc
  simp only [(afterInit_fields st slot).1, hser]

theorem convertGpuLaunchFunc_runtime (env : Env) (st : PassState) (slot : Nat) (op : Operation)
    (launchOp : LaunchFuncOp) (h : st.lauchFuncIndex ≠ 0) :
    (convertGpuLaunchFunc env st slot op launchOp).1.vulkanRuntime = st.vulkanRuntime ∧
      (convertGpuLaunchFunc env st slot op launchOp).1.lauchFuncIndex ≠ 0 := by
  rcases createBinaryShader_cases env st.lauchFuncIndex with e | ⟨binary, e⟩
  · rw [convertGpuLaunchFunc_failed env st slot op launchOp e, afterInit_of_ne_zero st slot h]
    exact ⟨rfl, h⟩
  · obtain ⟨-, h2, h3, -⟩ := convertGpuLaunchFunc_lowered env st slot op launchOp binary e
    rw [h2, h3, afterInit_of_ne_zero st slot h]
    exact ⟨rfl, by omega⟩

theorem convertAll_runtime (env : Env) :
    ∀ (ops : List Operation) (slot : Nat) (st : PassState), st.lauchFuncIndex ≠ 0 →
      (convertAll env slot ops st).1.vulkanRuntime = st.vulkanRuntime := by
  intro ops
  induction ops with
  | nil => intro slot st _; rfl
  | cons op rest ih =>
    intro slot st h
    unfold convertAll
    split
    · rename_i launchOp hk
      obtain ⟨h1, h2⟩ := convertGpuLaunchFunc_runtime env st slot op launchOp h
      simp only
      rw [ih _ _ h2, h1]
    · exact ih _ _ h

theorem convertAll_no_launch (env : Env) :
    ∀ (ops : List Operation) (slot : Nat) (st : PassState), countLaunches ops = 0 →
      (convertAll env slot ops st).1 = st ∧
        ∀ binds, (weaveSlots (convertAll env slot ops st).2.2 binds).flatten
          = (binds.take ops.length).flatten := by
  intro ops
  induction ops with
  | nil =>
    intro slot st _
    refine ⟨rfl, ?_⟩
    intro binds
    cases binds <;> simp [convertAll, weaveSlots]
  | cons op rest ih =>
    intro slot st h
    unfold countLaunches at h
    unfold convertAll
    split
    · rename_i launchOp hk
      simp [hk] at h
    · rename_i hk
      have h0 : countLaunches rest = 0 := by
        split at h
        · omega
        · exact h
      obtain ⟨h1, h2⟩ := ih (slot + 1) st h0
      refine ⟨h1, ?_⟩
      intro binds
      cases binds with
      | nil => simp [weaveSlots]
      | cons b binds => simp [weaveSlots, h2]

theorem countLaunches_cons_launch (op : Operation) (rest : List Operation) (l : LaunchFuncOp)
    (h : op.kind = OpKind.launchFunc l) : countLaunches (op :: rest) = countLaunches rest + 1 := by
  simp [countLaunches, h]

theorem countLaunches_cons_other (op : Operation) (rest : List Operation)
    (h : ∀ l, op.kind ≠ OpKind.launchFunc l) : countLaunches (op :: rest) = countLaunches rest := by
  cases hk : op.kind with
  | launchFunc l => exact absurd hk (h l)
  | alloc => simp [countLaunches, hk]
  | memRefCast => simp [countLaunches, hk]
  | call callee => simp [countLaunches, hk]
  | other => simp [countLaunches, hk]

theorem flatten_take_nil (n : Nat) :
    ∀ (binds : List (List Call)), (∀ (j : Nat), j < n → binds[j]? = some []) →
      (binds.take n).flatten = [] := by
  induction n with
  | zero => intro binds _; simp
  | succ n ih =>
    intro binds h
    cases binds with
    | nil => simp
    | cons b binds =>
      have h0 := h 0 (by omega)
      simp at h0
      subst h0
      simp only [List.take_succ_cons, List.flatten_cons, List.nil_append]
      apply ih
      intro j hj
      have := h (j + 1) (by omega)
      simpa using this

theorem countLaunches_zero_kind :
    ∀ (ops : List Operation), countLaunches ops = 0 →
      ∀ (j : Nat) (op : Operation), ops[j]? = some op → ∀ l, op.kind ≠ OpKind.launchFunc l := by
  intro ops
  induction ops with
  | nil => intro _ j op h; simp at h
  | cons o rest ih =>
    intro h j op hj l hk
    cases j with
    | zero =>
      simp at hj; subst hj
      rw [countLaunches_cons_launch _ _ l hk] at h
      omega
    | succ j =>
      simp at hj
      have h0 : countLaunches rest = 0 := by
        unfold countLaunches at h
        split at h
        · omega
        · exact h
      exact ih h0 j op hj l hk

theorem convertAll_shape (env : Env) :
    ∀ (ops : List Operation) (s : Nat) (st : PassState) (binds : List (List Call)),
      st.lauchFuncIndex + countLaunches ops = st.numKernel →
      (∀ k, st.lauchFuncIndex ≤ k → k < st.numKernel →
        (createBinaryShader env k).1 = LogicalResult.success) →
      binds.length = ops.length →
      (∀ (j : Nat) (op : Operation), ops[j]? = some op →
        (∀ l, op.kind ≠ OpKind.launchFunc l) → binds[j]? = some []) →
      (∀ b ∈ binds, ∀ c ∈ b, CallOK (convertAll env s ops st).1.vulkanRuntime c) →
      0 < countLaunches ops →
        (convertAll env s ops st).1.passFailed = st.passFailed ∧
        (∃ d, (convertAll env s ops st).1.deinitVulkan = some d) ∧
        (st.lauchFuncIndex = 0 → ∃ j rest,
          (convertAll env s ops st).1.vulkanRuntime = some (s + j) ∧
          (weaveSlots (convertAll env s ops st).2.2 binds)[j]? = some (initVulkanCall :: rest)) ∧
        ∃ mid tail,
          (weaveSlots (convertAll env s ops st).2.2 binds).flatten
            = (if st.lauchFuncIndex = 0 then [initVulkanCall] else []) ++ mid
              ++ [addLaunchActionToScheduleCall (convertAll env s ops st).1.vulkanRuntime,
                  runCall (convertAll env s ops st).1.vulkanRuntime,
                  deinitVulkanCall (convertAll env s ops st).1.vulkanRuntime] ++ tail ∧
          (∀ c ∈ mid, CallOK (convertAll env s ops st).1.vulkanRuntime c) ∧
          (∀ c ∈ tail, CallOK (convertAll env s ops st).1.vulkanRuntime c ∧
            c.callee ≠ kAddVulkanLaunchActionToSchedule) := by
  intro ops
  induction ops with
  | nil => intro s st binds _ _ _ _ _ h; simp [countLaunches] at h
  | cons op rest ih =>
    intro s st binds hcount hser hlen hnil hbinds hpos
    cases binds with
    | nil => simp at hlen
    | cons b0 binds =>
    have hlen2 : binds.length = rest.length := by simpa using hlen
    by_cases hk : ∃ l, op.kind = OpKind.launchFunc l
    · obtain ⟨l, hk⟩ := hk
      have hcl := countLaunches_cons_launch op rest l hk
      have hconv : convertAll env s (op :: rest) st
          = ((convertAll env (s + 1) rest (convertGpuLaunchFunc env st s op l).1).1,
             (convertGpuLaunchFunc env st s op l).2.1
               :: (convertAll env (s + 1) rest (convertGpuLaunchFunc env st s op l).1).2.1,
             (convertGpuLaunchFunc env st s op l).2.2
               :: (convertAll env (s + 1) rest (convertGpuLaunchFunc env st s op l).1).2.2) := by
        conv => lhs; unfold convertAll
        simp only [hk]
      have hs0 := hser st.lauchFuncIndex (Nat.le_refl _) (by omega)
      rcases createBinaryShader_cases env st.lauchFuncIndex with e | ⟨binary, e⟩
      · rw [e] at hs0; cases hs0
      obtain ⟨-, ci, crt, cn, cpf, cde, -, cbefore, cafter⟩ :=
        convertGpuLaunchFunc_lowered env st s op l binary e
      obtain ⟨ai1, -, ai3, -, -⟩ := afterInit_fields st s
      rw [hconv] at hbinds ⊢
      simp only at hbinds ⊢
      generalize hc : convertGpuLaunchFunc env st s op l = c at *
      have hne : c.1.lauchFuncIndex ≠ 0 := by rw [ci]; omega
      have hrt := convertAll_runtime env rest (s + 1) c.1 hne
      rw [hrt, crt] at hbinds ⊢
      have hb0 : ∀ x ∈ b0, CallOK (afterInit st s).vulkanRuntime x :=
        fun x hx => hbinds b0 (List.mem_cons_self _ _) x hx
      have hbrest : ∀ b ∈ binds, ∀ x ∈ b, CallOK (afterInit st s).vulkanRuntime x :=
        fun b hb x hx => hbinds b (List.mem_cons_of_mem _ hb) x hx
      have hnil2 : ∀ (j : Nat) (o : Operation), rest[j]? = some o →
          (∀ l, o.kind ≠ OpKind.launchFunc l) → binds[j]? = some [] := by
        intro j o hj hl
        have := hnil (j + 1) o (by simpa using hj) hl
        simpa using this
      have htr : ∀ x ∈ (transferBuffersFrom 0 (kernelOperands op) (afterInit st s)).2,
          CallOK (afterInit st s).vulkanRuntime x := by
        intro x hx
        obtain ⟨src, j, hx2⟩ := transferBuffersFrom_form _ _ _ x hx
        rw [hx2]; exact callOK_transfer _ _ _ _
      have hinit : st.lauchFuncIndex = 0 → ∃ j tl,
          (afterInit st s).vulkanRuntime = some (s + j) ∧
          (weaveSlots (c.2.2 :: (convertAll env (s + 1) rest c.1).2.2) (b0 :: binds))[j]?
            = some (initVulkanCall :: tl) := by
        intro h0
        refine ⟨0, [createLaunchKernelActionCall (afterInit st s).vulkanRuntime
          st.lauchFuncIndex binary l] ++ b0 ++ c.2.2.after, by simp [afterInit, h0], ?_⟩
        simp only [weaveSlots, List.getElem?_cons_zero, cbefore, h0, if_true]
        simp only [List.singleton_append, List.cons_append, List.nil_append]
      by_cases hrest : countLaunches rest = 0
      · -- the last launch
        obtain ⟨hst, hfl⟩ := convertAll_no_launch env rest (s + 1) c.1 hrest
        have hlast : (afterInit st s).lauchFuncIndex = (afterInit st s).numKernel - 1 := by
          rw [ai1, ai3]; omega
        have hlast2 : st.lauchFuncIndex = st.numKernel - 1 := by omega
        have hempty : (binds.take rest.length).flatten = [] := by
          apply flatten_take_nil
          intro j hj
          exact hnil2 j (rest[j]) (List.getElem?_eq_getElem hj)
            (countLaunches_zero_kind rest hrest j _ (List.getElem?_eq_getElem hj))
        refine ⟨by rw [hst, cpf], ⟨s, by rw [hst, cde, if_pos hlast2]⟩, hinit, ?_⟩
        refine ⟨[createLaunchKernelActionCall (afterInit st s).vulkanRuntime st.lauchFuncIndex
            binary l] ++ b0 ++ [setLaunchKernelActionCall (afterInit st s).vulkanRuntime l]
            ++ (transferBuffersFrom 0 (kernelOperands op) (afterInit st s)).2,
          (if env.vlog4 then (printBuffers (kernelOperands op)
            (transferBuffersFrom 0 (kernelOperands op) (afterInit st s)).1.optionalSymbols).1
            else []), ?_, ?_, ?_⟩
        · simp only [weaveSlots, List.flatten_cons, hfl, hempty, cbefore, cafter, callsAfterBind,
            hlast, if_true, List.append_nil, List.append_assoc, List.cons_append,
            List.nil_append]
        · intro x hx
          simp only [List.mem_append, List.mem_singleton] at hx
          rcases hx with ((hx | hx) | hx) | hx
          · rw [hx]; exact callOK_create _ _ _ _
          · exact hb0 x hx
          · rw [hx]; exact callOK_set _ _
          · exact htr x hx
        · intro x hx
          split at hx
          · exact callOK_print _ _ _ x hx
          · cases hx
      · -- a launch that is not the last one
        have hpos2 : 0 < countLaunches rest := Nat.pos_of_ne_zero hrest
        have hnl : ¬ (afterInit st s).lauchFuncIndex = (afterInit st s).numKernel - 1 := by
          rw [ai1, ai3]; omega
        have hIH := ih (s + 1) c.1 binds (by rw [ci, cn]; omega)
          (by intro k hk1 hk2; rw [ci] at hk1; rw [cn] at hk2; exact hser k (by omega) hk2)
          hlen2 hnil2 (by rw [hrt, crt]; exact hbrest) hpos2
        rw [hrt, crt] at hIH
        obtain ⟨hpf, hde, -, mid2, tail2, heq, hmid2, htail2⟩ := hIH
        refine ⟨by rw [hpf, cpf], hde, hinit, ?_⟩
        refine ⟨[createLaunchKernelActionCall (afterInit st s).vulkanRuntime st.lauchFuncIndex
            binary l] ++ b0 ++ [setLaunchKernelActionCall (afterInit st s).vulkanRuntime l]
            ++ (transferBuffersFrom 0 (kernelOperands op) (afterInit st s)).2
            ++ [addLaunchActionToScheduleCall (afterInit st s).vulkanRuntime]
            ++ (if env.vlog4 then (printBuffers (kernelOperands op)
              (transferBuffersFrom 0 (kernelOperands op) (afterInit st s)).1.optionalSymbols).1
              else [])
            ++ mid2, tail2, ?_, ?_, htail2⟩
        · simp only [weaveSlots, List.flatten_cons, heq, if_neg hne, cbefore, cafter,
            callsAfterBind, hnl, if_false, List.append_nil, List.append_assoc, List.cons_append,
            List.nil_append]
        · intro x hx
          simp only [List.mem_append, List.mem_singleton] at hx
          rcases hx with ((((((hx | hx) | hx) | hx) | hx) | hx) | hx)
          · rw [hx]; exact callOK_create _ _ _ _
          · exact hb0 x hx
          · rw [hx]; exact callOK_set _ _
          · exact htr x hx
          · rw [hx]; exact callOK_add _
          · split at hx
            · exact (callOK_print _ _ _ x hx).1
            · cases hx
          · exact hmid2 x hx
    · -- not a launch
      have hk2 : ∀ l, op.kind ≠ OpKind.launchFunc l := fun l h => hk ⟨l, h⟩
      have hcl := countLaunches_cons_other op rest hk2
      have hconv : convertAll env s (op :: rest) st
          = ((convertAll env (s + 1) rest st).1, op :: (convertAll env (s + 1) rest st).2.1,
             ⟨[], []⟩ :: (convertAll env (s + 1) rest st).2.2) := by
        conv => lhs; unfold convertAll
        split
        · rename_i l h; exact absurd h (hk2 l)
        · rfl
      rw [hconv] at hbinds ⊢
      simp only at hbinds ⊢
      have hb0 : b0 = [] := by
        have := hnil 0 op (by simp) hk2
        simpa using this
      subst hb0
      have hnil2 : ∀ (j : Nat) (o : Operation), rest[j]? = some o →
          (∀ l, o.kind ≠ OpKind.launchFunc l) → binds[j]? = some [] := by
        intro j o hj hl
        have := hnil (j + 1) o (by simpa using hj) hl
        simpa using this
      have hIH := ih (s + 1) st binds (by omega) hser hlen2 hnil2
        (fun b hb x hx => hbinds b (List.mem_cons_of_mem _ hb) x hx) (by omega)
      obtain ⟨hpf, hde, hin, mid2, tail2, heq, hmid2, htail2⟩ := hIH
      refine ⟨hpf, hde, ?_, mid2, tail2, ?_, hmid2, htail2⟩
      · intro h0
        obtain ⟨j, tl, h1, h2⟩ := hin h0
        refine ⟨j + 1, tl, ?_, ?_⟩
        · rw [h1]; congr 1; omega
        · simpa [weaveSlots] using h2
      · simpa [weaveSlots] using heq

theorem runOnOperation_eq (env : Env) (ir : IR) :
    runOnOperation env ir =
      match bindAll env ⟨(convertAll env 0 ir.ops (startState ir)).2.1⟩ 0
          (convertAll env 0 ir.ops (startState ir)).2.1
          (convertAll env 0 ir.ops (startState ir)).2.2
          (convertAll env 0 ir.ops (startState ir)).1 with
      | none => none
      | some (st, emitted) =>
        some { state := st, emitted := emitted, declared := declareVulkanFunctions st } := rfl

/-- The binding calls of the slots that are not launches are empty when the
program has no `bindAllBuffers` call of its own. -/
theorem binds_nil_of_not_launch (env : Env) (ir : IR) (st : PassState)
    (hnobind : ∀ op ∈ ir.ops, op.kind ≠ OpKind.call kBindAllBuffers)
    (binds : List (List Call))
    (hnb : ∀ (j : Nat) (op : Operation), (convertAll env 0 ir.ops st).2.1[j]? = some op →
      op.kind ≠ OpKind.call kBindAllBuffers → binds[j]? = some []) :
    ∀ (j : Nat) (op : Operation), ir.ops[j]? = some op →
      (∀ l, op.kind ≠ OpKind.launchFunc l) → binds[j]? = some [] := by
  intro j op hj hl
  obtain ⟨-, -, h3⟩ := convertAll_ops env ir.ops 0 st
  obtain ⟨op2, h4, h5⟩ := h3 j op hj
  rcases h5 with h5 | ⟨⟨l, hk⟩, -⟩
  · subst h5
    exact hnb j op2 h4 (hnobind op2 (List.getElem?_mem hj))
  · exact absurd hk (hl l)

/-- C5: for an acyclic program with at least one launch, all of whose
shader modules serialize, and with no `bindAllBuffers` call of its own, the
pass returns without failure and the emitted call sequence is `initVulkan`,
then calls none of which is `initVulkan`, `run` or `deinitVulkan`, then the
last `addVulkanLaunchActionToSchedule` directly followed by `run` and
`deinitVulkan`, then at most print calls; every runtime operand is the
result of that one `initVulkan` call, which stands at slot `handle`. -/
theorem init_run_deinit_once (env : Env) (ir : IR) (hacyclic : ir.Acyclic)
    (hlaunch : 1 ≤ countLaunches ir.ops)
    (hser : ∀ k, k < countLaunches ir.ops →
      (createBinaryShader env k).1 = LogicalResult.success)
    (hnobind : ∀ op ∈ ir.ops, op.kind ≠ OpKind.call kBindAllBuffers) :
    ∃ (r : PassResult) (handle : Nat) (mid tail : List Call),
      runOnOperation env ir = some r ∧ r.state.passFailed = false ∧
      r.emitted.flatten = [initVulkanCall] ++ mid
        ++ [addLaunchActionToScheduleCall (some handle), runCall (some handle),
            deinitVulkanCall (some handle)] ++ tail ∧
      (∃ rest, r.emitted[handle]? = some (initVulkanCall :: rest)) ∧
      (∀ c ∈ mid, CallOK (some handle) c) ∧
      (∀ c ∈ tail, CallOK (some handle) c ∧ c.callee ≠ kAddVulkanLaunchActionToSchedule) := by
  have hstart1 : (startState ir).lauchFuncIndex + countLaunches ir.ops
      = (startState ir).numKernel := by simp [startState, PassState.initial]
  have hstart2 : ∀ k, (startState ir).lauchFuncIndex ≤ k → k < (startState ir).numKernel →
      (createBinaryShader env k).1 = LogicalResult.success := fun k _ hk => hser k hk
  have hidx : (startState ir).lauchFuncIndex = 0 := rfl
  -- the walk over the launches sets `deinitVulkan`
  obtain ⟨-, ⟨d, hd⟩, -, -⟩ := convertAll_shape env ir.ops 0 (startState ir)
    (List.replicate ir.ops.length []) hstart1 hstart2 (by simp)
    (by
      intro j op hj _
      have hlt : j < ir.ops.length := by
        by_contra hc
        rw [List.getElem?_eq_none (by omega)] at hj
        cases hj
      simp [List.getElem?_replicate, hlt])
    (by
      intro b hb c hc
      rw [List.eq_of_mem_replicate hb] at hc
      cases hc)
    (by omega)
  obtain ⟨hl1, hl2, -⟩ := convertAll_ops env ir.ops 0 (startState ir)
  obtain ⟨⟨st2, out⟩, hb⟩ := bindAll_isSome env ⟨(convertAll env 0 ir.ops (startState ir)).2.1⟩
    (acyclic_convertAll env ir (startState ir) hacyclic)
    (convertAll env 0 ir.ops (startState ir)).2.1 0
    (convertAll env 0 ir.ops (startState ir)).2.2
    (convertAll env 0 ir.ops (startState ir)).1 d hd
  obtain ⟨hsame, binds, hbl, hout, hnb, -, hall⟩ := bindAll_spec env _ _ 0 _ _ _ _
    (by rw [hl1, hl2]) hb
  obtain ⟨hpf, -, hinit, mid, tail, heq, hmid, htail⟩ := convertAll_shape env ir.ops 0
    (startState ir) binds hstart1 hstart2 (by rw [hbl, hl1])
    (binds_nil_of_not_launch env ir (startState ir) hnobind binds hnb)
    (fun b hb c hc => callOK_bind _ c (hall b hb c hc)) (by omega)
  obtain ⟨j, rest, hrt, hj⟩ := hinit hidx
  rw [hrt] at heq hmid htail
  rw [if_pos hidx] at heq
  simp only [Nat.zero_add] at heq hmid htail hj
  refine ⟨{ state := st2, emitted := out, declared := declareVulkanFunctions st2 }, j, mid, tail,
    ?_, ?_, ?_, ?_, hmid, htail⟩
  · rw [runOnOperation_eq, hb]
  · show st2.passFailed = false
    rw [hsame.2.2.2.2.1, hpf]
    rfl
  · show out.flatten = _
    rw [hout, heq]
  · show ∃ rest, out[j]? = some (initVulkanCall :: rest)
    rw [hout]
    exact ⟨rest, hj⟩

theorem mem_weaveSlots_flatten :
    ∀ (sites : List Site) (binds : List (List Call)) (c : Call),
      c ∈ (weaveSlots sites binds).flatten →
        (∃ (j : Nat) (site : Site), sites[j]? = some site ∧ (c ∈ site.before ∨ c ∈ site.after)) ∨
          ∃ b ∈ binds, c ∈ b := by
  intro sites
  induction sites with
  | nil => intro binds c h; simp [weaveSlots] at h
  | cons site sites ih =>
    intro binds c h
    cases binds with
    | nil => simp [weaveSlots] at h
    | cons b binds =>
      simp only [weaveSlots, List.flatten_cons, List.mem_append] at h
      rcases h with ((h | h) | h) | h
      · exact Or.inl ⟨0, site, by simp, Or.inl h⟩
      · exact Or.inr ⟨b, List.mem_cons_self _ _, h⟩
      · exact Or.inl ⟨0, site, by simp, Or.inr h⟩
      · rcases ih binds c h with ⟨j, s2, h1, h2⟩ | ⟨b2, h1, h2⟩
        · exact Or.inl ⟨j + 1, s2, by simpa using h1, h2⟩
        · exact Or.inr ⟨b2, List.mem_cons_of_mem _ h1, h2⟩

/-- The walk over the launches, slot by slot: a slot that is not a launch
is left alone, a launch slot holds what `convertGpuLaunchFunc` makes of it
in a state that satisfies the invariant `I`. -/
theorem convertAll_slots (env : Env) (I : List Operation → PassState → Prop)
    (hstep : ∀ (op : Operation) (rest : List Operation) (st : PassState) (slot : Nat)
      (l : LaunchFuncOp), op.kind = OpKind.launchFunc l → I (op :: rest) st →
        I rest (convertGpuLaunchFunc env st slot op l).1)
    (hskip : ∀ (op : Operation) (rest : List Operation) (st : PassState),
      (∀ l, op.kind ≠ OpKind.launchFunc l) → I (op :: rest) st → I rest st) :
    ∀ (ops : List Operation) (s : Nat) (st : PassState), I ops st →
      I [] (convertAll env s ops st).1 ∧
      ∀ (j : Nat) (op : Operation), ops[j]? = some op →
        ((∀ l, op.kind ≠ OpKind.launchFunc l) →
          (convertAll env s ops st).2.1[j]? = some op ∧
          (convertAll env s ops st).2.2[j]? = some ⟨[], []⟩) ∧
        (∀ l, op.kind = OpKind.launchFunc l → ∃ stj, I (ops.drop j) stj ∧
          (convertAll env s ops st).2.1[j]?
            = some (convertGpuLaunchFunc env stj (s + j) op l).2.1 ∧
          (convertAll env s ops st).2.2[j]?
            = some (convertGpuLaunchFunc env stj (s + j) op l).2.2 ∧
          (convertAll env s ops st).1
            = (convertAll env (s + j + 1) (ops.drop (j + 1))
                (convertGpuLaunchFunc env stj (s + j) op l).1).1) := by
  intro ops
  induction ops with
  | nil =>
    intro s st h
    exact ⟨h, by intro j op hj; simp at hj⟩
  | cons op rest ih =>
    intro s st h
    by_cases hk : ∃ l, op.kind = OpKind.launchFunc l
    · obtain ⟨l, hk⟩ := hk
      have hconv : convertAll env s (op :: rest) st
          = ((convertAll env (s + 1) rest (convertGpuLaunchFunc env st s op l).1).1,
             (convertGpuLaunchFunc env st s op l).2.1
               :: (convertAll env (s + 1) rest (convertGpuLaunchFunc env st s op l).1).2.1,
             (convertGpuLaunchFunc env st s op l).2.2
               :: (convertAll env (s + 1) rest (convertGpuLaunchFunc env st s op l).1).2.2) := by
        conv => lhs; unfold convertAll
        simp only [hk]
      obtain ⟨h1, h2⟩ := ih (s + 1) _ (hstep op rest st s l hk h)
      rw [hconv]
      refine ⟨h1, ?_⟩
      intro j opj hj
      cases j with
      | zero =>
        simp at hj; subst hj
        refine ⟨fun hl => absurd hk (hl l), ?_⟩
        intro l2 hk2
        have : l2 = l := by rw [hk] at hk2; injection hk2 with e; exact e.symm
        subst this
        exact ⟨st, h, by simp, by simp, by simp⟩
      | succ j =>
        simp at hj
        obtain ⟨h3, h4⟩ := h2 j opj hj
        refine ⟨?_, ?_⟩
        · intro hl
          simpa using h3 hl
        · intro l2 hk2
          obtain ⟨stj, i1, i2, i3, i4⟩ := h4 l2 hk2
          have e : s + (j + 1) = s + 1 + j := by omega
          refine ⟨stj, by simpa using i1, ?_, ?_, ?_⟩
          · rw [e]; simpa using i2
          · rw [e]; simpa using i3
          · rw [e]; simpa using i4
    · have hk2 : ∀ l, op.kind ≠ OpKind.launchFunc l := fun l h => hk ⟨l, h⟩
      have hconv : convertAll env s (op :: rest) st
          = ((convertAll env (s + 1) rest st).1, op :: (convertAll env (s + 1) rest st).2.1,
             ⟨[], []⟩ :: (convertAll env (s + 1) rest st).2.2) := by
        conv => lhs; unfold convertAll
        split
        · rename_i l h; exact absurd h (hk2 l)
        · rfl
      obtain ⟨h1, h2⟩ := ih (s + 1) st (hskip op rest st hk2 h)
      rw [hconv]
      refine ⟨h1, ?_⟩
      intro j opj hj
      cases j with
      | zero =>
        simp at hj; subst hj
        exact ⟨fun _ => by simp, fun l hl => absurd hl (hk2 l)⟩
      | succ j =>
        simp at hj
        obtain ⟨h3, h4⟩ := h2 j opj hj
        refine ⟨?_, ?_⟩
        · intro hl
          simpa using h3 hl
        · intro l2 hkl
          obtain ⟨stj, i1, i2, i3, i4⟩ := h4 l2 hkl
          have e : s + (j + 1) = s + 1 + j := by omega
          refine ⟨stj, by simpa using i1, ?_, ?_, ?_⟩
          · rw [e]; simpa using i2
          · rw [e]; simpa using i3
          · rw [e]; simpa using i4

theorem transferBuffersFrom_map_mem :
    ∀ (args : List Value) (i : Nat) (st : PassState), KeysDistinct st.bufferMap →
      ∀ v src, (v, src) ∈ (transferBuffersFrom i args st).1.bufferMap →
        (v, src) ∈ st.bufferMap ∨ src.1 = st.lauchFuncIndex := by
  intro args
  induction args with
  | nil => intro i st _ v src h; exact Or.inl (by simpa [transferBuffersFrom] using h)
  | cons a rest ih =>
    intro i st hk v src h
    simp only [transferBuffersFrom] at h
    rcases ih (i + 1) _ (keysDistinct_denseMapSet a _ _ hk) v src h with h1 | h1
    · rcases (mem_denseMapSet a _ _ hk v src).mp h1 with h2 | h2
      · right; rw [h2.2]
      · exact Or.inl h2.2
    · exact Or.inr (by simpa using h1)

theorem transferInv_step (env : Env) (total : Nat) (op : Operation) (rest : List Operation)
    (st : PassState) (slot : Nat) (l : LaunchFuncOp) (hk : op.kind = OpKind.launchFunc l)
    (h : TransferInv total (op :: rest) st) :
    TransferInv total rest (convertGpuLaunchFunc env st slot op l).1 := by
  obtain ⟨h1, h2, h3, h4⟩ := h
  rw [countLaunches_cons_launch op rest l hk] at h3
  obtain ⟨ai1, ai2, ai3, -, -⟩ := afterInit_fields st slot
  rcases createBinaryShader_cases env st.lauchFuncIndex with e | ⟨binary, e⟩
  · rw [convertGpuLaunchFunc_failed env st slot op l e]
    refine ⟨?_, ?_, ?_, ?_⟩
    · show KeysDistinct (afterInit st slot).bufferMap
      rw [ai2]; exact h1
    · show ∀ v src, (v, src) ∈ (afterInit st slot).bufferMap →
        src.1 < (afterInit st slot).lauchFuncIndex
      rw [ai1, ai2]; exact h2
    · show (afterInit st slot).lauchFuncIndex + countLaunches rest ≤ (afterInit st slot).numKernel
      rw [ai1, ai3]; omega
    · show (afterInit st slot).numKernel = total
      rw [ai3]; exact h4
  · obtain ⟨m, i, -, n, -⟩ := convertGpuLaunchFunc_lowered env st slot op l binary e
    have hk0 : KeysDistinct (afterInit st slot).bufferMap := by rw [ai2]; exact h1
    refine ⟨?_, ?_, ?_, ?_⟩
    · rw [m]; exact transferBuffersFrom_keys _ _ _ hk0
    · intro v src hv
      rw [m] at hv
      rw [i]
      rcases transferBuffersFrom_map_mem _ _ _ hk0 v src hv with h5 | h5
      · rw [ai2] at h5
        have := h2 v src h5
        omega
      · rw [ai1] at h5; omega
    · rw [i, n]; omega
    · rw [n]; exact h4

theorem transferInv_skip (total : Nat) (op : Operation) (rest : List Operation)
    (st : PassState) (hk : ∀ l, op.kind ≠ OpKind.launchFunc l)
    (h : TransferInv total (op :: rest) st) : TransferInv total rest st := by
  obtain ⟨h1, h2, h3, h4⟩ := h
  rw [countLaunches_cons_other op rest hk] at h3
  exact ⟨h1, h2, h3, h4⟩

/-- A transfer created while a launch is lowered goes from a launch that is
not later than the current one, and from an earlier one when the launch
names no buffer twice. -/
theorem convertGpuLaunchFunc_transfer (env : Env) (total : Nat) (op : Operation)
    (rest : List Operation) (st : PassState) (slot : Nat) (l : LaunchFuncOp)
    (hk : op.kind = OpKind.launchFunc l) (h : TransferInv total (op :: rest) st) (c : Call)
    (hc : c ∈ (convertGpuLaunchFunc env st slot op l).2.2.before
        ∨ c ∈ (convertGpuLaunchFunc env st slot op l).2.2.after)
    (hcallee : c.callee = kCreateVulkanMemoryTransferAction) :
    ∃ rt src k i, c = transferCall rt src k i ∧ src.1 ≤ k ∧ k < total ∧
      ((kernelOperands op).Nodup → src.1 < k) := by
  obtain ⟨h1, h2, h3, h4⟩ := h
  rw [countLaunches_cons_launch op rest l hk] at h3
  obtain ⟨ai1, ai2, ai3, -, -⟩ := afterInit_fields st slot
  have hk0 : KeysDistinct (afterInit st slot).bufferMap := by rw [ai2]; exact h1
  rcases createBinaryShader_cases env st.lauchFuncIndex with e | ⟨binary, e⟩
  · rw [convertGpuLaunchFunc_failed env st slot op l e] at hc
    simp only at hc
    rcases hc with hc | hc
    · split at hc
      · simp only [List.mem_singleton] at hc
        rw [hc] at hcallee
        exact absurd (show kInitVulkan = kCreateVulkanMemoryTransferAction from hcallee)
          (by decide)
      · cases hc
    · cases hc
  · obtain ⟨-, -, -, -, -, -, -, bf, af⟩ := convertGpuLaunchFunc_lowered env st slot op l binary e
    rw [bf, af] at hc
    rcases hc with hc | hc
    · simp only [List.mem_append, List.mem_singleton] at hc
      rcases hc with hc | hc
      · split at hc
        · simp only [List.mem_singleton] at hc
          rw [hc] at hcallee
          exact absurd (show kInitVulkan = kCreateVulkanMemoryTransferAction from hcallee)
            (by decide)
        · cases hc
      · rw [hc] at hcallee
        exact absurd (show kCreateVulkanLaunchKernelAction = kCreateVulkanMemoryTransferAction
          from hcallee) (by decide)
    · have hct := mem_callsAfterBind_transfer _ _ _ _ _ _ c hc hcallee
      obtain ⟨j, v, src, hj, hcj, hsrc⟩ := transferBuffersFrom_source _ 0 _ hk0 c hct
      rw [ai1] at hcj hsrc
      rw [ai2] at hsrc
      refine ⟨_, src, st.lauchFuncIndex, 0 + j, hcj, ?_, by omega, ?_⟩
      · rcases hsrc with hsrc | hsrc
        · exact Nat.le_of_lt (h2 v src hsrc)
        · omega
      · intro hnd
        rcases hsrc with hsrc | hsrc
        · exact h2 v src hsrc
        · exfalso
          obtain ⟨i2, hi2⟩ := List.getElem?_of_mem hsrc.2
          have hlt : i2 < j := by
            by_contra hge
            rw [List.getElem?_take_eq_none (by omega)] at hi2
            cases hi2
          rw [List.getElem?_take, if_pos hlt] at hi2
          have hj1 : j < (kernelOperands op).length := by
            by_contra hge
            rw [List.getElem?_eq_none (by omega)] at hj
            cases hj
          have hi1 : i2 < (kernelOperands op).length := by omega
          rw [List.getElem?_eq_getElem hj1] at hj
          rw [List.getElem?_eq_getElem hi1] at hi2
          injection hj with hj
          injection hi2 with hi2
          have := (List.Nodup.getElem_inj_iff hnd).mp (hi2.trans hj.symm)
          omega

theorem runOnOperation_some (env : Env) (ir : IR) (r : PassResult)
    (hrun : runOnOperation env ir = some r) :
    ∃ st, bindAll env ⟨(convertAll env 0 ir.ops (startState ir)).2.1⟩ 0
        (convertAll env 0 ir.ops (startState ir)).2.1
        (convertAll env 0 ir.ops (startState ir)).2.2
        (convertAll env 0 ir.ops (startState ir)).1 = some (st, r.emitted) ∧ r.state = st := by
  rw [runOnOperation_eq] at hrun
  split at hrun
  · cases hrun
  · rename_i st emitted hb
    injection hrun with hrun
    subst hrun
    exact ⟨st, hb, rfl⟩

theorem transferInv_start (ir : IR) :
    TransferInv (countLaunches ir.ops) ir.ops (startState ir) := by
  refine ⟨?_, ?_, ?_, rfl⟩
  · simp [KeysDistinct, startState, PassState.initial]
  · intro v src h
    simp [startState, PassState.initial] at h
  · simp [startState, PassState.initial]

theorem isBindingCall_callee (rt : Option Nat) (c : Call) (h : IsBindingCall rt c) :
    c.callee ≠ kCreateVulkanMemoryTransferAction := by
  obtain ⟨t, i, size, mode, buffer, hc⟩ := h
  subst hc
  have hn := bindingFunc_cases t
  intro e
  have e2 : stringRef (getBufferBindingFunc t) = kCreateVulkanMemoryTransferAction := e
  rw [e2] at hn
  revert hn
  decide

theorem noRepeatedOperands_nodup (ir : IR) (h : noRepeatedOperands ir = true) (j : Nat)
    (op : Operation) (l : LaunchFuncOp) (hj : ir.ops[j]? = some op)
    (hk : op.kind = OpKind.launchFunc l) : (kernelOperands op).Nodup := by
  unfold noRepeatedOperands at h
  have := (List.all_eq_true.mp h) op (List.getElem?_mem hj)
  simp only [hk] at this
  exact of_decide_eq_true this

/-- C4 (amended): every `createVulkanMemoryTransferAction` call the pass
emits goes from a launch index that is not larger than the launch index it
goes to, which is the index of a launch of the program; the source index is
strictly smaller when no launch names a buffer twice among its kernel
operands, so a program with exactly one launch that names no buffer twice
gets no transfer call. -/
theorem transfer_source_not_later (env : Env) (ir : IR) (r : PassResult)
    (hrun : runOnOperation env ir = some r) :
    (∀ c ∈ r.emitted.flatten, c.callee = kCreateVulkanMemoryTransferAction →
      ∃ rt src k i, c = transferCall rt src k i ∧ src.1 ≤ k ∧ k < countLaunches ir.ops ∧
        (noRepeatedOperands ir = true → src.1 < k)) ∧
    (countLaunches ir.ops = 1 → noRepeatedOperands ir = true →
      ∀ c ∈ r.emitted.flatten, c.callee ≠ kCreateVulkanMemoryTransferAction) := by
  have main : ∀ c ∈ r.emitted.flatten, c.callee = kCreateVulkanMemoryTransferAction →
      ∃ rt src k i, c = transferCall rt src k i ∧ src.1 ≤ k ∧ k < countLaunches ir.ops ∧
        (noRepeatedOperands ir = true → src.1 < k) := by
    intro c hc hcallee
    obtain ⟨st, hb, -⟩ := runOnOperation_some env ir r hrun
    obtain ⟨hl1, hl2, -⟩ := convertAll_ops env ir.ops 0 (startState ir)
    obtain ⟨-, binds, -, hout, -, -, hall⟩ := bindAll_spec env _ _ 0 _ _ _ _
      (by rw [hl1, hl2]) hb
    rw [hout] at hc
    rcases mem_weaveSlots_flatten _ _ c hc with ⟨j, site, hj, hcs⟩ | ⟨b, hb2, hcb⟩
    · have hjlt : j < ir.ops.length := by
        by_contra hge
        rw [List.getElem?_eq_none (by omega)] at hj
        cases hj
      obtain ⟨-, hslots⟩ := convertAll_slots env (TransferInv (countLaunches ir.ops))
        (fun op rest st slot l hk h => transferInv_step env _ op rest st slot l hk h)
        (fun op rest st hk h => transferInv_skip _ op rest st hk h)
        ir.ops 0 (startState ir) (transferInv_start ir)
      obtain ⟨hother, hlaunchSlot⟩ := hslots j (ir.ops[j]) (List.getElem?_eq_getElem hjlt)
      by_cases hk : ∃ l, (ir.ops[j]).kind = OpKind.launchFunc l
      · obtain ⟨l, hk⟩ := hk
        obtain ⟨stj, hinv, -, hsite, -⟩ := hlaunchSlot l hk
        rw [hj] at hsite
        injection hsite with hsite
        rw [hsite] at hcs
        rw [List.drop_eq_getElem_cons hjlt] at hinv
        obtain ⟨rt, src, k, i, h1, h2, h3, h4⟩ :=
          convertGpuLaunchFunc_transfer env _ _ _ stj (0 + j) l hk hinv c hcs hcallee
        exact ⟨rt, src, k, i, h1, h2, h3, fun hn => h4
          (noRepeatedOperands_nodup ir hn j _ l (List.getElem?_eq_getElem hjlt) hk)⟩
      · have := (hother (fun l hl => hk ⟨l, hl⟩)).2
        rw [hj] at this
        injection this with this
        rw [this] at hcs
        simp at hcs
    · exact absurd hcallee (isBindingCall_callee _ c (hall b hb2 c hcb))
  refine ⟨main, ?_⟩
  intro hone hnd c hc hcallee
  obtain ⟨rt, src, k, i, -, -, h3, h4⟩ := main c hc hcallee
  have := h4 hnd
  omega

theorem bindBuffersFrom_memref (env : Env) (ir : IR) (callOp : Nat) (hacyclic : ir.Acyclic) :
    ∀ (buffers : List Value) (i : Nat) (st : PassState) (deinit : Nat),
      st.deinitVulkan = some deinit →
      (∀ b ∈ buffers, ∃ shape t, b.type = MlirType.memref shape t) →
        ∃ st2 calls, bindBuffersFrom env ir callOp i buffers st
            = some (LogicalResult.success, st2, calls) ∧
          calls.length = buffers.length ∧
          ∀ (j : Nat) (b : Value), buffers[j]? = some b → ∃ shape t mode,
            b.type = MlirType.memref shape t ∧
            calls[j]? = some (bindBufferCall st.vulkanRuntime t (i + j)
              (bufferByteSizeOf shape t) mode b) := by
  intro buffers
  induction buffers with
  | nil =>
    intro i st d _ _
    exact ⟨st, [], rfl, rfl, by intro j b h; simp at h⟩
  | cons b rest ih =>
    intro i st d hd hall
    obtain ⟨shape, t, hty⟩ := hall b (List.mem_cons_self _ _)
    obtain ⟨m, hm⟩ := getBufferCopyMode_isSome ir st.optionalSymbols d callOp b hacyclic
    obtain ⟨st2, calls, hrec, hlen, hcalls⟩ := ih (i + 1)
      { st with
        deinitVulkan := some d
        bufferElementTypes := st.bufferElementTypes.insert env.typeID t
        optionalSymbols := symbolInsert st.optionalSymbols (stringRef (getBufferBindingFunc t))
        warnings := st.warnings + m.2 } d rfl
      (fun x hx => hall x (List.mem_cons_of_mem _ hx))
    refine ⟨st2, bindBufferCall st.vulkanRuntime t i (bufferByteSizeOf shape t) m.1 b :: calls,
      ?_, by simp [hlen], ?_⟩
    · unfold bindBuffersFrom
      simp only [hty, hd, hm, hrec]
    · intro j x hj
      cases j with
      | zero =>
        simp at hj; subst hj
        exact ⟨shape, t, m.1, hty, by simp⟩
      | succ j =>
        simp at hj
        obtain ⟨shape2, t2, mode2, h1, h2⟩ := hcalls j x hj
        refine ⟨shape2, t2, mode2, h1, ?_⟩
        have e : i + (j + 1) = i + 1 + j := by omega
        rw [e]; simpa using h2

/-- C10: for a `bindAllBuffers` call whose operands are all memrefs of
supported element types (acyclic program, `deinitVulkan` set), `bindBuffers`
succeeds and creates one binding call per operand, in operand order; the
call for operand `j` is a call to the binding function of its element type
and carries the runtime, the descriptor set 0, the binding index `j` and the
operand cast to an unranked memref. -/
theorem bindBuffers_one_call_per_buffer (env : Env) (ir : IR) (st : PassState)
    (callOp deinit : Nat) (buffers : List Value) (hacyclic : ir.Acyclic)
    (hdeinit : st.deinitVulkan = some deinit)
    (hsupported : ∀ b ∈ buffers, ∃ shape t name, b.type = MlirType.memref shape t ∧
      getBufferBindingFunc t = some name) :
    ∃ st2 calls, bindBuffers env ir st callOp buffers = some (LogicalResult.success, st2, calls) ∧
      calls.length = buffers.length ∧
      ∀ (j : Nat) (b : Value), buffers[j]? = some b → ∃ c shape t name,
        calls[j]? = some c ∧ b.type = MlirType.memref shape t ∧
        getBufferBindingFunc t = some name ∧ c.callee = name ∧
        c.operands[0]? = some (Arg.runtime st.vulkanRuntime) ∧
        c.operands[1]? = some (Arg.constant 32 0) ∧
        c.operands[2]? = some (Arg.constant 32 j) ∧
        c.operands[5]? = some (Arg.memRefCast b) := by
  obtain ⟨st2, calls, h1, h2, h3⟩ := bindBuffersFrom_memref env ir callOp hacyclic buffers 0 st
    deinit hdeinit (fun b hb => by
      obtain ⟨shape, t, _, h, _⟩ := hsupported b hb
      exact ⟨shape, t, h⟩)
  refine ⟨st2, calls, h1, h2, ?_⟩
  intro j b hj
  obtain ⟨shape, t, mode, hty, hc⟩ := h3 j b hj
  obtain ⟨shape2, t2, name, hty2, hname⟩ := hsupported b (List.getElem?_mem hj)
  rw [hty] at hty2
  injection hty2 with e1 e2
  subst e1; subst e2
  refine ⟨_, shape, t, name, hc, hty, hname, ?_, ?_, ?_, ?_, ?_⟩
  · simp [bindBufferCall, hname, stringRef]
  · simp [bindBufferCall]
  · simp [bindBufferCall]
  · simp [bindBufferCall]
  · simp [bindBufferCall]

theorem countLaunches_take_drop :
    ∀ (ops : List Operation) (j : Nat),
      countLaunches (ops.take j) + countLaunches (ops.drop j) = countLaunches ops := by
  intro ops
  induction ops with
  | nil => intro j; simp [countLaunches]
  | cons op rest ih =>
    intro j
    cases j with
    | zero => simp [countLaunches]
    | succ j =>
      simp only [List.take_succ_cons, List.drop_succ_cons]
      have := ih j
      by_cases hk : ∃ l, op.kind = OpKind.launchFunc l
      · obtain ⟨l, hk⟩ := hk
        rw [countLaunches_cons_launch _ _ l hk, countLaunches_cons_launch _ _ l hk]
        omega
      · have hk2 : ∀ l, op.kind ≠ OpKind.launchFunc l := fun l h => hk ⟨l, h⟩
        rw [countLaunches_cons_other _ _ hk2, countLaunches_cons_other _ _ hk2]
        exact this

theorem weaveSlots_getElem? :
    ∀ (sites : List Site) (binds : List (List Call)) (j : Nat) (site : Site) (b : List Call),
      sites[j]? = some site → binds[j]? = some b →
        (weaveSlots sites binds)[j]? = some (site.before ++ b ++ site.after) := by
  intro sites
  induction sites with
  | nil => intro binds j site b h; simp at h
  | cons s sites ih =>
    intro binds j site b hs hb
    cases binds with
    | nil => simp at hb
    | cons b0 binds =>
      cases j with
      | zero =>
        simp at hs hb
        subst hs; subst hb
        simp [weaveSlots]
      | succ j =>
        simp at hs hb
        simpa [weaveSlots] using ih binds j site b hs hb

theorem createBinaryShader_failure (env : Env) (k : Nat)
    (h : (createBinaryShader env k).1 = LogicalResult.failure) :
    createBinaryShader env k = (LogicalResult.failure, []) := by
  rcases createBinaryShader_cases env k with e | ⟨binary, e⟩
  · exact e
  · rw [e] at h; cases h

theorem failInv_step (env : Env) (k total : Nat)
    (hfail : (createBinaryShader env k).1 = LogicalResult.failure)
    (hok : ∀ i, i < k → (createBinaryShader env i).1 = LogicalResult.success)
    (op : Operation) (rest : List Operation)
    (st : PassState) (slot : Nat) (l : LaunchFuncOp) (hk : op.kind = OpKind.launchFunc l)
    (h : FailInv k total (op :: rest) st) :
    FailInv k total rest (convertGpuLaunchFunc env st slot op l).1 := by
  obtain ⟨h1, h2, h3⟩ := h
  rw [countLaunches_cons_launch op rest l hk] at h1 h2 h3
  obtain ⟨ai1, -, -, ai4, -⟩ := afterInit_fields st slot
  by_cases hp : total - (countLaunches rest + 1) < k
  · have hidx : st.lauchFuncIndex = total - (countLaunches rest + 1) := by omega
    have hs := hok st.lauchFuncIndex (by omega)
    rcases createBinaryShader_cases env st.lauchFuncIndex with e | ⟨binary, e⟩
    · rw [e] at hs; cases hs
    obtain ⟨-, i, -, -, pf, -⟩ := convertGpuLaunchFunc_lowered env st slot op l binary e
    refine ⟨by omega, by rw [i]; omega, ?_⟩
    intro hlt
    omega
  · have hidx : st.lauchFuncIndex = k := by omega
    have e := createBinaryShader_failure env k hfail
    rw [← hidx] at e
    rw [convertGpuLaunchFunc_failed env st slot op l e]
    refine ⟨by omega, ?_, fun _ => rfl⟩
    show (afterInit st slot).lauchFuncIndex = _
    rw [ai1]; omega

theorem failInv_skip (k total : Nat) (op : Operation) (rest : List Operation)
    (st : PassState) (hk : ∀ l, op.kind ≠ OpKind.launchFunc l)
    (h : FailInv k total (op :: rest) st) : FailInv k total rest st := by
  obtain ⟨h1, h2, h3⟩ := h
  rw [countLaunches_cons_other op rest hk] at h1 h2 h3
  exact ⟨h1, h2, h3⟩

theorem failInv_start (k : Nat) (ir : IR) :
    FailInv k (countLaunches ir.ops) ir.ops (startState ir) := by
  refine ⟨Nat.le_refl _, ?_, ?_⟩
  · simp [startState, PassState.initial]
  · intro h; omega

/-- C7 (amended): when serialization fails first for the launch index `k`,
the pass signals failure; launch `k` and every launch after it stay in
place, and nothing is created for them except an `initVulkan` call when
`k = 0` (it is created before the shader is serialized, and once more for
every later launch, since the launch index stays 0). -/
theorem serialization_failure (env : Env) (ir : IR) (k : Nat)
    (hk : k < countLaunches ir.ops)
    (hfail : (createBinaryShader env k).1 = LogicalResult.failure)
    (hok : ∀ i, i < k → (createBinaryShader env i).1 = LogicalResult.success) :
    (convertAll env 0 ir.ops (startState ir)).1.passFailed = true ∧
    (∀ (j : Nat) (op : Operation) (l : LaunchFuncOp), ir.ops[j]? = some op →
      op.kind = OpKind.launchFunc l → k ≤ countLaunches (ir.ops.take j) →
        (convertAll env 0 ir.ops (startState ir)).2.1[j]? = some op ∧
        (convertAll env 0 ir.ops (startState ir)).2.2[j]?
          = some ⟨if k = 0 then [initVulkanCall] else [], []⟩) ∧
    (∀ r, runOnOperation env ir = some r → r.state.passFailed = true ∧
      ∀ (j : Nat) (op : Operation) (l : LaunchFuncOp), ir.ops[j]? = some op →
        op.kind = OpKind.launchFunc l → k ≤ countLaunches (ir.ops.take j) →
          r.emitted[j]? = some (if k = 0 then [initVulkanCall] else [])) := by
  obtain ⟨hfinal, hslots⟩ := convertAll_slots env (FailInv k (countLaunches ir.ops))
    (fun op rest st slot l hkind h => failInv_step env k _ hfail hok op rest st slot l hkind h)
    (fun op rest st hkind h => failInv_skip k _ op rest st hkind h)
    ir.ops 0 (startState ir) (failInv_start k ir)
  have hpf : (convertAll env 0 ir.ops (startState ir)).1.passFailed = true := by
    apply hfinal.2.2
    simp [countLaunches]
    exact hk
  have hslot : ∀ (j : Nat) (op : Operation) (l : LaunchFuncOp), ir.ops[j]? = some op →
      op.kind = OpKind.launchFunc l → k ≤ countLaunches (ir.ops.take j) →
        (convertAll env 0 ir.ops (startState ir)).2.1[j]? = some op ∧
        (convertAll env 0 ir.ops (startState ir)).2.2[j]?
          = some ⟨if k = 0 then [initVulkanCall] else [], []⟩ := by
    intro j op l hj hkind hord
    obtain ⟨stj, hinv, h1, h2, -⟩ := (hslots j op hj).2 l hkind
    obtain ⟨i1, i2, -⟩ := hinv
    have htd := countLaunches_take_drop ir.ops j
    have hidx : stj.lauchFuncIndex = k := by omega
    have e := createBinaryShader_failure env k hfail
    rw [← hidx] at e
    rw [convertGpuLaunchFunc_failed env stj (0 + j) op l e] at h1 h2
    simp only at h1 h2
    rw [hidx] at h2
    exact ⟨h1, h2⟩
  refine ⟨hpf, hslot, ?_⟩
  intro r hrun
  obtain ⟨st, hb, hst⟩ := runOnOperation_some env ir r hrun
  obtain ⟨hl1, hl2, -⟩ := convertAll_ops env ir.ops 0 (startState ir)
  obtain ⟨hsame, binds, -, hout, hnb, -, -⟩ := bindAll_spec env _ _ 0 _ _ _ _
    (by rw [hl1, hl2]) hb
  refine ⟨by rw [hst, hsame.2.2.2.2.1]; exact hpf, ?_⟩
  intro j op l hj hkind hord
  obtain ⟨h1, h2⟩ := hslot j op l hj hkind hord
  have hb0 := hnb j op h1 (by rw [hkind]; intro h; cases h)
  have := weaveSlots_getElem? _ _ j _ _ h2 hb0
  rw [hout, this]
  simp

theorem countCallee_append (name : String) (a b : List Call) :
    countCallee name (a ++ b) = countCallee name a + countCallee name b := by
  simp [countCallee, List.filter_append]

theorem countCallee_zero (name : String) (l : List Call) (h : ∀ c ∈ l, c.callee ≠ name) :
    countCallee name l = 0 := by
  unfold countCallee
  rw [List.length_eq_zero, List.filter_eq_nil_iff]
  intro c hc
  simpa using h c hc

theorem isBindingCall_callee_cases (rt : Option Nat) (c : Call) (h : IsBindingCall rt c) :
    c.callee ∈ [kBindBufferInteger8, kBindBufferInteger16,
      kBindBufferInteger32, kBindBufferInteger64, kBindBufferBFloat16, kBindBufferFloat16,
      kBindBufferFloat32, kBindBufferFloat64, ""] := by
  obtain ⟨t, i, size, mode, buffer, hc⟩ := h
  subst hc
  exact bindingFunc_cases t

theorem launch_counts (rt : Option Nat) (k : Nat) (binary : List Nat) (l : LaunchFuncOp)
    (inits binds transfers finals prints : List Call)
    (hinit : inits = [] ∨ inits = [initVulkanCall])
    (hbinds : ∀ c ∈ binds, IsBindingCall rt c)
    (htransfers : ∀ c ∈ transfers, c.callee = kCreateVulkanMemoryTransferAction)
    (hfinals : finals = [] ∨ finals = [runCall rt, deinitVulkanCall rt])
    (hprints : ∀ c ∈ prints, c.callee = kPrint_memref_f32) :
    countCallee kCreateVulkanLaunchKernelAction
      (inits ++ [createLaunchKernelActionCall rt k binary l] ++ binds
        ++ [setLaunchKernelActionCall rt l] ++ transfers
        ++ [addLaunchActionToScheduleCall rt] ++ finals ++ prints) = 1 ∧
    countCallee kSetVulkanLaunchKernelAction
      (inits ++ [createLaunchKernelActionCall rt k binary l] ++ binds
        ++ [setLaunchKernelActionCall rt l] ++ transfers
        ++ [addLaunchActionToScheduleCall rt] ++ finals ++ prints) = 1 ∧
    countCallee kAddVulkanLaunchActionToSchedule
      (inits ++ [createLaunchKernelActionCall rt k binary l] ++ binds
        ++ [setLaunchKernelActionCall rt l] ++ transfers
        ++ [addLaunchActionToScheduleCall rt] ++ finals ++ prints) = 1 := by
  have hb : ∀ name, name ∈ [kCreateVulkanLaunchKernelAction, kSetVulkanLaunchKernelAction,
      kAddVulkanLaunchActionToSchedule] → countCallee name binds = 0 := by
    intro name hname
    apply countCallee_zero
    intro c hc e
    have := isBindingCall_callee_cases rt c (hbinds c hc)
    rw [e] at this
    revert this hname
    generalize name = n
    intro h1 h2
    simp only [List.mem_cons, List.mem_singleton, List.not_mem_nil, or_false] at h1 h2
    rcases h1 with h1 | h1 | h1 <;> subst h1 <;> revert h2 <;> decide
  have ht : ∀ name, name ≠ kCreateVulkanMemoryTransferAction → countCallee name transfers = 0 := by
    intro name hname
    apply countCallee_zero
    intro c hc e
    exact hname (e.symm.trans (htransfers c hc))
  have hp : ∀ name, name ≠ kPrint_memref_f32 → countCallee name prints = 0 := by
    intro name hname
    apply countCallee_zero
    intro c hc e
    exact hname (e.symm.trans (hprints c hc))
  have hi : ∀ name, name ≠ kInitVulkan → countCallee name inits = 0 := by
    intro name hname
    rcases hinit with h | h
    · rw [h]; rfl
    · rw [h]
      apply countCallee_zero
      intro c hc e
      simp only [List.mem_singleton] at hc
      rw [hc] at e
      exact hname e.symm
  have hf : ∀ name, name ≠ kRun → name ≠ kDeinitVulkan → countCallee name finals = 0 := by
    intro name h1 h2
    rcases hfinals with h | h
    · rw [h]; rfl
    · rw [h]
      apply countCallee_zero
      intro c hc e
      simp only [List.mem_cons, List.mem_singleton, List.not_mem_nil, or_false] at hc
      rcases hc with hc | hc
      · rw [hc] at e; exact h1 e.symm
      · rw [hc] at e; exact h2 e.symm
  have hsingle : ∀ (name : String) (c : Call),
      countCallee name [c] = if c.callee = name then 1 else 0 := by
    intro name c
    unfold countCallee
    by_cases h : c.callee = name <;> simp [h]
  have hcreate : (createLaunchKernelActionCall rt k binary l).callee
      = kCreateVulkanLaunchKernelAction := rfl
  have hset : (setLaunchKernelActionCall rt l).callee = kSetVulkanLaunchKernelAction := rfl
  have hadd : (addLaunchActionToScheduleCall rt).callee = kAddVulkanLaunchActionToSchedule := rfl
  refine ⟨?_, ?_, ?_⟩
  · rw [countCallee_append, countCallee_append, countCallee_append, countCallee_append,
      countCallee_append, countCallee_append, countCallee_append,
      hb kCreateVulkanLaunchKernelAction (by simp),
      ht kCreateVulkanLaunchKernelAction (by decide),
      hp kCreateVulkanLaunchKernelAction (by decide),
      hi kCreateVulkanLaunchKernelAction (by decide),
      hf kCreateVulkanLaunchKernelAction (by decide) (by decide),
      hsingle, hsingle, hsingle, hcreate, hset, hadd]
    decide
  · rw [countCallee_append, countCallee_append, countCallee_append, countCallee_append,
      countCallee_append, countCallee_append, countCallee_append,
      hb kSetVulkanLaunchKernelAction (by simp),
      ht kSetVulkanLaunchKernelAction (by decide),
      hp kSetVulkanLaunchKernelAction (by decide),
      hi kSetVulkanLaunchKernelAction (by decide),
      hf kSetVulkanLaunchKernelAction (by decide) (by decide),
      hsingle, hsingle, hsingle, hcreate, hset, hadd]
    decide
  · rw [countCallee_append, countCallee_append, countCallee_append, countCallee_append,
      countCallee_append, countCallee_append, countCallee_append,
      hb kAddVulkanLaunchActionToSchedule (by simp),
      ht kAddVulkanLaunchActionToSchedule (by decide),
      hp kAddVulkanLaunchActionToSchedule (by decide),
      hi kAddVulkanLaunchActionToSchedule (by decide),
      hf kAddVulkanLaunchActionToSchedule (by decide) (by decide),
      hsingle, hsingle, hsingle, hcreate, hset, hadd]
    decide

/-- When every shader module serializes and there is a launch, the walk
over the launches sets `deinitVulkan`, and the walk over the
`bindAllBuffers` calls of an acyclic program returns. -/
theorem runOnOperation_returns (env : Env) (ir : IR) (hacyclic : ir.Acyclic)
    (hlaunch : 1 ≤ countLaunches ir.ops)
    (hser : ∀ k, k < countLaunches ir.ops →
      (createBinaryShader env k).1 = LogicalResult.success) :
    ∃ st out, bindAll env ⟨(convertAll env 0 ir.ops (startState ir)).2.1⟩ 0
        (convertAll env 0 ir.ops (startState ir)).2.1
        (convertAll env 0 ir.ops (startState ir)).2.2
        (convertAll env 0 ir.ops (startState ir)).1 = some (st, out) ∧
      runOnOperation env ir
        = some { state := st, emitted := out, declared := declareVulkanFunctions st } := by
  have hstart1 : (startState ir).lauchFuncIndex + countLaunches ir.ops
      = (startState ir).numKernel := by simp [startState, PassState.initial]
  have hstart2 : ∀ k, (startState ir).lauchFuncIndex ≤ k → k < (startState ir).numKernel →
      (createBinaryShader env k).1 = LogicalResult.success := fun k _ hk => hser k hk
  obtain ⟨-, ⟨d, hd⟩, -, -⟩ := convertAll_shape env ir.ops 0 (startState ir)
    (List.replicate ir.ops.length []) hstart1 hstart2 (by simp)
    (by
      intro j op hj _
      have hlt : j < ir.ops.length := by
        by_contra hc
        rw [List.getElem?_eq_none (by omega)] at hj
        cases hj
      simp [List.getElem?_replicate, hlt])
    (by
      intro b hb c hc
      rw [List.eq_of_mem_replicate hb] at hc
      cases hc)
    (by omega)
  obtain ⟨⟨st2, out⟩, hb⟩ := bindAll_isSome env ⟨(convertAll env 0 ir.ops (startState ir)).2.1⟩
    (acyclic_convertAll env ir (startState ir) hacyclic)
    (convertAll env 0 ir.ops (startState ir)).2.1 0
    (convertAll env 0 ir.ops (startState ir)).2.2
    (convertAll env 0 ir.ops (startState ir)).1 d hd
  exact ⟨st2, out, hb, by rw [runOnOperation_eq, hb]⟩

theorem lowerInv_step (env : Env) (total : Nat)
    (hser : ∀ k, k < total → (createBinaryShader env k).1 = LogicalResult.success)
    (op : Operation) (rest : List Operation)
    (st : PassState) (slot : Nat) (l : LaunchFuncOp) (hk : op.kind = OpKind.launchFunc l)
    (h : LowerInv total (op :: rest) st) :
    LowerInv total rest (convertGpuLaunchFunc env st slot op l).1 := by
  obtain ⟨h1, h2⟩ := h
  rw [countLaunches_cons_launch op rest l hk] at h1
  have hs := hser st.lauchFuncIndex (by omega)
  rcases createBinaryShader_cases env st.lauchFuncIndex with e | ⟨binary, e⟩
  · rw [e] at hs; cases hs
  obtain ⟨-, i, -, n, -⟩ := convertGpuLaunchFunc_lowered env st slot op l binary e
  exact ⟨by rw [i]; omega, by rw [n]; exact h2⟩

theorem lowerInv_skip (total : Nat) (op : Operation) (rest : List Operation)
    (st : PassState) (hk : ∀ l, op.kind ≠ OpKind.launchFunc l)
    (h : LowerInv total (op :: rest) st) : LowerInv total rest st := by
  obtain ⟨h1, h2⟩ := h
  rw [countLaunches_cons_other op rest hk] at h1
  exact ⟨h1, h2⟩

/-- C6: for an acyclic program with a launch, all of whose shader modules
serialize, the pass returns, and the calls standing at the slot of every
launch are, in this order: `initVulkan` (first launch only),
`createVulkanLaunchKernelAction`, the binding calls of the launch,
`setVulkanLaunchKernelAction`, the transfer calls of the launch,
`addVulkanLaunchActionToSchedule`, then `run` and `deinitVulkan` (last
launch only) and the print calls; exactly one of them is a call to
`createVulkanLaunchKernelAction`, one to `setVulkanLaunchKernelAction` and
one to `addVulkanLaunchActionToSchedule`. -/
theorem launch_call_order (env : Env) (ir : IR) (hacyclic : ir.Acyclic)
    (hlaunch : 1 ≤ countLaunches ir.ops)
    (hser : ∀ k, k < countLaunches ir.ops →
      (createBinaryShader env k).1 = LogicalResult.success) :
    ∃ r, runOnOperation env ir = some r ∧
      ∀ (j : Nat) (op : Operation) (l : LaunchFuncOp), ir.ops[j]? = some op →
        op.kind = OpKind.launchFunc l →
        ∃ rt k binary inits binds transfers finals prints,
          r.emitted[j]? = some (inits ++ [createLaunchKernelActionCall rt k binary l] ++ binds
            ++ [setLaunchKernelActionCall rt l] ++ transfers
            ++ [addLaunchActionToScheduleCall rt] ++ finals ++ prints) ∧
          (inits = [] ∨ inits = [initVulkanCall]) ∧
          (∃ stb result stb2,
            bindBuffers env ⟨(convertAll env 0 ir.ops (startState ir)).2.1⟩ stb j
              (kernelOperands op) = some (result, stb2, binds)) ∧
          (∀ c ∈ binds, IsBindingCall rt c) ∧
          (∃ stt, transfers = (transferBuffers stt (kernelOperands op)).2.2) ∧
          (∀ c ∈ transfers, c.callee = kCreateVulkanMemoryTransferAction) ∧
          (finals = [] ∨ finals = [runCall rt, deinitVulkanCall rt]) ∧
          (∀ c ∈ prints, c.callee = kPrint_memref_f32) ∧
          countCallee kCreateVulkanLaunchKernelAction
            (inits ++ [createLaunchKernelActionCall rt k binary l] ++ binds
              ++ [setLaunchKernelActionCall rt l] ++ transfers
              ++ [addLaunchActionToScheduleCall rt] ++ finals ++ prints) = 1 ∧
          countCallee kSetVulkanLaunchKernelAction
            (inits ++ [createLaunchKernelActionCall rt k binary l] ++ binds
              ++ [setLaunchKernelActionCall rt l] ++ transfers
              ++ [addLaunchActionToScheduleCall rt] ++ finals ++ prints) = 1 ∧
          countCallee kAddVulkanLaunchActionToSchedule
            (inits ++ [createLaunchKernelActionCall rt k binary l] ++ binds
              ++ [setLaunchKernelActionCall rt l] ++ transfers
              ++ [addLaunchActionToScheduleCall rt] ++ finals ++ prints) = 1 := by
  obtain ⟨st2, out, hb, hrun⟩ := runOnOperation_returns env ir hacyclic hlaunch hser
  refine ⟨_, hrun, ?_⟩
  intro j op l hj hkind
  show ∃ rt k binary inits binds transfers finals prints, out[j]? = _ ∧ _
  obtain ⟨hl1, hl2, -⟩ := convertAll_ops env ir.ops 0 (startState ir)
  obtain ⟨-, binds, -, hout, -, hbb, hall⟩ := bindAll_spec env _ _ 0 _ _ _ _
    (by rw [hl1, hl2]) hb
  obtain ⟨-, hslots⟩ := convertAll_slots env (LowerInv (countLaunches ir.ops))
    (fun op rest st slot l hk h => lowerInv_step env _ hser op rest st slot l hk h)
    (fun op rest st hk h => lowerInv_skip _ op rest st hk h)
    ir.ops 0 (startState ir) ⟨by simp [startState, PassState.initial], rfl⟩
  obtain ⟨stj, hinv, hop, hsite, hfin⟩ := (hslots j op hj).2 l hkind
  have hjlt : j < ir.ops.length := by
    by_contra hge
    rw [List.getElem?_eq_none (by omega)] at hj
    cases hj
  have hopj : ir.ops[j] = op := by
    rw [List.getElem?_eq_getElem hjlt] at hj
    injection hj
  rw [List.drop_eq_getElem_cons hjlt, hopj] at hinv
  obtain ⟨i1, i2⟩ := hinv
  rw [countLaunches_cons_launch op _ l hkind] at i1
  have hs := hser stj.lauchFuncIndex (by omega)
  rcases createBinaryShader_cases env stj.lauchFuncIndex with e | ⟨binary, e⟩
  · rw [e] at hs; cases hs
  obtain ⟨-, ci, crt, -, -, -, cop, cbefore, cafter⟩ :=
    convertGpuLaunchFunc_lowered env stj (0 + j) op l binary e
  -- the binding calls of the slot
  rw [cop] at hop
  obtain ⟨stb, res, stb2, calls, -, hbindj, hcalls⟩ := hbb j (bindAllBuffersOp op) hop rfl
  have hbindj2 : bindBuffers env ⟨(convertAll env 0 ir.ops (startState ir)).2.1⟩ stb j
      (kernelOperands op) = some (res, stb2, calls) := by
    have e : 0 + j = j := by omega
    rw [e] at hbindj
    exact hbindj
  have hrt : (convertAll env 0 ir.ops (startState ir)).1.vulkanRuntime
      = (afterInit stj (0 + j)).vulkanRuntime := by
    rw [hfin, convertAll_runtime env _ _ _ (by rw [ci]; omega), crt]
  have hbind : ∀ c ∈ calls, IsBindingCall (afterInit stj (0 + j)).vulkanRuntime c := by
    intro c hc
    rw [← hrt]
    exact hall calls (List.getElem?_mem hcalls) c hc
  have hw := weaveSlots_getElem? _ _ j _ _ hsite hcalls
  rw [cbefore, cafter] at hw
  have htr : ∀ c ∈ (transferBuffersFrom 0 (kernelOperands op) (afterInit stj (0 + j))).2,
      c.callee = kCreateVulkanMemoryTransferAction := by
    intro c hc
    obtain ⟨src, i, h⟩ := transferBuffersFrom_form _ _ _ c hc
    rw [h]; rfl
  have hinits : (if stj.lauchFuncIndex = 0 then [initVulkanCall] else []) = []
      ∨ (if stj.lauchFuncIndex = 0 then [initVulkanCall] else []) = [initVulkanCall] := by
    split
    · exact Or.inr rfl
    · exact Or.inl rfl
  have hfinals : (if (afterInit stj (0 + j)).lauchFuncIndex
        = (afterInit stj (0 + j)).numKernel - 1 then
        [runCall (afterInit stj (0 + j)).vulkanRuntime,
          deinitVulkanCall (afterInit stj (0 + j)).vulkanRuntime] else []) = []
      ∨ (if (afterInit stj (0 + j)).lauchFuncIndex
        = (afterInit stj (0 + j)).numKernel - 1 then
        [runCall (afterInit stj (0 + j)).vulkanRuntime,
          deinitVulkanCall (afterInit stj (0 + j)).vulkanRuntime] else [])
        = [runCall (afterInit stj (0 + j)).vulkanRuntime,
          deinitVulkanCall (afterInit stj (0 + j)).vulkanRuntime] := by
    split
    · exact Or.inr rfl
    · exact Or.inl rfl
  have hprints : ∀ c ∈ (if env.vlog4 then (printBuffers (kernelOperands op)
      (transferBuffersFrom 0 (kernelOperands op) (afterInit stj (0 + j))).1.optionalSymbols).1
      else []), c.callee = kPrint_memref_f32 := by
    intro c hc
    split at hc
    · exact printBuffers_callee _ _ c hc
    · cases hc
  refine ⟨(afterInit stj (0 + j)).vulkanRuntime, stj.lauchFuncIndex, binary, _, calls, _, _, _,
    ?_, hinits, ⟨stb, res, stb2, hbindj2⟩, hbind, ⟨afterInit stj (0 + j), rfl⟩, htr, hfinals,
    hprints,
    launch_counts _ _ _ _ _ _ _ _ _ hinits hbind htr hfinals hprints⟩
  rw [hout, hw]
  simp only [callsAfterBind, transferBuffers, List.append_assoc]

/-! ## The theorems on the example programs -/

/-- Witness of C3 on `exampleChainIR`: lowering the second launch creates
the transfer from (launch 0, binding 0) to (launch 1, binding 0). -/
theorem transfer_chaining_witness :
    transferCall (some 1) (0, 0) 1 0 ∈
      (convertGpuLaunchFunc exampleEnv
        (convertGpuLaunchFunc exampleEnv (startState exampleChainIR) 1
          (exampleChainIR.getOp 1) exampleLaunch).1
        2 (exampleChainIR.getOp 2) exampleLaunch).2.2.after :=
  (transfer_chaining exampleEnv (startState exampleChainIR) 1 2 3 (exampleChainIR.getOp 1)
    (exampleChainIR.getOp 2) (exampleChainIR.getOp 3) exampleLaunch exampleLaunch exampleLaunch
    exampleBuffer 0 0 0 (by simp [KeysDistinct, startState, PassState.initial]) (by decide)
    (by decide) (by decide) (by decide) (by decide) (by decide)).1

/-- Counterexample to C4 as stated: the program `exampleDuplicateIR` has
exactly one launch, which names the same buffer twice, and the pass emits
for it the transfer call from (launch 0, binding 0) to (launch 0,
binding 1), whose source launch index is not smaller than its destination
launch index. -/
theorem single_launch_duplicate_transfer :
    countLaunches exampleDuplicateIR.ops = 1 ∧
    (runOnOperation exampleEnv exampleDuplicateIR).map
        (fun r => r.emitted.flatten.filter
          (fun c => decide (c.callee = kCreateVulkanMemoryTransferAction)))
      = some [transferCall (some 1) (0, 0) 0 1] := by
  decide

/-- Witness of C4 (amended) on `exampleOneLaunchIR`: the pass returns and
emits no transfer call. -/
theorem transfer_source_not_later_witness :
    runOnOperation exampleEnv exampleOneLaunchIR
        = some ((runOnOperation exampleEnv exampleOneLaunchIR).get (by decide)) ∧
    ∀ c ∈ ((runOnOperation exampleEnv exampleOneLaunchIR).get (by decide)).emitted.flatten,
      c.callee ≠ kCreateVulkanMemoryTransferAction :=
  ⟨(Option.some_get _).symm,
    (transfer_source_not_later exampleEnv exampleOneLaunchIR _ (Option.some_get _).symm).2
      (by decide) (by decide)⟩

/-- Witness of C5 on `exampleChainIR`. -/
theorem init_run_deinit_once_witness :
    ∃ (r : PassResult) (handle : Nat) (mid tail : List Call),
      runOnOperation exampleEnv exampleChainIR = some r ∧ r.state.passFailed = false ∧
      r.emitted.flatten = [initVulkanCall] ++ mid
        ++ [addLaunchActionToScheduleCall (some handle), runCall (some handle),
            deinitVulkanCall (some handle)] ++ tail ∧
      (∃ rest, r.emitted[handle]? = some (initVulkanCall :: rest)) ∧
      (∀ c ∈ mid, CallOK (some handle) c) ∧
      (∀ c ∈ tail, CallOK (some handle) c ∧ c.callee ≠ kAddVulkanLaunchActionToSchedule) :=
  init_run_deinit_once exampleEnv exampleChainIR
    (acyclic_of_definedBeforeUse exampleChainIR (by decide)) (by decide) (by decide) (by decide)

/-- Witness of C6 on `exampleChainIR`: the pass returns. -/
theorem launch_call_order_witness :
    ∃ r, runOnOperation exampleEnv exampleChainIR = some r :=
  Exists.imp (fun _ h => h.1)
    (launch_call_order exampleEnv exampleChainIR
      (acyclic_of_definedBeforeUse exampleChainIR (by decide)) (by decide) (by decide))

/-- Counterexample to C7 as stated: the only shader module of
`exampleFailEnv` fails to serialize; the pass signals failure for the launch
of `exampleOneLaunchIR`, and yet an `initVulkan` call has been emitted for
it. -/
theorem init_emitted_before_serialization_failure :
    (createBinaryShader exampleFailEnv 0).1 = LogicalResult.failure ∧
    (runOnOperation exampleFailEnv exampleOneLaunchIR).map
        (fun r => (r.state.passFailed, r.emitted.flatten))
      = some (true, [initVulkanCall]) := by
  decide

/-- Witness of C7 (amended) on `exampleOneLaunchIR` with `exampleFailEnv`:
the pass has failed after the walk over the launches. -/
theorem serialization_failure_witness :
    (convertAll exampleFailEnv 0 exampleOneLaunchIR.ops
      (startState exampleOneLaunchIR)).1.passFailed = true :=
  (serialization_failure exampleFailEnv exampleOneLaunchIR 0 (by decide) (by decide)
    (by decide)).1

/-- C8 (the code at the failing input): the launch of `exampleScalarIR` has
a memref operand followed by a scalar operand. `bindBuffers` returns failure
after it has created the binding call of the first operand; the pass does
not look at that result: it does not signal failure and the binding call
stays among the emitted calls. -/
theorem bindBuffers_failure_ignored :
    (bindBuffers exampleEnv
        ⟨(convertAll exampleEnv 0 exampleScalarIR.ops (startState exampleScalarIR)).2.1⟩
        (convertAll exampleEnv 0 exampleScalarIR.ops (startState exampleScalarIR)).1 1
        [exampleBuffer, exampleScalar]).map (fun r => (r.1, r.2.2.map Call.callee))
      = some (LogicalResult.failure, [kBindBufferFloat32]) ∧
    (runOnOperation exampleEnv exampleScalarIR).map
        (fun r => (r.state.passFailed, r.emitted.flatten.map Call.callee))
      = some (false, [kInitVulkan, kCreateVulkanLaunchKernelAction, kBindBufferFloat32,
          kSetVulkanLaunchKernelAction, kAddVulkanLaunchActionToSchedule, kRun,
          kDeinitVulkan]) := by
  decide

/-- C9 (the code at the failing input): `getBufferBindingFunc` maps the
eight supported element types to eight pairwise distinct names and a 1-bit
integer to the null pointer; for the launch of `exampleBoolIR`, whose buffer
holds 1-bit integers, `bindBuffers` returns success and creates a binding
call whose callee is the empty symbol, the pass does not signal failure, and
a function with the empty name is declared. -/
theorem unsupported_element_type_bound :
    [ElemType.integer 8, ElemType.integer 16, ElemType.integer 32, ElemType.integer 64,
        ElemType.bf16, ElemType.f16, ElemType.f32, ElemType.f64].map getBufferBindingFunc
      = [some kBindBufferInteger8, some kBindBufferInteger16, some kBindBufferInteger32,
          some kBindBufferInteger64, some kBindBufferBFloat16, some kBindBufferFloat16,
          some kBindBufferFloat32, some kBindBufferFloat64] ∧
    [kBindBufferInteger8, kBindBufferInteger16, kBindBufferInteger32, kBindBufferInteger64,
        kBindBufferBFloat16, kBindBufferFloat16, kBindBufferFloat32, kBindBufferFloat64].Nodup ∧
    getBufferBindingFunc (ElemType.integer 1) = none ∧
    (bindBuffers exampleEnv
        ⟨(convertAll exampleEnv 0 exampleBoolIR.ops (startState exampleBoolIR)).2.1⟩
        (convertAll exampleEnv 0 exampleBoolIR.ops (startState exampleBoolIR)).1 1
        [exampleBoolBuffer]).map (fun r => (r.1, r.2.2))
      = some (LogicalResult.success,
          [bindBufferCall (some 1) (ElemType.integer 1) 0 4 0 exampleBoolBuffer]) ∧
    (bindBufferCall (some 1) (ElemType.integer 1) 0 4 0 exampleBoolBuffer).callee = "" ∧
    (runOnOperation exampleEnv exampleBoolIR).map
        (fun r => (r.state.passFailed, r.emitted.flatten.map Call.callee, r.declared))
      = some (false,
          [kInitVulkan, kCreateVulkanLaunchKernelAction, "", kSetVulkanLaunchKernelAction,
            kAddVulkanLaunchActionToSchedule, kRun, kDeinitVulkan],
          [kInitVulkan, kCreateVulkanLaunchKernelAction, kSetVulkanLaunchKernelAction,
            kAddVulkanLaunchActionToSchedule, kRun, kDeinitVulkan, ""]) := by
  decide

/-- Witness of C10 on the lowered launch of `exampleLocalIR`. -/
theorem bindBuffers_one_call_per_buffer_witness :
    ∃ st2 calls,
      bindBuffers exampleEnv exampleLocalIR
        { PassState.initial with deinitVulkan := some 2, vulkanRuntime := some 2 } 2
        [exampleBuffer] = some (LogicalResult.success, st2, calls) ∧
      calls.length = [exampleBuffer].length :=
  Exists.imp (fun _ h => Exists.imp (fun _ h2 => ⟨h2.1, h2.2.1⟩) h)
    (bindBuffers_one_call_per_buffer exampleEnv exampleLocalIR
      { PassState.initial with deinitVulkan := some 2, vulkanRuntime := some 2 } 2 2
      [exampleBuffer] (acyclic_of_definedBeforeUse exampleLocalIR (by decide)) rfl
      (fun b hb => ⟨[4], ElemType.f32, kBindBufferFloat32,
        by rw [List.mem_singleton.mp hb]; rfl, by decide⟩))

/-! ## Shader serialization: properties -/

theorem createBinaryShaderLoop_past (k : Nat) :
    ∀ (modules : List SpirvModule) (shader_index : Nat) (binary : List Nat),
      k < shader_index →
      createBinaryShaderLoop k shader_index modules binary = (LogicalResult.success, binary) := by
  intro modules
  induction modules with
  | nil => intro i b _; rfl
  | cons m rest ih =>
    intro i b h
    unfold createBinaryShaderLoop
    rw [if_neg (by omega)]
    exact ih (i + 1) b (by omega)

theorem createBinaryShaderLoop_at (k : Nat) (spirvModule : SpirvModule) :
    ∀ (modules : List SpirvModule) (shader_index : Nat) (binary : List Nat),
      shader_index ≤ k → modules[k - shader_index]? = some spirvModule →
      createBinaryShaderLoop k shader_index modules binary =
        match spirvModule.serialized with
        | none => (LogicalResult.failure, binary)
        | some words => (LogicalResult.success, words) := by
  intro modules
  induction modules with
  | nil => intro i b _ h; simp at h
  | cons m rest ih =>
    intro i b hle h
    unfold createBinaryShaderLoop
    by_cases hi : i = k
    · rw [if_pos hi]
      subst hi
      simp at h
      subst h
      cases hs : m.serialized with
      | none => rfl
      | some words => exact createBinaryShaderLoop_past i rest (i + 1) words (by omega)
    · rw [if_neg hi]
      apply ih (i + 1) b (by omega)
      have e : k - i = (k - (i + 1)) + 1 := by omega
      rw [e] at h
      simpa using h

theorem length_flatMap_wordBytes (words : List Nat) :
    (words.flatMap wordBytes).length = 4 * words.length := by
  induction words with
  | nil => rfl
  | cons w rest ih =>
    rw [List.flatMap_cons, List.length_append, ih]
    simp [wordBytes]
    omega

/-- C17: when the module holds a SPIR-V module of launch index `i`,
`createBinaryShader` fails exactly when serializing that module fails, and
when it serializes to `words` the result is success with the bytes of
`words`, four per word. -/
theorem createBinaryShader_spec (env : Env) (i : Nat) (spirvModule : SpirvModule)
    (hmod : env.modules[i]? = some spirvModule) :
    ((createBinaryShader env i).1 = LogicalResult.failure ↔ spirvModule.serialized = none) ∧
    ∀ words, spirvModule.serialized = some words →
      createBinaryShader env i = (LogicalResult.success, words.flatMap wordBytes) ∧
      (createBinaryShader env i).2.length = 4 * words.length := by
  have h := createBinaryShaderLoop_at i spirvModule env.modules 0 [] (Nat.zero_le _)
    (by simpa using hmod)
  unfold createBinaryShader
  rw [h]
  cases hs : spirvModule.serialized with
  | none => simp
  | some words =>
    refine ⟨by simp, ?_⟩
    intro w hw
    injection hw with hw
    subst hw
    exact ⟨rfl, length_flatMap_wordBytes words⟩

/-- Witness of C17 on `exampleEnv`: the module of launch index 1 serializes
to the word 3, and the shader is its four bytes. -/
theorem createBinaryShader_spec_witness :
    exampleEnv.modules[1]? = some ⟨some [3]⟩ ∧
      createBinaryShader exampleEnv 1 = (LogicalResult.success, [3, 0, 0, 0]) :=
  ⟨by decide, ((createBinaryShader_spec exampleEnv 1 ⟨some [3]⟩ (by decide)).2 [3] rfl).1⟩

/-! ## Byte sizes and subgroup sizes: properties -/

theorem toUInt32_cast (v : Int) : ((toUInt32 v : Nat) : Int) = v % 4294967296 := by
  unfold toUInt32
  exact Int.toNat_of_nonneg (Int.emod_nonneg _ (by decide))

theorem toInt32_congr (a b : Int) (h : a % 4294967296 = b % 4294967296) :
    toInt32 a = toInt32 b := by
  unfold toInt32
  rw [h]

theorem toInt32_of_range (v : Int) (h1 : -2147483648 ≤ v) (h2 : v < 2147483648) :
    toInt32 v = v := by
  unfold toInt32
  split <;> omega

theorem numElementOf_fold (shape : List Int) :
    ∀ n : Nat, ((shape.foldl (fun numElement dim => toUInt32 ((numElement : Int) * dim)) n : Nat) : Int)
      % 4294967296 = ((n : Int) * shape.prod) % 4294967296 := by
  induction shape with
  | nil => intro n; simp
  | cons d rest ih =>
    intro n
    rw [List.foldl_cons, ih, toUInt32_cast, List.prod_cons, ← mul_assoc, Int.mul_emod,
      Int.emod_emod_of_dvd _ (dvd_refl _), ← Int.mul_emod]

theorem bufferByteSizeOf_eq (shape : List Int) (elementType : ElemType) :
    bufferByteSizeOf shape elementType
      = toInt32 (shape.prod * (divideCeil (getIntOrFloatBitWidth elementType) kByteBits : Nat)) := by
  unfold bufferByteSizeOf
  simp only
  apply toInt32_congr
  rw [toUInt32_cast, Int.emod_emod_of_dvd _ (dvd_refl _), Int.mul_emod, toUInt32_cast,
    Int.emod_emod_of_dvd _ (dvd_refl _), ← Int.mul_emod, Int.mul_emod]
  unfold numElementOf
  rw [numElementOf_fold, ← Int.mul_emod]
  simp

/-- Counterexample to C11 as stated: the launch of `exampleLargeIR` binds a
memref of shape 65536 x 65536 of 8-bit integers; the product of the
dimensions times the byte width is 2^32, and the byte-size constant of the
binding call is 0. -/
theorem byte_size_wraps :
    (runOnOperation exampleEnv exampleLargeIR).map (fun r =>
        (r.emitted.flatten.filter (fun c => decide (c.callee = kBindBufferInteger8))).map
          (fun c => c.operands[3]?))
      = some [some (Arg.constant 32 0)] ∧
    ([65536, 65536] : List Int).prod * (divideCeil (getIntOrFloatBitWidth (ElemType.integer 8)) kByteBits : Nat)
      = 4294967296 := by
  decide

/-- Counterexample to C18 as stated: the block size x of the launch of
`exampleWideIR` is the constant 2^32 + 1, and the subgroup-size argument of
the `setVulkanLaunchKernelAction` call is 1. -/
theorem subgroup_size_truncated :
    (runOnOperation exampleEnv exampleWideIR).map (fun r =>
        (r.emitted.flatten.filter (fun c => decide (c.callee = kSetVulkanLaunchKernelAction))).map
          (fun c => c.operands[1]?))
      = some [some (Arg.constant 32 1)] ∧
    exampleWideLaunch.blockSizeX = some 4294967297 := by
  decide


/-- C11 (amended): for a `bindAllBuffers` call whose operands are all memrefs
(acyclic program, `deinitVulkan` set), `bindBuffers` succeeds and the
byte-size constant of the binding call of operand `j`, of shape `d1..dn` and
element bit width `w`, is `(d1 * ... * dn) * ceil(w / 8)` converted to a
32-bit signed integer (reduced modulo 2^32); it is that product itself
whenever the product lies in the range of a 32-bit signed integer. For a
rank-0 memref the product of the dimensions is 1. -/
theorem bindBuffers_byte_size (env : Env) (ir : IR) (st : PassState)
    (callOp deinit : Nat) (buffers : List Value) (hacyclic : ir.Acyclic)
    (hdeinit : st.deinitVulkan = some deinit)
    (hmemref : ∀ b ∈ buffers, ∃ shape t, b.type = MlirType.memref shape t) :
    ∃ st2 calls, bindBuffers env ir st callOp buffers = some (LogicalResult.success, st2, calls) ∧
      ∀ (j : Nat) (b : Value) (shape : List Int) (t : ElemType), buffers[j]? = some b →
        b.type = MlirType.memref shape t →
        ∃ c, calls[j]? = some c ∧
          c.operands[3]? = some (Arg.constant 32
            (toInt32 (shape.prod * (divideCeil (getIntOrFloatBitWidth t) kByteBits : Nat)))) ∧
          (-2147483648 ≤ shape.prod * (divideCeil (getIntOrFloatBitWidth t) kByteBits : Nat) →
            shape.prod * (divideCeil (getIntOrFloatBitWidth t) kByteBits : Nat) < 2147483648 →
            c.operands[3]? = some (Arg.constant 32
              (shape.prod * (divideCeil (getIntOrFloatBitWidth t) kByteBits : Nat)))) := by
  obtain ⟨st2, calls, h1, -, h3⟩ := bindBuffersFrom_memref env ir callOp hacyclic buffers 0 st
    deinit hdeinit hmemref
  refine ⟨st2, calls, h1, ?_⟩
  intro j b shape t hj hty
  obtain ⟨shape2, t2, mode, hty2, hc⟩ := h3 j b hj
  rw [hty] at hty2
  injection hty2 with e1 e2
  subst e1; subst e2
  have hsize : (bindBufferCall st.vulkanRuntime t (0 + j) (bufferByteSizeOf shape t) mode
      b).operands[3]? = some (Arg.constant 32
        (toInt32 (shape.prod * (divideCeil (getIntOrFloatBitWidth t) kByteBits : Nat)))) := by
    rw [bufferByteSizeOf_eq]
    rfl
  refine ⟨_, hc, hsize, ?_⟩
  intro hlo hhi
  rw [hsize, toInt32_of_range _ hlo hhi]

/-- Witness of C11 (amended) on the lowered launch of `exampleLocalIR`: four
32-bit floats take 16 bytes. -/
theorem bindBuffers_byte_size_witness :
    ∃ st2 calls,
      bindBuffers exampleEnv exampleLocalIR
        { PassState.initial with deinitVulkan := some 2, vulkanRuntime := some 2 } 2
        [exampleBuffer] = some (LogicalResult.success, st2, calls) ∧
      ∃ c, calls[0]? = some c ∧ c.operands[3]? = some (Arg.constant 32 16) :=
  Exists.imp (fun _ h => Exists.imp (fun _ h2 => ⟨h2.1,
      Exists.imp (fun _ h3 => ⟨h3.1, h3.2.2 (by decide) (by decide)⟩)
        (h2.2 0 exampleBuffer [4] ElemType.f32 rfl rfl)⟩) h)
    (bindBuffers_byte_size exampleEnv exampleLocalIR
      { PassState.initial with deinitVulkan := some 2, vulkanRuntime := some 2 } 2 2
      [exampleBuffer] (acyclic_of_definedBeforeUse exampleLocalIR (by decide)) rfl
      (fun b hb => ⟨[4], ElemType.f32, by rw [List.mem_singleton.mp hb]; rfl⟩))

/-- C18 (amended): when a launch is lowered (its shader serializes), the
calls created for it contain a `setVulkanLaunchKernelAction` call, and the
subgroup-size argument of every such call is the value of the block size x
converted to a 32-bit signed integer when that operand is a constant (the
value itself when it lies in the range of a 32-bit signed integer), and 1
when it is not a constant. -/
theorem subgroup_size_argument (env : Env) (st : PassState) (slot : Nat) (op : Operation)
    (launchOp : LaunchFuncOp) (binary : List Nat)
    (hser : createBinaryShader env st.lauchFuncIndex = (LogicalResult.success, binary)) :
    (∃ c ∈ (convertGpuLaunchFunc env st slot op launchOp).2.2.after,
      c.callee = kSetVulkanLaunchKernelAction) ∧
    (∀ c ∈ (convertGpuLaunchFunc env st slot op launchOp).2.2.before
        ++ (convertGpuLaunchFunc env st slot op launchOp).2.2.after,
      c.callee = kSetVulkanLaunchKernelAction →
        (∀ v, launchOp.blockSizeX = some v →
          c.operands[1]? = some (Arg.constant 32 (toInt32 v)) ∧
          (-2147483648 ≤ v → v < 2147483648 → c.operands[1]? = some (Arg.constant 32 v))) ∧
        (launchOp.blockSizeX = none → c.operands[1]? = some (Arg.constant 32 1))) := by
  obtain ⟨-, -, -, -, -, -, -, cbefore, cafter⟩ :=
    convertGpuLaunchFunc_lowered env st slot op launchOp binary hser
  rw [cbefore, cafter]
  refine ⟨⟨setLaunchKernelActionCall (afterInit st slot).vulkanRuntime launchOp, ?_, rfl⟩, ?_⟩
  · simp [callsAfterBind]
  intro c hc hcallee
  have hset : c = setLaunchKernelActionCall (afterInit st slot).vulkanRuntime launchOp := by
    unfold callsAfterBind at hc
    simp only [List.mem_append, List.mem_singleton] at hc
    rcases hc with (hc | hc) | ((((hc | hc) | hc) | hc) | hc)
    · split at hc
      · rw [List.mem_singleton.mp hc] at hcallee
        exact absurd (show kInitVulkan = kSetVulkanLaunchKernelAction from hcallee) (by decide)
      · simp at hc
    · rw [hc] at hcallee
      exact absurd (show kCreateVulkanLaunchKernelAction = kSetVulkanLaunchKernelAction
        from hcallee) (by decide)
    · exact hc
    · obtain ⟨src, j, e⟩ := transferBuffersFrom_form _ _ _ c hc
      rw [e] at hcallee
      exact absurd (show kCreateVulkanMemoryTransferAction = kSetVulkanLaunchKernelAction
        from hcallee) (by decide)
    · rw [hc] at hcallee
      exact absurd (show kAddVulkanLaunchActionToSchedule = kSetVulkanLaunchKernelAction
        from hcallee) (by decide)
    · split at hc
      · simp only [List.mem_cons, List.mem_singleton, List.not_mem_nil, or_false] at hc
        rcases hc with hc | hc
        · rw [hc] at hcallee
          exact absurd (show kRun = kSetVulkanLaunchKernelAction from hcallee) (by decide)
        · rw [hc] at hcallee
          exact absurd (show kDeinitVulkan = kSetVulkanLaunchKernelAction from hcallee)
            (by decide)
      · simp at hc
    · split at hc
      · have := printBuffers_callee _ _ c hc
        rw [this] at hcallee
        exact absurd (show kPrint_memref_f32 = kSetVulkanLaunchKernelAction from hcallee)
          (by decide)
      · simp at hc
  subst hset
  refine ⟨?_, ?_⟩
  · intro v hv
    have e : subgroupSizeOf launchOp = v := by simp [subgroupSizeOf, hv]
    refine ⟨by simp [setLaunchKernelActionCall, e], ?_⟩
    intro hlo hhi
    simp [setLaunchKernelActionCall, e, toInt32_of_range v hlo hhi]
  · intro hv
    have e : subgroupSizeOf launchOp = 1 := by simp [subgroupSizeOf, hv]
    simp [setLaunchKernelActionCall, e]
    decide

/-- Witness of C18 (amended) on the launch of `exampleOneLaunchIR`, whose
block size x is the constant 32. -/
theorem subgroup_size_argument_witness :
    (setLaunchKernelActionCall (some 1) exampleLaunch).operands[1]?
      = some (Arg.constant 32 32) :=
  (((subgroup_size_argument exampleEnv (startState exampleOneLaunchIR) 1
    ⟨OpKind.launchFunc exampleLaunch, 0, 1, exampleConfig ++ [exampleBuffer], []⟩
    exampleLaunch [1, 0, 0, 0, 2, 0, 0, 0] (by decide)).2
      (setLaunchKernelActionCall (some 1) exampleLaunch) (by decide) rfl).1 32 rfl).2
    (by decide) (by decide)

/-! ## Copy modes and transfer records: further properties -/

theorem copyModeLoop_eq (ir : IR) (deinit callOp : Nat) :
    ∀ (deps : List Nat) (copyMode warnings : Nat),
      copyModeLoop ir (some deinit) callOp deps copyMode warnings
        = some (deps.foldl (fun mode op => mode ||| depBits ir deinit callOp op) copyMode,
            warnings + deps.countP (isHazard ir deinit callOp)) := by
  intro deps
  induction deps with
  | nil => intro m w; simp [copyModeLoop]
  | cons op rest ih =>
    intro m w
    unfold copyModeLoop
    by_cases hb : ir.getBlock op = ir.getBlock callOp
    · rw [if_pos hb]
      by_cases h1 : ir.isBeforeInBlock op callOp = true
      · rw [if_pos h1, ih]
        simp [depBits, isHazard, hb, h1]
      · rw [if_neg h1]
        simp only
        by_cases h2 : ir.isBeforeInBlock deinit op = true
        · rw [if_pos h2, ih]
          simp [depBits, isHazard, hb, h1, h2]
        · rw [if_neg h2, ih]
          simp [depBits, isHazard, hb, h1, h2]
          omega
    · rw [if_neg hb, ih]
      simp [depBits, isHazard, hb]

theorem foldl_or_perm (ir : IR) (deinit callOp : Nat) (l1 l2 : List Nat) (h : l1.Perm l2)
    (m : Nat) :
    l1.foldl (fun mode op => mode ||| depBits ir deinit callOp op) m
      = l2.foldl (fun mode op => mode ||| depBits ir deinit callOp op) m := by
  apply List.Perm.foldl_eq' h
  intro x _ y _ z
  rw [Nat.or_assoc, Nat.or_assoc, Nat.or_comm (depBits ir deinit callOp x)]

theorem depBits_le (ir : IR) (deinit callOp op : Nat) : depBits ir deinit callOp op < 2 ^ 2 := by
  unfold depBits
  split
  · split
    · decide
    · split <;> decide
  · decide

theorem foldl_or_lt (ir : IR) (deinit callOp : Nat) :
    ∀ (deps : List Nat) (m : Nat), m < 2 ^ 2 →
      deps.foldl (fun mode op => mode ||| depBits ir deinit callOp op) m < 2 ^ 2 := by
  intro deps
  induction deps with
  | nil => intro m h; exact h
  | cons op rest ih =>
    intro m h
    exact ih _ (Nat.or_lt_two_pow h (depBits_le ir deinit callOp op))

theorem three_or (b : Nat) (h : b < 2 ^ 2) : 3 ||| b = 3 := by
  have : b < 4 := h
  interval_cases b <;> rfl

theorem or_three (b : Nat) (h : b < 2 ^ 2) : b ||| 3 = 3 := by
  have : b < 4 := h
  interval_cases b <;> rfl

theorem foldl_or_three (ir : IR) (deinit callOp : Nat) :
    ∀ (deps : List Nat),
      deps.foldl (fun mode op => mode ||| depBits ir deinit callOp op) 3 = 3 := by
  intro deps
  induction deps with
  | nil => rfl
  | cons op rest ih =>
    rw [List.foldl_cons, three_or _ (depBits_le ir deinit callOp op)]
    exact ih

theorem foldl_or_cross (ir : IR) (deinit callOp : Nat) :
    ∀ (deps : List Nat) (m : Nat), m < 2 ^ 2 →
      (∃ op ∈ deps, ir.getBlock op ≠ ir.getBlock callOp) →
      deps.foldl (fun mode op => mode ||| depBits ir deinit callOp op) m = 3 := by
  intro deps
  induction deps with
  | nil => intro m _ h; obtain ⟨op, hop, -⟩ := h; cases hop
  | cons a rest ih =>
    intro m hm h
    rw [List.foldl_cons]
    by_cases ha : ir.getBlock a = ir.getBlock callOp
    · apply ih _ (Nat.or_lt_two_pow hm (depBits_le ir deinit callOp a))
      obtain ⟨op, hop, hne⟩ := h
      rcases List.mem_cons.mp hop with e | hmem
      · subst e; exact absurd ha hne
      · exact ⟨op, hmem, hne⟩
    · have e : depBits ir deinit callOp a = 3 := by
        unfold depBits
        rw [if_neg ha]
        rfl
      rw [e, or_three m hm]
      exact foldl_or_three ir deinit callOp rest

/-- C13: for a buffer defined by an operation of an acyclic program
(`deinitVulkan` set), when at least one operation of its external dependency
set lies in a block other than the block of the launch call,
`getBufferCopyMode` returns HostToDevice|DeviceToHost, which is 3, whatever
the other dependencies are. -/
theorem getBufferCopyMode_other_block (ir : IR) (optionalSymbols : List String)
    (deinit callOp : Nat) (buffer : Value) (definingOp index : Nat)
    (hsrc : buffer.source = ValueSource.opResult definingOp index)
    (hacyclic : ir.Acyclic)
    (hcross : ∃ op ∈ externalDeps ir optionalSymbols buffer,
      ir.getBlock op ≠ ir.getBlock callOp) :
    ∃ warnings, getBufferCopyMode ir optionalSymbols (some deinit) callOp buffer
      = some (kBufferCopyModeHostToDevice ||| kBufferCopyModeDeviceToHost, warnings) ∧
      kBufferCopyModeHostToDevice ||| kBufferCopyModeDeviceToHost = 3 := by
  obtain ⟨deps, hdeps⟩ :=
    getExternalDependentOperations_isSome ir optionalSymbols buffer definingOp index hsrc hacyclic
  have hext : externalDeps ir optionalSymbols buffer = deps := by
    simp [externalDeps, hdeps]
  rw [hext] at hcross
  refine ⟨0 + deps.countP (isHazard ir deinit callOp), ?_, rfl⟩
  simp only [getBufferCopyMode, hsrc, hdeps]
  rw [copyModeLoop_eq, foldl_or_cross ir deinit callOp deps _ (by decide) hcross]
  rfl

theorem smallSetInsert_nodup (operations : List Nat) (op : Nat) (h : operations.Nodup) :
    (smallSetInsert operations op).Nodup := by
  unfold smallSetInsert
  split
  · exact h
  · rename_i hn
    rw [List.nodup_append]
    refine ⟨h, List.nodup_singleton _, ?_⟩
    intro a ha hb
    rw [List.mem_singleton] at hb
    subst hb
    exact hn ha

theorem walkUses_nodup (ir : IR) :
    ∀ (fuel : Nat) (uses : List Use) (operations result : List Nat), operations.Nodup →
      walkUses ir fuel uses operations = some result → result.Nodup := by
  intro fuel
  induction fuel with
  | zero =>
    intro uses ops res hn h
    cases uses with
    | nil => simp only [walkUses, Option.some.injEq] at h; subst h; exact hn
    | cons u rest => simp [walkUses] at h
  | succ n ih =>
    intro uses ops res hn h
    cases uses with
    | nil => simp only [walkUses, Option.some.injEq] at h; subst h; exact hn
    | cons u rest =>
      simp only [walkUses] at h
      exact ih _ _ _ (smallSetInsert_nodup ops u.owner hn) h

theorem getExternalDependentOperations_nodup (ir : IR) (optionalSymbols : List String)
    (value : Value) (deps : List Nat)
    (h : getExternalDependentOperations ir optionalSymbols value = some deps) : deps.Nodup := by
  unfold getExternalDependentOperations at h
  split at h
  · cases h
  · split at h
    · cases h
    · rename_i operations hw
      simp only [Option.some.injEq] at h
      subst h
      apply List.Nodup.filter
      exact walkUses_nodup ir _ _ _ _ (smallSetInsert_nodup [] _ List.nodup_nil) hw

/-- C14: for a buffer defined by an operation of an acyclic program
(`deinitVulkan` set), a dependency `op` that lies in the block of the launch
call, neither before the call nor after the `deinitVulkan` call, adds no
bit: `getBufferCopyMode` returns, with one warning more, the copy mode that
its loop computes on the dependency set without `op`. -/
theorem getBufferCopyMode_hazard (ir : IR) (optionalSymbols : List String)
    (deinit callOp : Nat) (buffer : Value) (definingOp index : Nat)
    (hsrc : buffer.source = ValueSource.opResult definingOp index)
    (hacyclic : ir.Acyclic) (op : Nat)
    (hop : op ∈ externalDeps ir optionalSymbols buffer)
    (hblock : ir.getBlock op = ir.getBlock callOp)
    (hbefore : ir.isBeforeInBlock op callOp = false)
    (hafter : ir.isBeforeInBlock deinit op = false) :
    ∃ mode warnings,
      getBufferCopyMode ir optionalSymbols (some deinit) callOp buffer
        = some (mode, warnings + 1) ∧
      copyModeLoop ir (some deinit) callOp ((externalDeps ir optionalSymbols buffer).erase op)
        kBufferCopyModeInit 0 = some (mode, warnings) ∧
      op ∉ (externalDeps ir optionalSymbols buffer).erase op := by
  obtain ⟨deps, hdeps⟩ :=
    getExternalDependentOperations_isSome ir optionalSymbols buffer definingOp index hsrc hacyclic
  have hnd := getExternalDependentOperations_nodup ir optionalSymbols buffer deps hdeps
  have hext : externalDeps ir optionalSymbols buffer = deps := by
    simp [externalDeps, hdeps]
  rw [hext] at hop ⊢
  have hperm := List.perm_cons_erase hop
  have hbits : depBits ir deinit callOp op = 0 := by
    simp [depBits, hblock, hbefore, hafter]
  have hhaz : isHazard ir deinit callOp op = true := by
    simp [isHazard, hblock, hbefore, hafter]
  refine ⟨(deps.erase op).foldl (fun mode op => mode ||| depBits ir deinit callOp op)
    kBufferCopyModeInit, 0 + (deps.erase op).countP (isHazard ir deinit callOp), ?_, ?_, ?_⟩
  · simp only [getBufferCopyMode, hsrc, hdeps]
    rw [copyModeLoop_eq, foldl_or_perm ir deinit callOp _ _ hperm, hperm.countP_eq,
      List.foldl_cons, hbits, Nat.or_zero, List.countP_cons_of_pos _ _ hhaz, Nat.add_assoc]
  · rw [copyModeLoop_eq]
  · intro h
    exact ((List.Nodup.mem_erase_iff hnd).mp h).1 rfl

/-- Witness of C14 on `exampleHazardIR`: operation 2 stands between the
launch call 1 and the `deinitVulkan` call 3. -/
theorem getBufferCopyMode_hazard_witness :
    ∃ mode warnings,
      getBufferCopyMode exampleHazardIR [] (some 3) 1 exampleBuffer = some (mode, warnings + 1) ∧
      copyModeLoop exampleHazardIR (some 3) 1 ((externalDeps exampleHazardIR [] exampleBuffer).erase 2)
        kBufferCopyModeInit 0 = some (mode, warnings) :=
  Exists.imp (fun _ h => Exists.imp (fun _ h2 => ⟨h2.1, h2.2.1⟩) h)
    (getBufferCopyMode_hazard exampleHazardIR [] 3 1 exampleBuffer 0 0 rfl
      (acyclic_of_definedBeforeUse exampleHazardIR (by decide)) 2 (by decide) (by decide)
      (by decide) (by decide))

theorem transferBuffersFrom_last (v : Value) :
    ∀ (args : List Value) (i : Nat) (st : PassState) (j : Nat), KeysDistinct st.bufferMap →
      args[j]? = some v → (∀ n, j < n → args[n]? ≠ some v) →
        (v, (st.lauchFuncIndex, i + j)) ∈ (transferBuffersFrom i args st).1.bufferMap := by
  intro args
  induction args with
  | nil => intro i st j _ h; simp at h
  | cons a rest ih =>
    intro i st j hk hj hlast
    simp only [transferBuffersFrom]
    have hk1 := keysDistinct_denseMapSet a (st.lauchFuncIndex, i) st.bufferMap hk
    cases j with
    | zero =>
      simp at hj
      subst hj
      have hnot : a ∉ rest := by
        intro hmem
        obtain ⟨n, hn⟩ := List.getElem?_of_mem hmem
        exact hlast (n + 1) (by omega) (by simpa using hn)
      rw [transferBuffersFrom_absent a rest (i + 1) _ hk1 hnot]
      exact (mem_denseMapSet a _ st.bufferMap hk a _).mpr (Or.inl ⟨rfl, rfl⟩)
    | succ j =>
      simp at hj
      have := ih (i + 1) { st with
        optionalSymbols := (transferMatches st.vulkanRuntime st.lauchFuncIndex i a st.bufferMap
          st.optionalSymbols).2
        bufferMap := denseMapSet st.bufferMap a (st.lauchFuncIndex, i) } j hk1 hj
        (by
          intro n hn
          have := hlast (n + 1) (by omega)
          simpa using this)
      have e : i + (j + 1) = i + 1 + j := by omega
      rw [e]
      exact this

/-- C16: after `transferBuffers` has processed the argument buffers of launch
`k = lauchFuncIndex` (on a table with distinct keys, as every `DenseMap`),
the table still has distinct keys (at most one record per buffer), every
argument buffer is mapped to exactly the record `(k, i)` with `i` the last
position at which it occurs among the arguments, and the records of the
buffers that are not arguments are unchanged. -/
theorem transferBuffers_records (st : PassState) (buffers : List Value)
    (hkeys : KeysDistinct st.bufferMap) :
    KeysDistinct (transferBuffers st buffers).2.1.bufferMap ∧
    (∀ (i : Nat) (v : Value), buffers[i]? = some v → (∀ j, i < j → buffers[j]? ≠ some v) →
      ∀ src, (v, src) ∈ (transferBuffers st buffers).2.1.bufferMap ↔
        src = (st.lauchFuncIndex, i)) ∧
    (∀ v, v ∉ buffers → ∀ src, (v, src) ∈ (transferBuffers st buffers).2.1.bufferMap ↔
      (v, src) ∈ st.bufferMap) := by
  have hk := transferBuffersFrom_keys buffers 0 st hkeys
  refine ⟨hk, ?_, ?_⟩
  · intro i v hi hlast src
    have hmem := transferBuffersFrom_last v buffers 0 st i hkeys hi hlast
    rw [Nat.zero_add] at hmem
    constructor
    · intro h
      exact keysDistinct_unique hk h hmem
    · intro h
      rw [h]
      exact hmem
  · intro v hv src
    exact transferBuffersFrom_absent v buffers 0 st hkeys hv src

/-- Witness of C16: launch 1 names `exampleBuffer` at positions 0 and 1; its
record `(0, 0)` is replaced by `(1, 1)`. -/
theorem transferBuffers_records_witness :
    (exampleBuffer, (1, 1)) ∈ (transferBuffers
        { PassState.initial with lauchFuncIndex := 1, bufferMap := [(exampleBuffer, (0, 0))] }
        [exampleBuffer, exampleBuffer]).2.1.bufferMap ∧
    (exampleBuffer, (0, 0)) ∉ (transferBuffers
        { PassState.initial with lauchFuncIndex := 1, bufferMap := [(exampleBuffer, (0, 0))] }
        [exampleBuffer, exampleBuffer]).2.1.bufferMap :=
  ⟨((transferBuffers_records
      { PassState.initial with lauchFuncIndex := 1, bufferMap := [(exampleBuffer, (0, 0))] }
      [exampleBuffer, exampleBuffer] (by simp [KeysDistinct])).2.1 1 exampleBuffer rfl
      (by intro j hj; rcases j with _ | _ | j <;> simp at hj ⊢) (1, 1)).mpr rfl,
    by decide⟩

/-- Witness of C13 on `exampleCrossIR`: the only external dependency lies in
block 1, the launch call in block 0. -/
theorem getBufferCopyMode_other_block_witness :
    ∃ warnings, getBufferCopyMode exampleCrossIR [] (some 1) 1 exampleBuffer
      = some (3, warnings) :=
  Exists.imp (fun _ h => h.1)
    (getBufferCopyMode_other_block exampleCrossIR [] 1 1 exampleBuffer 0 0 rfl
      (acyclic_of_definedBeforeUse exampleCrossIR (by decide)) ⟨2, by decide, by decide⟩)

/-! ## The def-use walk: result and termination -/

theorem mem_smallSetInsert (operations : List Nat) (op x : Nat) :
    x ∈ smallSetInsert operations op ↔ x ∈ operations ∨ x = op := by
  unfold smallSetInsert
  split
  · rename_i h
    constructor
    · exact Or.inl
    · rintro (h1 | h1)
      · exact h1
      · rw [h1]; exact h
  · simp

theorem mem_pushResultsFold_iff (ir : IR) (rs : List Value) :
    ∀ (acc : List Use) (x : Use),
      x ∈ rs.foldl (fun acc r => (ir.getUses r).foldl setVectorInsert acc) acc ↔
        x ∈ acc ∨ ∃ r ∈ rs, x ∈ ir.getUses r := by
  induction rs with
  | nil => intro acc x; simp
  | cons r rest ih =>
    intro acc x
    rw [List.foldl_cons, ih, mem_foldl_setVectorInsert]
    simp only [List.mem_cons, exists_eq_or_imp]
    tauto

theorem mem_pushResultUses (ir : IR) (owner : Nat) (uses : List Use) (x : Use) :
    x ∈ ir.pushResultUses owner uses ↔
      x ∈ uses ∨ ∃ r ∈ ir.getOpResults owner, x ∈ ir.getUses r :=
  mem_pushResultsFold_iff ir _ uses x

theorem walkUses_mem (ir : IR) :
    ∀ (fuel : Nat) (uses : List Use) (operations result : List Nat),
      walkUses ir fuel uses operations = some result →
      ∀ op, op ∈ result ↔ op ∈ operations ∨
        ∃ u ∈ uses, op = u.owner ∨ ∃ r ∈ ir.getOpResults u.owner, ir.Reaches r op := by
  intro fuel
  induction fuel with
  | zero =>
    intro uses ops res h op
    cases uses with
    | nil => simp only [walkUses, Option.some.injEq] at h; subst h; simp
    | cons u rest => simp [walkUses] at h
  | succ n ih =>
    intro uses ops res h op
    cases uses with
    | nil => simp only [walkUses, Option.some.injEq] at h; subst h; simp
    | cons u rest =>
      simp only [walkUses] at h
      rw [ih _ _ _ h op, mem_smallSetInsert]
      constructor
      · rintro ((h1 | h1) | ⟨x, hx, hp⟩)
        · exact Or.inl h1
        · exact Or.inr ⟨u, List.mem_cons_self _ _, Or.inl h1⟩
        · rcases (mem_pushResultUses ir u.owner rest x).mp hx with hx | ⟨r, hr, hxr⟩
          · exact Or.inr ⟨x, List.mem_cons_of_mem _ hx, hp⟩
          · refine Or.inr ⟨u, List.mem_cons_self _ _, Or.inr ⟨r, hr, ?_⟩⟩
            rcases hp with hp | ⟨r2, hr2, hreach⟩
            · rw [hp]; exact IR.Reaches.use r x hxr
            · exact IR.Reaches.through r x r2 op hxr hr2 hreach
      · rintro (h1 | ⟨x, hx, hp⟩)
        · exact Or.inl (Or.inl h1)
        · rcases List.mem_cons.mp hx with e | hx
          · subst e
            rcases hp with hp | ⟨r, hr, hreach⟩
            · exact Or.inl (Or.inr hp)
            · cases hreach with
              | use _ u2 hu2 =>
                exact Or.inr ⟨u2, (mem_pushResultUses ir x.owner rest u2).mpr
                  (Or.inr ⟨r, hr, hu2⟩), Or.inl rfl⟩
              | through _ u2 r2 _ hu2 hr2 hreach2 =>
                exact Or.inr ⟨u2, (mem_pushResultUses ir x.owner rest u2).mpr
                  (Or.inr ⟨r, hr, hu2⟩), Or.inr ⟨r2, hr2, hreach2⟩⟩
          · exact Or.inr ⟨x, (mem_pushResultUses ir u.owner rest x).mpr (Or.inl hx), hp⟩

theorem reaches_iff (ir : IR) (value : Value) (op : Nat) :
    ir.Reaches value op ↔
      ∃ u ∈ (ir.getUses value).foldl setVectorInsert [],
        op = u.owner ∨ ∃ r ∈ ir.getOpResults u.owner, ir.Reaches r op := by
  constructor
  · intro h
    cases h with
    | use _ u hu =>
      exact ⟨u, (mem_foldl_setVectorInsert _ _ _).mpr (Or.inr hu), Or.inl rfl⟩
    | through _ u r _ hu hr hreach =>
      exact ⟨u, (mem_foldl_setVectorInsert _ _ _).mpr (Or.inr hu), Or.inr ⟨r, hr, hreach⟩⟩
  · rintro ⟨u, hu, hp⟩
    rcases (mem_foldl_setVectorInsert _ _ _).mp hu with hu | hu
    · cases hu
    rcases hp with hp | ⟨r, hr, hreach⟩
    · rw [hp]; exact IR.Reaches.use value u hu
    · exact IR.Reaches.through value u r op hu hr hreach

/-- C19: for a value defined by an operation of an acyclic program,
`getExternalDependentOperations` returns a set (no operation twice) that
contains exactly the defining operation and the operations reached from the
value along def-use edges through operation results, except those that
`isInternalOperation` recognises: an internal operation is never in the
result, however many internal operations were collected and wherever they
stand. -/
theorem getExternalDependentOperations_spec (ir : IR) (optionalSymbols : List String)
    (value : Value) (definingOp index : Nat)
    (hsrc : value.source = ValueSource.opResult definingOp index) (hacyclic : ir.Acyclic) :
    ∃ deps, getExternalDependentOperations ir optionalSymbols value = some deps ∧
      deps.Nodup ∧
      ∀ op, op ∈ deps ↔
        (op = definingOp ∨ ir.Reaches value op) ∧
          isInternalOperation optionalSymbols (ir.getOp op) = false := by
  obtain ⟨deps, hdeps⟩ :=
    getExternalDependentOperations_isSome ir optionalSymbols value definingOp index hsrc hacyclic
  refine ⟨deps, hdeps, getExternalDependentOperations_nodup ir optionalSymbols value deps hdeps,
    ?_⟩
  intro op
  unfold getExternalDependentOperations at hdeps
  rw [hsrc] at hdeps
  simp only at hdeps
  split at hdeps
  · cases hdeps
  · rename_i operations hw
    simp only [Option.some.injEq] at hdeps
    subst hdeps
    rw [List.mem_filter, walkUses_mem ir _ _ _ _ hw op, ← reaches_iff, mem_smallSetInsert]
    simp

/-- Witness of C19 on `exampleLocalIR`. -/
theorem getExternalDependentOperations_spec_witness :
    ∃ deps, getExternalDependentOperations exampleLocalIR [] exampleBuffer = some deps ∧
      deps.Nodup :=
  Exists.imp (fun _ h => ⟨h.1, h.2.1⟩)
    (getExternalDependentOperations_spec exampleLocalIR [] exampleBuffer 0 0 rfl
      (acyclic_of_definedBeforeUse exampleLocalIR (by decide)))

theorem walkUses_fuel_mono (ir : IR) :
    ∀ (fuel : Nat) (uses : List Use) (operations result : List Nat),
      walkUses ir fuel uses operations = some result →
      ∀ more, fuel ≤ more → walkUses ir more uses operations = some result := by
  intro fuel
  induction fuel with
  | zero =>
    intro uses ops res h more _
    cases uses with
    | nil => cases more <;> exact h
    | cons u rest => simp [walkUses] at h
  | succ n ih =>
    intro uses ops res h more hle
    cases uses with
    | nil => cases more <;> exact h
    | cons u rest =>
      obtain ⟨m, rfl⟩ : ∃ m, more = m + 1 := ⟨more - 1, by omega⟩
      simp only [walkUses] at h ⊢
      exact ih _ _ _ h m (by omega)

/-- C20: for a program whose def-use graph is acyclic, the worklist walk of
`getExternalDependentOperations` from the uses of a value terminates: there
is a result that the loop returns for every number of iterations allowed
from `walkFuel` on, although a use that has been popped can be inserted
again (the worklist keeps no set of visited uses). -/
theorem walkUses_terminates (ir : IR) (value : Value) (operations : List Nat)
    (hacyclic : ir.Acyclic) :
    ∃ result, ∀ fuel, ir.walkFuel value ≤ fuel →
      walkUses ir fuel ((ir.getUses value).foldl setVectorInsert []) operations
        = some result := by
  obtain ⟨rank, hlt, hrank⟩ := hacyclic
  have hown : ∀ u ∈ (ir.getUses value).foldl setVectorInsert [], u.owner < ir.ops.length := by
    intro u hu
    rcases (mem_foldl_setVectorInsert _ _ _).mp hu with hu | hu
    · cases hu
    · exact getUses_owner_lt ir value u hu
  have hw : worklistWeight ir rank ((ir.getUses value).foldl setVectorInsert [])
      < ir.walkFuel value := by
    have := worklistWeight_foldl_le ir rank ((ir.maxPush + 1) ^ ir.ops.length)
      (ir.getUses value) [] (by
        intro u _
        unfold useWeight
        exact Nat.pow_le_pow_right (Nat.succ_pos _) (Nat.sub_le _ _))
    have h0 : worklistWeight ir rank [] = 0 := rfl
    unfold IR.walkFuel
    omega
  obtain ⟨deps, hd⟩ := walkUses_isSome ir rank hlt hrank (ir.walkFuel value) _
    operations hown hw
  exact ⟨deps, fun fuel hle => walkUses_fuel_mono ir _ _ _ _ hd fuel hle⟩

/-- Witness of C20 on `exampleRepushIR`, where the use by operation 2 is popped
and inserted again. -/
theorem walkUses_terminates_witness :
    ∃ result, walkUses exampleRepushIR (exampleRepushIR.walkFuel exampleBuffer)
      ((exampleRepushIR.getUses exampleBuffer).foldl setVectorInsert []) [0] = some result :=
  Exists.imp (fun _ h => h _ (Nat.le_refl _))
    (walkUses_terminates exampleRepushIR exampleBuffer [0]
      (acyclic_of_definedBeforeUse exampleRepushIR (by decide)))

/-- On `exampleRepushIR` the value has three uses in all (two by operation 1,
one of its result by operation 2), and the walk pops four times: three
iterations are not enough. -/
theorem walkUses_repush_example :
    walkUses exampleRepushIR 3
        ((exampleRepushIR.getUses exampleBuffer).foldl setVectorInsert []) [0] = none ∧
    walkUses exampleRepushIR 4
        ((exampleRepushIR.getUses exampleBuffer).foldl setVectorInsert []) [0]
      = some [0, 1, 2] := by
  decide

/-! ## Declarations and the two-launch program -/

/-- C12 (the code at the failing input): the launch of `exampleFiveTypesIR`
binds buffers of the five element types i8, i16, i32, i64 and f32. All the
integer types have the same type identifier, so the set of element types,
once it holds more than four types, keeps one integer type only: the
binding functions of i8, i16 and i32 are called and not declared, whether
the identifier of the float type is below, above or equal to that of the
integer types (in the last case the binding function of f32 is not declared
either). -/
theorem undeclared_binding_functions :
    (runOnOperation (exampleTypesEnv 0) exampleFiveTypesIR).map (fun r =>
        (r.emitted.flatten.map Call.callee).filter (fun name => decide (name ∉ r.declared)))
      = some [kBindBufferInteger8, kBindBufferInteger16, kBindBufferInteger32] ∧
    (runOnOperation (exampleTypesEnv 2) exampleFiveTypesIR).map (fun r =>
        (r.emitted.flatten.map Call.callee).filter (fun name => decide (name ∉ r.declared)))
      = some [kBindBufferInteger8, kBindBufferInteger16, kBindBufferInteger32] ∧
    (runOnOperation (exampleTypesEnv 1) exampleFiveTypesIR).map (fun r =>
        (r.emitted.flatten.map Call.callee).filter (fun name => decide (name ∉ r.declared)))
      = some [kBindBufferInteger8, kBindBufferInteger16, kBindBufferInteger32,
          kBindBufferFloat32] := by
  decide

/-- Counterexample to C15 as stated: in `exampleTwoLaunchIR` launch 0 binds B
at binding 0, launch 1 binds B at binding 1 and the host reads B after the
teardown; both binding calls of B carry the copy mode 2, so the DeviceToHost
bit is set on both of B's bindings. -/
theorem device_to_host_on_both_bindings :
    (runOnOperation exampleEnv exampleTwoLaunchIR).map (fun r =>
        (r.emitted.flatten.filter
          (fun c => decide (c.operands[5]? = some (Arg.memRefCast exampleBuffer)))).map
          (fun c => (c.callee, c.operands[2]?, c.operands[4]?)))
      = some [(kBindBufferFloat32, some (Arg.constant 32 0), some (Arg.constant 32 2)),
          (kBindBufferFloat32, some (Arg.constant 32 1), some (Arg.constant 32 2))] ∧
    2 &&& kBufferCopyModeDeviceToHost = kBufferCopyModeDeviceToHost := by
  decide

/-- The calls emitted for `exampleTwoLaunchIR`, in order: `initVulkan`; the
actions of launch 0, where B is bound with the copy mode DeviceToHost; the
actions of launch 1, where B is bound with the copy mode DeviceToHost again
and one transfer call copies B from (launch 0, binding 0) to (launch 1,
binding 1); `run`; `deinitVulkan`. -/
theorem two_launch_example :
    (runOnOperation exampleEnv exampleTwoLaunchIR).map (fun r => r.emitted.flatten)
      = some [initVulkanCall,
          createLaunchKernelActionCall (some 2) 0 [1, 0, 0, 0, 2, 0, 0, 0] exampleLaunch,
          bindBufferCall (some 2) ElemType.f32 0 16 kBufferCopyModeDeviceToHost exampleBuffer,
          setLaunchKernelActionCall (some 2) exampleLaunch,
          addLaunchActionToScheduleCall (some 2),
          createLaunchKernelActionCall (some 2) 1 [3, 0, 0, 0] exampleLaunch,
          bindBufferCall (some 2) ElemType.f32 0 16 kBufferCopyModeInit exampleBufferC,
          bindBufferCall (some 2) ElemType.f32 1 16 kBufferCopyModeDeviceToHost exampleBuffer,
          setLaunchKernelActionCall (some 2) exampleLaunch,
          transferCall (some 2) (0, 0) 1 1,
          addLaunchActionToScheduleCall (some 2),
          runCall (some 2), deinitVulkanCall (some 2)] := by
  decide

/-! ## A program with two launches -/

theorem convertAll_cons_launch (env : Env) (slot : Nat) (op : Operation) (rest : List Operation)
    (st : PassState) (l : LaunchFuncOp) (hk : op.kind = OpKind.launchFunc l) :
    convertAll env slot (op :: rest) st
      = ((convertAll env (slot + 1) rest (convertGpuLaunchFunc env st slot op l).1).1,
         (convertGpuLaunchFunc env st slot op l).2.1
           :: (convertAll env (slot + 1) rest (convertGpuLaunchFunc env st slot op l).1).2.1,
         (convertGpuLaunchFunc env st slot op l).2.2
           :: (convertAll env (slot + 1) rest (convertGpuLaunchFunc env st slot op l).1).2.2) := by
  conv => lhs; unfold convertAll
  simp only [hk]

theorem convertAll_cons_other (env : Env) (slot : Nat) (op : Operation) (rest : List Operation)
    (st : PassState) (hk : ∀ l, op.kind ≠ OpKind.launchFunc l) :
    convertAll env slot (op :: rest) st
      = ((convertAll env (slot + 1) rest st).1, op :: (convertAll env (slot + 1) rest st).2.1,
         ⟨[], []⟩ :: (convertAll env (slot + 1) rest st).2.2) := by
  conv => lhs; unfold convertAll
  cases hkind : op.kind with
  | launchFunc l => exact absurd hkind (hk l)
  | alloc => rfl
  | memRefCast => rfl
  | call callee => rfl
  | other => rfl

theorem convertAll_plain_append (env : Env) :
    ∀ (pre rest : List Operation) (slot : Nat) (st : PassState), countLaunches pre = 0 →
      convertAll env slot (pre ++ rest) st
        = ((convertAll env (slot + pre.length) rest st).1,
           pre ++ (convertAll env (slot + pre.length) rest st).2.1,
           emptySites pre ++ (convertAll env (slot + pre.length) rest st).2.2) := by
  intro pre
  induction pre with
  | nil => intro rest slot st _; simp [emptySites]
  | cons op more ih =>
    intro rest slot st h
    have hk : ∀ l, op.kind ≠ OpKind.launchFunc l :=
      countLaunches_zero_kind (op :: more) h 0 op (by simp)
    rw [countLaunches_cons_other op more hk] at h
    rw [List.cons_append, convertAll_cons_other env slot op _ st hk, ih rest (slot + 1) st h]
    have e : slot + 1 + more.length = slot + (op :: more).length := by
      simp only [List.length_cons]; omega
    rw [e]
    rfl

theorem convertAll_two_launches (env : Env) (pre mid post : List Operation)
    (op0 op1 : Operation) (l0 l1 : LaunchFuncOp) (st : PassState)
    (hk0 : op0.kind = OpKind.launchFunc l0) (hk1 : op1.kind = OpKind.launchFunc l1)
    (hpre : countLaunches pre = 0) (hmid : countLaunches mid = 0)
    (hpost : countLaunches post = 0) :
    convertAll env 0 (pre ++ op0 :: (mid ++ op1 :: post)) st
      = ((convertGpuLaunchFunc env (convertGpuLaunchFunc env st pre.length op0 l0).1
            (pre.length + 1 + mid.length) op1 l1).1,
         pre ++ (convertGpuLaunchFunc env st pre.length op0 l0).2.1
           :: (mid ++ (convertGpuLaunchFunc env (convertGpuLaunchFunc env st pre.length op0 l0).1
                (pre.length + 1 + mid.length) op1 l1).2.1 :: post),
         emptySites pre ++ (convertGpuLaunchFunc env st pre.length op0 l0).2.2
           :: (emptySites mid ++ (convertGpuLaunchFunc env
                (convertGpuLaunchFunc env st pre.length op0 l0).1
                (pre.length + 1 + mid.length) op1 l1).2.2 :: emptySites post)) := by
  rw [convertAll_plain_append env pre _ 0 st hpre, Nat.zero_add,
    convertAll_cons_launch env pre.length op0 _ st l0 hk0,
    convertAll_plain_append env mid _ (pre.length + 1) _ hmid,
    convertAll_cons_launch env (pre.length + 1 + mid.length) op1 _ _ l1 hk1]
  have hp := convertAll_plain_append env post [] (pre.length + 1 + mid.length + 1)
    (convertGpuLaunchFunc env (convertGpuLaunchFunc env st pre.length op0 l0).1
      (pre.length + 1 + mid.length) op1 l1).1 hpost
  rw [List.append_nil] at hp
  rw [hp]
  simp [convertAll]

theorem countLaunches_append (xs ys : List Operation) :
    countLaunches (xs ++ ys) = countLaunches xs + countLaunches ys := by
  have := countLaunches_take_drop (xs ++ ys) xs.length
  simp at this
  omega

theorem isInternalOperation_nil (optionalSymbols : List String) (op : Operation)
    (h : isInternalOperation [] op = true) : isInternalOperation optionalSymbols op = true := by
  unfold isInternalOperation at h ⊢
  cases hk : op.kind <;> simp [hk] at h ⊢
  exact Or.inl h

theorem isInternalOperation_not_call (optionalSymbols : List String) (op : Operation)
    (hk : ∀ callee, op.kind ≠ OpKind.call callee) :
    isInternalOperation optionalSymbols op = isInternalOperation [] op := by
  unfold isInternalOperation
  cases hkind : op.kind with
  | call callee => exact absurd hkind (hk callee)
  | alloc => rfl
  | memRefCast => rfl
  | launchFunc l => rfl
  | other => rfl

theorem externalDeps_mem (ir : IR) (optionalSymbols : List String) (value : Value) (op : Nat) :
    op ∈ externalDeps ir optionalSymbols value ↔
      op ∈ externalDeps ir [] value ∧ isInternalOperation optionalSymbols (ir.getOp op) = false := by
  unfold externalDeps getExternalDependentOperations
  cases value.source with
  | blockArgument b i => simp
  | opResult d i =>
    simp only
    cases walkUses ir (ir.walkFuel value) ((ir.getUses value).foldl setVectorInsert [])
        (smallSetInsert [] d) with
    | none => simp
    | some operations =>
      simp only [Option.getD_some, List.mem_filter, Bool.not_eq_true']
      constructor
      · rintro ⟨h1, h2⟩
        refine ⟨⟨h1, ?_⟩, h2⟩
        cases h3 : isInternalOperation [] (ir.getOp op) with
        | false => rfl
        | true => rw [isInternalOperation_nil optionalSymbols _ h3] at h2; cases h2
      · rintro ⟨⟨h1, -⟩, h2⟩
        exact ⟨h1, h2⟩

theorem foldl_or_same (ir : IR) (deinit callOp : Nat) (bits : Nat) :
    ∀ (deps : List Nat), (∀ op ∈ deps, depBits ir deinit callOp op = bits) → deps ≠ [] →
      ∀ m, m = 0 ∨ m = bits →
        deps.foldl (fun mode op => mode ||| depBits ir deinit callOp op) m = bits := by
  intro deps
  induction deps with
  | nil => intro _ h; exact absurd rfl h
  | cons a rest ih =>
    intro hall _ m hm
    rw [List.foldl_cons, hall a (List.mem_cons_self _ _)]
    have hstep : m ||| bits = bits := by
      rcases hm with hm | hm <;> subst hm <;> simp
    rw [hstep]
    cases rest with
    | nil => rfl
    | cons b more =>
      exact ih (fun op hop => hall op (List.mem_cons_of_mem _ hop)) (by simp) bits (Or.inr rfl)

theorem getBufferCopyMode_after_teardown (ir : IR) (optionalSymbols : List String)
    (deinit callOp : Nat) (buffer : Value) (definingOp index : Nat)
    (hsrc : buffer.source = ValueSource.opResult definingOp index) (hacyclic : ir.Acyclic)
    (hdeps : ∀ op ∈ externalDeps ir [] buffer, ir.getBlock op = ir.getBlock callOp ∧
      ir.isBeforeInBlock op callOp = false ∧ ir.isBeforeInBlock deinit op = true)
    (hread : ∃ op ∈ externalDeps ir [] buffer,
      ∀ callee, (ir.getOp op).kind ≠ OpKind.call callee) :
    getBufferCopyMode ir optionalSymbols (some deinit) callOp buffer
      = some (kBufferCopyModeDeviceToHost, 0) := by
  obtain ⟨deps, hd⟩ :=
    getExternalDependentOperations_isSome ir optionalSymbols buffer definingOp index hsrc hacyclic
  have hext : externalDeps ir optionalSymbols buffer = deps := by simp [externalDeps, hd]
  have hsub : ∀ op ∈ deps, op ∈ externalDeps ir [] buffer := by
    intro op hop
    rw [← hext] at hop
    exact ((externalDeps_mem ir optionalSymbols buffer op).mp hop).1
  have hne : deps ≠ [] := by
    obtain ⟨op, hop, hk⟩ := hread
    have : op ∈ deps := by
      rw [← hext, externalDeps_mem]
      refine ⟨hop, ?_⟩
      rw [isInternalOperation_not_call optionalSymbols _ hk]
      exact ((externalDeps_mem ir [] buffer op).mp hop).2
    intro e
    rw [e] at this
    cases this
  have hbits : ∀ op ∈ deps, depBits ir deinit callOp op = kBufferCopyModeDeviceToHost := by
    intro op hop
    obtain ⟨h1, h2, h3⟩ := hdeps op (hsub op hop)
    simp [depBits, h1, h2, h3]
  have hhaz : deps.countP (isHazard ir deinit callOp) = 0 := by
    rw [List.countP_eq_zero]
    intro op hop
    obtain ⟨h1, h2, h3⟩ := hdeps op (hsub op hop)
    simp [isHazard, h1, h2, h3]
  simp only [getBufferCopyMode, hsrc, hd]
  rw [copyModeLoop_eq, foldl_or_same ir deinit callOp _ deps hbits hne kBufferCopyModeInit
    (Or.inl rfl), hhaz]

theorem bindBuffersFrom_modes (env : Env) (ir : IR) (callOp : Nat) (hacyclic : ir.Acyclic) :
    ∀ (buffers : List Value) (i : Nat) (st : PassState) (deinit : Nat),
      st.deinitVulkan = some deinit →
      (∀ b ∈ buffers, ∃ shape t, b.type = MlirType.memref shape t) →
        ∃ st2 calls, bindBuffersFrom env ir callOp i buffers st
            = some (LogicalResult.success, st2, calls) ∧
          calls.length = buffers.length ∧
          ∀ (j : Nat) (b : Value), buffers[j]? = some b → ∃ shape t symbols mode warned,
            b.type = MlirType.memref shape t ∧
            getBufferCopyMode ir symbols (some deinit) callOp b = some (mode, warned) ∧
            calls[j]? = some (bindBufferCall st.vulkanRuntime t (i + j)
              (bufferByteSizeOf shape t) mode b) := by
  intro buffers
  induction buffers with
  | nil =>
    intro i st d _ _
    exact ⟨st, [], rfl, rfl, by intro j b h; simp at h⟩
  | cons b rest ih =>
    intro i st d hd hall
    obtain ⟨shape, t, hty⟩ := hall b (List.mem_cons_self _ _)
    obtain ⟨m, hm⟩ := getBufferCopyMode_isSome ir st.optionalSymbols d callOp b hacyclic
    obtain ⟨st2, calls, hrec, hlen, hcalls⟩ := ih (i + 1)
      { st with
        deinitVulkan := some d
        bufferElementTypes := st.bufferElementTypes.insert env.typeID t
        optionalSymbols := symbolInsert st.optionalSymbols (stringRef (getBufferBindingFunc t))
        warnings := st.warnings + m.2 } d rfl
      (fun x hx => hall x (List.mem_cons_of_mem _ hx))
    refine ⟨st2, bindBufferCall st.vulkanRuntime t i (bufferByteSizeOf shape t) m.1 b :: calls,
      ?_, by simp [hlen], ?_⟩
    · unfold bindBuffersFrom
      simp only [hty, hd, hm, hrec]
    · intro j x hj
      cases j with
      | zero =>
        simp at hj; subst hj
        exact ⟨shape, t, st.optionalSymbols, m.1, m.2, hty, hm, by simp⟩
      | succ j =>
        simp at hj
        obtain ⟨shape2, t2, syms2, mode2, w2, h1, h2, h3⟩ := hcalls j x hj
        refine ⟨shape2, t2, syms2, mode2, w2, h1, h2, ?_⟩
        have e : i + (j + 1) = i + 1 + j := by omega
        rw [e]; simpa using h3

theorem transferMatches_absent (rt : Option Nat) (k i : Nat) (v : Value) :
    ∀ (map : List (Value × (Nat × Nat))) (symbols : List String),
      v ∉ map.map Prod.fst → (transferMatches rt k i v map symbols).1 = [] := by
  intro map
  induction map with
  | nil => intro _ _; rfl
  | cons pair rest ih =>
    intro symbols h
    simp only [List.map_cons, List.mem_cons, not_or] at h
    unfold transferMatches
    rw [if_neg (fun e => h.1 e.symm)]
    exact ih symbols h.2

theorem transferMatches_length (rt : Option Nat) (k i : Nat) (v : Value) :
    ∀ (map : List (Value × (Nat × Nat))) (symbols : List String), KeysDistinct map →
      (transferMatches rt k i v map symbols).1.length ≤ 1 := by
  intro map
  induction map with
  | nil => intro _ _; simp [transferMatches]
  | cons pair rest ih =>
    intro symbols h
    unfold KeysDistinct at h
    rw [List.map_cons, List.nodup_cons] at h
    unfold transferMatches
    by_cases hp : pair.1 = v
    · rw [if_pos hp]
      simp only [List.length_cons]
      rw [transferMatches_absent rt k i v rest _ (by rw [← hp]; exact h.1)]
      simp
    · rw [if_neg hp]
      exact ih symbols h.2

theorem transferBuffersFrom_nodup :
    ∀ (args : List Value) (i : Nat) (st : PassState), KeysDistinct st.bufferMap →
      (transferBuffersFrom i args st).2.Nodup := by
  intro args
  induction args with
  | nil => intro i st _; simp [transferBuffersFrom]
  | cons a rest ih =>
    intro i st hk
    simp only [transferBuffersFrom]
    have hk1 := keysDistinct_denseMapSet a (st.lauchFuncIndex, i) st.bufferMap hk
    rw [List.nodup_append]
    refine ⟨?_, ih (i + 1) _ hk1, ?_⟩
    · have := transferMatches_length st.vulkanRuntime st.lauchFuncIndex i a st.bufferMap
        st.optionalSymbols hk
      generalize (transferMatches st.vulkanRuntime st.lauchFuncIndex i a st.bufferMap
        st.optionalSymbols).1 = l at this
      match l, this with
      | [], _ => exact List.nodup_nil
      | [x], _ => exact List.nodup_singleton x
    · intro c hc1 hc2
      obtain ⟨src, -, e1⟩ := (mem_transferMatches _ _ _ _ _ _ _).mp hc1
      obtain ⟨j, v, src2, -, e2, -⟩ := transferBuffersFrom_source rest (i + 1) _ hk1 c hc2
      rw [e1] at e2
      have := congrArg (fun c => c.operands[4]?) e2
      simp [transferCall] at this
      omega

theorem positions_of_nodup (v : Value) :
    ∀ (args : List Value) (i j : Nat), args.Nodup → args[j]? = some v →
      positions v i args = [i + j] := by
  intro args
  induction args with
  | nil => intro i j _ h; simp at h
  | cons a rest ih =>
    intro i j hn hj
    rw [List.nodup_cons] at hn
    cases j with
    | zero =>
      simp at hj
      subst hj
      have hnil : positions a (i + 1) rest = [] := by
        cases hp : positions a (i + 1) rest with
        | nil => rfl
        | cons p ps =>
          have hmem : p ∈ positions a (i + 1) rest := by rw [hp]; exact List.mem_cons_self _ _
          obtain ⟨-, h2⟩ := positions_ge a rest (i + 1) p hmem
          exact absurd (List.getElem?_mem h2) hn.1
      simp [positions, hnil]
    | succ j =>
      simp at hj
      have hne : a ≠ v := by
        intro e
        subst e
        exact hn.1 (List.getElem?_mem hj)
      simp only [positions, if_neg hne]
      rw [ih (i + 1) j hn.2 hj]
      congr 1
      omega

theorem getElem?_insert_mid {α : Type} (pre : List α) (x : α) (rest : List α) (j : Nat) :
    (pre ++ x :: rest)[j]? =
      if j < pre.length then pre[j]? else if j = pre.length then some x
      else rest[j - pre.length - 1]? := by
  by_cases h1 : j < pre.length
  · rw [if_pos h1, List.getElem?_append_left h1]
  · rw [if_neg h1, List.getElem?_append_right (by omega)]
    by_cases h2 : j = pre.length
    · rw [if_pos h2, h2]; simp
    · rw [if_neg h2]
      obtain ⟨k, hk⟩ : ∃ k, j - pre.length = k + 1 := ⟨j - pre.length - 1, by omega⟩
      rw [hk]
      simp

theorem emptySites_getElem? (ops : List Operation) (j : Nat) (site : Site)
    (h : (emptySites ops)[j]? = some site) : site = ⟨[], []⟩ := by
  unfold emptySites at h
  rw [List.getElem?_map] at h
  cases hj : ops[j]? with
  | none => rw [hj] at h; cases h
  | some op => rw [hj] at h; simp at h; exact h.symm

theorem emptySites_getElem?_some (ops : List Operation) (j : Nat) (op : Operation)
    (h : ops[j]? = some op) : (emptySites ops)[j]? = some ⟨[], []⟩ := by
  unfold emptySites
  rw [List.getElem?_map, h]
  rfl

/-- The state after the first of two launches is lowered from the start
state. -/
theorem first_launch_lowered (env : Env) (ir : IR) (slot : Nat) (op : Operation)
    (l : LaunchFuncOp) (binary : List Nat) (hcount : countLaunches ir.ops = 2)
    (hser : createBinaryShader env 0 = (LogicalResult.success, binary))
    (hnd : (kernelOperands op).Nodup) :
    (convertGpuLaunchFunc env (startState ir) slot op l).1.lauchFuncIndex = 1 ∧
    (convertGpuLaunchFunc env (startState ir) slot op l).1.numKernel = 2 ∧
    (convertGpuLaunchFunc env (startState ir) slot op l).1.vulkanRuntime = some slot ∧
    (convertGpuLaunchFunc env (startState ir) slot op l).1.deinitVulkan = none ∧
    KeysDistinct (convertGpuLaunchFunc env (startState ir) slot op l).1.bufferMap ∧
    (∀ (j : Nat) (v : Value), (kernelOperands op)[j]? = some v →
      (v, (0, j)) ∈ (convertGpuLaunchFunc env (startState ir) slot op l).1.bufferMap) ∧
    (convertGpuLaunchFunc env (startState ir) slot op l).2.1 = bindAllBuffersOp op ∧
    (convertGpuLaunchFunc env (startState ir) slot op l).2.2.before
      = [initVulkanCall, createLaunchKernelActionCall (some slot) 0 binary l] ∧
    ∃ prints, (convertGpuLaunchFunc env (startState ir) slot op l).2.2.after
      = [setLaunchKernelActionCall (some slot) l, addLaunchActionToScheduleCall (some slot)]
        ++ prints ∧ ∀ c ∈ prints, c.callee = kPrint_memref_f32 := by
  have hidx : (startState ir).lauchFuncIndex = 0 := rfl
  have hnum : (startState ir).numKernel = 2 := hcount
  have hai : afterInit (startState ir) slot
      = { startState ir with vulkanRuntime := some slot } := by
    unfold afterInit
    rw [if_pos hidx]
  have hmap0 : (afterInit (startState ir) slot).bufferMap = [] := by rw [hai]; rfl
  have hk0 : KeysDistinct (afterInit (startState ir) slot).bufferMap := by
    rw [hmap0]; simp [KeysDistinct]
  obtain ⟨cm, ci, crt, cn, -, cd, cop, cbefore, cafter⟩ :=
    convertGpuLaunchFunc_lowered env (startState ir) slot op l binary hser
  have htr : (transferBuffersFrom 0 (kernelOperands op) (afterInit (startState ir) slot)).2
      = [] := by
    rw [List.eq_nil_iff_forall_not_mem]
    intro c hc
    obtain ⟨j, v, src, hj, -, h3⟩ := transferBuffersFrom_source _ 0 _ hk0 c hc
    rcases h3 with h3 | ⟨-, h3⟩
    · rw [hmap0] at h3; cases h3
    · obtain ⟨n, hn⟩ := List.getElem?_of_mem h3
      rw [List.getElem?_take] at hn
      split at hn
      · rename_i hlt
        have h1 := List.getElem?_eq_some_iff.mp hn
        have h2 := List.getElem?_eq_some_iff.mp hj
        obtain ⟨hl1, e1⟩ := h1
        obtain ⟨hl2, e2⟩ := h2
        have := (List.Nodup.getElem_inj_iff hnd).mp (e1.trans e2.symm)
        omega
      · cases hn
  refine ⟨by rw [ci, hidx], by rw [cn, hnum], by rw [crt, hai], ?_, ?_, ?_, cop, ?_, ?_⟩
  · rw [cd, hidx, hnum]; rfl
  · rw [cm]; exact transferBuffersFrom_keys _ 0 _ hk0
  · intro j v hj
    rw [cm]
    have := transferBuffersFrom_last v (kernelOperands op) 0 (afterInit (startState ir) slot) j
      hk0 hj (by
        intro n hn hv
        obtain ⟨hl1, e1⟩ := List.getElem?_eq_some_iff.mp hv
        obtain ⟨hl2, e2⟩ := List.getElem?_eq_some_iff.mp hj
        have := (List.Nodup.getElem_inj_iff hnd).mp (e1.trans e2.symm)
        omega)
    rw [Nat.zero_add, hai] at this
    rw [hai]
    exact this
  · rw [cbefore, hai]
    rfl
  · rw [cafter, htr]
    refine ⟨if env.vlog4 then (printBuffers (kernelOperands op)
      (transferBuffersFrom 0 (kernelOperands op)
        (afterInit (startState ir) slot)).1.optionalSymbols).1 else [], ?_, ?_⟩
    · unfold callsAfterBind
      have hne : ¬ ((afterInit (startState ir) slot).lauchFuncIndex
          = (afterInit (startState ir) slot).numKernel - 1) := by
        rw [hai]
        show ¬ ((startState ir).lauchFuncIndex = (startState ir).numKernel - 1)
        rw [hidx, hnum]
        decide
      rw [if_neg hne, hai]
      simp
    · intro c hc
      split at hc
      · exact printBuffers_callee _ _ c hc
      · cases hc

/-- The second of two launches, lowered in a state that records `buffer` at
(launch 0, binding `b0`). -/
theorem second_launch_lowered (env : Env) (st : PassState) (slot : Nat) (op : Operation)
    (l : LaunchFuncOp) (binary : List Nat) (rt : Option Nat) (buffer : Value) (b0 b1 : Nat)
    (hidx : st.lauchFuncIndex = 1) (hnum : st.numKernel = 2) (hrt : st.vulkanRuntime = rt)
    (hkeys : KeysDistinct st.bufferMap) (hrec : (buffer, (0, b0)) ∈ st.bufferMap)
    (hser : createBinaryShader env 1 = (LogicalResult.success, binary))
    (hnd : (kernelOperands op).Nodup) (hb1 : (kernelOperands op)[b1]? = some buffer) :
    (convertGpuLaunchFunc env st slot op l).1.vulkanRuntime = rt ∧
    (convertGpuLaunchFunc env st slot op l).1.deinitVulkan = some slot ∧
    (convertGpuLaunchFunc env st slot op l).2.1 = bindAllBuffersOp op ∧
    (convertGpuLaunchFunc env st slot op l).2.2.before
      = [createLaunchKernelActionCall rt 1 binary l] ∧
    ∃ transfers prints, (convertGpuLaunchFunc env st slot op l).2.2.after
      = [setLaunchKernelActionCall rt l] ++ transfers
        ++ [addLaunchActionToScheduleCall rt, runCall rt, deinitVulkanCall rt] ++ prints ∧
      (∀ c ∈ transfers, c.callee = kCreateVulkanMemoryTransferAction) ∧
      transfers.count (transferCall rt (0, b0) 1 b1) = 1 ∧
      (∀ c ∈ transfers, c.operands[4]? = some (Arg.constant 64 b1) →
        c = transferCall rt (0, b0) 1 b1) ∧
      ∀ c ∈ prints, c.callee = kPrint_memref_f32 := by
  have hai : afterInit st slot = st := afterInit_of_ne_zero st slot (by omega)
  obtain ⟨-, -, crt, -, -, cd, cop, cbefore, cafter⟩ :=
    convertGpuLaunchFunc_lowered env st slot op l binary (by rw [hidx]; exact hser)
  rw [hai] at crt cbefore cafter
  have hmem : transferCall rt (0, b0) 1 b1 ∈ (transferBuffersFrom 0 (kernelOperands op) st).2 := by
    have := transferBuffersFrom_first buffer (0, b0) (kernelOperands op) 0 st b1 [] hkeys
      (by rw [positions_of_nodup buffer _ 0 b1 hnd hb1, Nat.zero_add]) hrec
    rw [hrt, hidx] at this
    exact this
  refine ⟨by rw [crt, hrt], by rw [cd, hidx, hnum]; rfl, cop, ?_, ?_⟩
  · rw [cbefore, if_neg (by omega), hrt, hidx]
    rfl
  · refine ⟨(transferBuffersFrom 0 (kernelOperands op) st).2,
      if env.vlog4 then (printBuffers (kernelOperands op)
        (transferBuffersFrom 0 (kernelOperands op) st).1.optionalSymbols).1 else [],
      ?_, ?_, ?_, ?_, ?_⟩
    · rw [cafter]
      unfold callsAfterBind
      rw [if_pos (by rw [hidx, hnum]), hrt]
      simp
    · intro c hc
      obtain ⟨src, i, h⟩ := transferBuffersFrom_form _ _ _ c hc
      rw [h]; rfl
    · exact List.count_eq_one_of_mem (transferBuffersFrom_nodup _ 0 st hkeys) hmem
    · intro c hc hdest
      obtain ⟨j, v, src, hj, e, h3⟩ := transferBuffersFrom_source _ 0 st hkeys c hc
      rw [e, hrt, hidx] at hdest ⊢
      have hjb : j = b1 := by
        simp [transferCall] at hdest
        omega
      subst hjb
      rw [hb1] at hj
      injection hj with hj
      subst hj
      rcases h3 with h3 | ⟨-, h3⟩
      · rw [keysDistinct_unique hkeys h3 hrec, Nat.zero_add]
      · exfalso
        obtain ⟨n, hn⟩ := List.getElem?_of_mem h3
        rw [List.getElem?_take] at hn
        split at hn
        · obtain ⟨hl1, e1⟩ := List.getElem?_eq_some_iff.mp hn
          obtain ⟨hl2, e2⟩ := List.getElem?_eq_some_iff.mp hb1
          have := (List.Nodup.getElem_inj_iff hnd).mp (e1.trans e2.symm)
          omega
        · cases hn
    · intro c hc
      split at hc
      · exact printBuffers_callee _ _ c hc
      · cases hc

theorem map_lowered_plain :
    ∀ (ops : List Operation), countLaunches ops = 0 →
      ops.map (fun op =>
        match op.kind with
        | OpKind.launchFunc _ => bindAllBuffersOp op
        | _ => op) = ops := by
  intro ops
  induction ops with
  | nil => intro _; rfl
  | cons op rest ih =>
    intro h
    have hk : ∀ l, op.kind ≠ OpKind.launchFunc l :=
      countLaunches_zero_kind (op :: rest) h 0 op (by simp)
    rw [countLaunches_cons_other op rest hk] at h
    rw [List.map_cons, ih h]
    congr 1
    cases hkind : op.kind with
    | launchFunc l => exact absurd hkind (hk l)
    | alloc => rfl
    | memRefCast => rfl
    | call callee => rfl
    | other => rfl

theorem lowered_two_launches (ir : IR) (pre mid post : List Operation) (op0 op1 : Operation)
    (l0 l1 : LaunchFuncOp) (hops : ir.ops = pre ++ op0 :: (mid ++ op1 :: post))
    (hk0 : op0.kind = OpKind.launchFunc l0) (hk1 : op1.kind = OpKind.launchFunc l1)
    (hpre : countLaunches pre = 0) (hmid : countLaunches mid = 0)
    (hpost : countLaunches post = 0) :
    ir.lowered = ⟨pre ++ bindAllBuffersOp op0 :: (mid ++ bindAllBuffersOp op1 :: post)⟩ := by
  unfold IR.lowered
  rw [hops]
  simp only [List.map_append, List.map_cons, hk0, hk1, map_lowered_plain pre hpre,
    map_lowered_plain mid hmid, map_lowered_plain post hpost]

theorem getOp_insert_mid (pre : List Operation) (x : Operation) (rest : List Operation) :
    IR.getOp ⟨pre ++ x :: rest⟩ pre.length = x := by
  unfold IR.getOp
  show (pre ++ x :: rest).getD pre.length default = x
  rw [List.getD_eq_getElem?_getD, getElem?_insert_mid, if_neg (lt_irrefl _), if_pos rfl]
  rfl

theorem getElem?_other_slot {α : Type} (pre mid post : List α) (x y : α) (j : Nat)
    (h0 : j ≠ pre.length) (h1 : j ≠ pre.length + 1 + mid.length) :
    (pre ++ x :: (mid ++ y :: post))[j]? =
      if j < pre.length then pre[j]?
      else if j < pre.length + 1 + mid.length then mid[j - pre.length - 1]?
      else post[j - (pre.length + 1 + mid.length) - 1]? := by
  rw [getElem?_insert_mid]
  by_cases c1 : j < pre.length
  · rw [if_pos c1, if_pos c1]
  · rw [if_neg c1, if_neg h0, if_neg c1, getElem?_insert_mid]
    by_cases c2 : j < pre.length + 1 + mid.length
    · rw [if_pos (by omega), if_pos c2]
    · rw [if_neg (by omega), if_neg (by omega), if_neg c2]
      congr 1
      omega

theorem emptySites_length (ops : List Operation) : (emptySites ops).length = ops.length := by
  simp [emptySites]

/-- C15 (amended): a program with exactly two launches, `op0` at slot
`pre.length` and `op1` later in the same block, all of whose kernel operands
are memrefs named once; the buffer (the result of an operation) is operand
`b0` of launch 0 and operand `b1` of launch 1, and in the lowered program
its external dependencies all stand after the second launch in that block
(the host reads it only after the teardown), one of them not being a call.
Then the pass returns, nothing is emitted at the other slots, and the calls
emitted are: `initVulkan` and the actions of launch 0, where the buffer is
bound at `b0` with the copy mode DeviceToHost; the actions of launch 1,
where the buffer is bound at `b1` with the copy mode DeviceToHost again and
exactly one transfer call copies it from (0, `b0`) to (1, `b1`), no other
transfer having the destination binding `b1`; `run`; `deinitVulkan`. -/
theorem two_launch_program (env : Env) (ir : IR) (pre mid post : List Operation)
    (op0 op1 : Operation) (l0 l1 : LaunchFuncOp) (buffer : Value) (definingOp index : Nat)
    (shape : List Int) (t : ElemType) (b0 b1 : Nat)
    (hops : ir.ops = pre ++ op0 :: (mid ++ op1 :: post))
    (hk0 : op0.kind = OpKind.launchFunc l0) (hk1 : op1.kind = OpKind.launchFunc l1)
    (hpre : countLaunches pre = 0) (hmid : countLaunches mid = 0)
    (hpost : countLaunches post = 0)
    (hnobind : ∀ op ∈ ir.ops, op.kind ≠ OpKind.call kBindAllBuffers)
    (hacyclic : ir.Acyclic)
    (hser0 : (createBinaryShader env 0).1 = LogicalResult.success)
    (hser1 : (createBinaryShader env 1).1 = LogicalResult.success)
    (hsrc : buffer.source = ValueSource.opResult definingOp index)
    (hty : buffer.type = MlirType.memref shape t)
    (hb0 : (kernelOperands op0)[b0]? = some buffer)
    (hb1 : (kernelOperands op1)[b1]? = some buffer)
    (hnd0 : (kernelOperands op0).Nodup) (hnd1 : (kernelOperands op1).Nodup)
    (hmem0 : ∀ b ∈ kernelOperands op0, ∃ shape t, b.type = MlirType.memref shape t)
    (hmem1 : ∀ b ∈ kernelOperands op1, ∃ shape t, b.type = MlirType.memref shape t)
    (hblock : op0.block = op1.block) (horder : op0.order < op1.order)
    (hdeps : ∀ op ∈ externalDeps ir.lowered [] buffer,
      ir.lowered.getBlock op = op1.block ∧ op1.order < (ir.lowered.getOp op).order)
    (hread : ∃ op ∈ externalDeps ir.lowered [] buffer,
      ∀ callee, (ir.lowered.getOp op).kind ≠ OpKind.call callee) :
    ∃ r rt binary0 binary1 binds0 binds1 transfers1 prints0 prints1,
      runOnOperation env ir = some r ∧
      r.emitted[pre.length]? = some ([initVulkanCall,
          createLaunchKernelActionCall rt 0 binary0 l0] ++ binds0
        ++ [setLaunchKernelActionCall rt l0, addLaunchActionToScheduleCall rt] ++ prints0) ∧
      r.emitted[pre.length + 1 + mid.length]? = some ([createLaunchKernelActionCall rt 1 binary1 l1]
        ++ binds1 ++ [setLaunchKernelActionCall rt l1] ++ transfers1
        ++ [addLaunchActionToScheduleCall rt, runCall rt, deinitVulkanCall rt] ++ prints1) ∧
      (∀ j, j < ir.ops.length → j ≠ pre.length → j ≠ pre.length + 1 + mid.length →
        r.emitted[j]? = some []) ∧
      (∀ c ∈ binds0 ++ binds1, IsBindingCall rt c) ∧
      binds0[b0]? = some (bindBufferCall rt t b0 (bufferByteSizeOf shape t)
        kBufferCopyModeDeviceToHost buffer) ∧
      binds1[b1]? = some (bindBufferCall rt t b1 (bufferByteSizeOf shape t)
        kBufferCopyModeDeviceToHost buffer) ∧
      (∀ c ∈ transfers1, c.callee = kCreateVulkanMemoryTransferAction) ∧
      transfers1.count (transferCall rt (0, b0) 1 b1) = 1 ∧
      (∀ c ∈ transfers1, c.operands[4]? = some (Arg.constant 64 b1) →
        c = transferCall rt (0, b0) 1 b1) ∧
      (∀ c ∈ prints0 ++ prints1, c.callee = kPrint_memref_f32) := by
  have hcount : countLaunches ir.ops = 2 := by
    rw [hops, countLaunches_append, countLaunches_cons_launch _ _ l0 hk0, countLaunches_append,
      countLaunches_cons_launch _ _ l1 hk1, hpre, hmid, hpost]
  rcases createBinaryShader_cases env 0 with e | ⟨bin0, e0⟩
  · rw [e] at hser0; cases hser0
  rcases createBinaryShader_cases env 1 with e | ⟨bin1, e1⟩
  · rw [e] at hser1; cases hser1
  obtain ⟨f1, f2, f3, -, f5, f6, f7, f8, prints0, f9, f10⟩ :=
    first_launch_lowered env ir pre.length op0 l0 bin0 hcount e0 hnd0
  obtain ⟨g1, g2, g3, g4, transfers1, prints1, g5, g6, g7, g8, g9⟩ :=
    second_launch_lowered env (convertGpuLaunchFunc env (startState ir) pre.length op0 l0).1
      (pre.length + 1 + mid.length) op1 l1 bin1 (some pre.length) buffer b0 b1 f1 f2 f3 f5
      (f6 b0 buffer hb0) e1 hnd1 hb1
  have hconv := convertAll_two_launches env pre mid post op0 op1 l0 l1 (startState ir) hk0 hk1
    hpre hmid hpost
  rw [← hops, f7, g3] at hconv
  obtain ⟨st2, out, hb, hrun⟩ := runOnOperation_returns env ir hacyclic (by omega) (by
    intro k hk
    rw [hcount] at hk
    interval_cases k
    · exact hser0
    · exact hser1)
  have hacyc := acyclic_convertAll env ir (startState ir) hacyclic
  rw [hconv] at hb hacyc
  simp only at hb hacyc
  rw [lowered_two_launches ir pre mid post op0 op1 l0 l1 hops hk0 hk1 hpre hmid hpost]
    at hdeps hread
  obtain ⟨hsame, binds, hblen, hout, hnil, hbb, hall⟩ := bindAll_spec env _ _ 0 _ _ _ _
    (by simp [emptySites]) hb
  -- the operations of the two slots in the lowered program
  have hop0 : IR.getOp ⟨pre ++ bindAllBuffersOp op0 :: (mid ++ bindAllBuffersOp op1 :: post)⟩
      pre.length = bindAllBuffersOp op0 := getOp_insert_mid pre _ _
  have hop1 : IR.getOp ⟨pre ++ bindAllBuffersOp op0 :: (mid ++ bindAllBuffersOp op1 :: post)⟩
      (pre.length + 1 + mid.length) = bindAllBuffersOp op1 := by
    have := getOp_insert_mid (pre ++ bindAllBuffersOp op0 :: mid) (bindAllBuffersOp op1) post
    simp only [List.append_assoc, List.cons_append, List.length_append, List.length_cons] at this
    have e : pre.length + (mid.length + 1) = pre.length + 1 + mid.length := by omega
    rw [e] at this
    exact this
  have hslot0 : (pre ++ bindAllBuffersOp op0 :: (mid ++ bindAllBuffersOp op1 :: post))[pre.length]?
      = some (bindAllBuffersOp op0) := by
    rw [getElem?_insert_mid, if_neg (lt_irrefl _), if_pos rfl]
  have hslot1 : (pre ++ bindAllBuffersOp op0 :: (mid ++ bindAllBuffersOp op1 :: post))[
      pre.length + 1 + mid.length]? = some (bindAllBuffersOp op1) := by
    rw [getElem?_insert_mid, if_neg (by omega), if_neg (by omega), getElem?_insert_mid,
      if_neg (by omega), if_pos (by omega)]
  -- the copy mode of the buffer at both launch calls
  have hmode : ∀ symbols callOp, callOp = pre.length ∨ callOp = pre.length + 1 + mid.length →
      getBufferCopyMode ⟨pre ++ bindAllBuffersOp op0 :: (mid ++ bindAllBuffersOp op1 :: post)⟩
        symbols (some (pre.length + 1 + mid.length)) callOp buffer
        = some (kBufferCopyModeDeviceToHost, 0) := by
    intro symbols callOp hcall
    apply getBufferCopyMode_after_teardown _ symbols _ callOp buffer definingOp index hsrc hacyc
      _ hread
    intro op hop
    obtain ⟨h1, h2⟩ := hdeps op hop
    have hcb : (IR.getOp ⟨pre ++ bindAllBuffersOp op0 :: (mid ++ bindAllBuffersOp op1 :: post)⟩
        callOp).block = op1.block ∧
        (IR.getOp ⟨pre ++ bindAllBuffersOp op0 :: (mid ++ bindAllBuffersOp op1 :: post)⟩
        callOp).order ≤ op1.order := by
      rcases hcall with e | e
      · rw [e, hop0]; exact ⟨hblock, Nat.le_of_lt horder⟩
      · rw [e, hop1]; exact ⟨rfl, Nat.le_refl _⟩
    refine ⟨?_, ?_, ?_⟩
    · unfold IR.getBlock at h1 ⊢
      rw [h1, hcb.1]
    · unfold IR.isBeforeInBlock
      have := hcb.2
      simp only [decide_eq_false_iff_not]
      omega
    · unfold IR.isBeforeInBlock
      rw [hop1]
      simp only [decide_eq_true_eq]
      exact h2
  -- the binding calls of a slot
  have hbind : ∀ (s : Nat) (opX : Operation) (bX : Nat),
      s = pre.length ∨ s = pre.length + 1 + mid.length →
      (pre ++ bindAllBuffersOp op0 :: (mid ++ bindAllBuffersOp op1 :: post))[s]?
        = some (bindAllBuffersOp opX) →
      (kernelOperands opX)[bX]? = some buffer →
      (∀ b ∈ kernelOperands opX, ∃ shape t, b.type = MlirType.memref shape t) →
      ∃ calls, binds[s]? = some calls ∧
        calls[bX]? = some (bindBufferCall (some pre.length) t bX (bufferByteSizeOf shape t)
          kBufferCopyModeDeviceToHost buffer) := by
    intro s opX bX hs hslot hbX hmemX
    obtain ⟨stj, res, stj2, calls, hsj, hbj, hcj⟩ := hbb s (bindAllBuffersOp opX) hslot rfl
    have hdein : stj.deinitVulkan = some (pre.length + 1 + mid.length) := by
      rw [hsj.2.1]; exact g2
    have hrtj : stj.vulkanRuntime = some pre.length := by
      rw [hsj.1]; exact g1
    obtain ⟨st3, calls2, heq, -, hcalls⟩ := bindBuffersFrom_modes env _ (0 + s) hacyc
      (kernelOperands opX) 0 stj _ hdein hmemX
    have hsome : some (res, stj2, calls) = some (LogicalResult.success, st3, calls2) :=
      hbj.symm.trans heq
    simp only [Option.some.injEq, Prod.mk.injEq] at hsome
    obtain ⟨-, -, hsome⟩ := hsome
    subst hsome
    obtain ⟨shape2, t2, symbols, mode, warned, hty2, hmd, hcall⟩ := hcalls bX buffer hbX
    rw [hty] at hty2
    injection hty2 with e1 e2
    subst e1; subst e2
    rw [hmode symbols (0 + s) (by omega)] at hmd
    simp only [Option.some.injEq, Prod.mk.injEq] at hmd
    obtain ⟨hmd, -⟩ := hmd
    subst hmd
    refine ⟨calls, hcj, ?_⟩
    rw [hcall, hrtj, Nat.zero_add]
  obtain ⟨calls0, hc0, hB0⟩ := hbind pre.length op0 b0 (Or.inl rfl) hslot0 hb0 hmem0
  obtain ⟨calls1, hc1, hB1⟩ := hbind (pre.length + 1 + mid.length) op1 b1 (Or.inr rfl) hslot1 hb1
    hmem1
  have hsite0 : (emptySites pre ++ (convertGpuLaunchFunc env (startState ir) pre.length op0
        l0).2.2 :: (emptySites mid ++ (convertGpuLaunchFunc env
          (convertGpuLaunchFunc env (startState ir) pre.length op0 l0).1
          (pre.length + 1 + mid.length) op1 l1).2.2 :: emptySites post))[pre.length]?
      = some (convertGpuLaunchFunc env (startState ir) pre.length op0 l0).2.2 := by
    rw [getElem?_insert_mid, emptySites_length, if_neg (lt_irrefl _), if_pos rfl]
  have hsite1 : (emptySites pre ++ (convertGpuLaunchFunc env (startState ir) pre.length op0
        l0).2.2 :: (emptySites mid ++ (convertGpuLaunchFunc env
          (convertGpuLaunchFunc env (startState ir) pre.length op0 l0).1
          (pre.length + 1 + mid.length) op1 l1).2.2 :: emptySites post))[
        pre.length + 1 + mid.length]?
      = some (convertGpuLaunchFunc env (convertGpuLaunchFunc env (startState ir) pre.length op0
          l0).1 (pre.length + 1 + mid.length) op1 l1).2.2 := by
    rw [getElem?_insert_mid, emptySites_length, if_neg (by omega), if_neg (by omega),
      getElem?_insert_mid, emptySites_length, if_neg (by omega), if_pos (by omega)]
  have hw0 := weaveSlots_getElem? _ _ _ _ _ hsite0 hc0
  have hw1 := weaveSlots_getElem? _ _ _ _ _ hsite1 hc1
  rw [f8, f9] at hw0
  rw [g4, g5] at hw1
  refine ⟨_, some pre.length, bin0, bin1, calls0, calls1, transfers1, prints0, prints1, hrun,
    ?_, ?_, ?_, ?_, hB0, hB1, g6, g7, g8, ?_⟩
  · show out[pre.length]? = _
    rw [hout, hw0]
    simp
  · show out[pre.length + 1 + mid.length]? = _
    rw [hout, hw1]
    simp
  · intro j hj hj0 hj1
    show out[j]? = _
    rw [hout]
    have hopsj := getElem?_other_slot pre mid post (bindAllBuffersOp op0) (bindAllBuffersOp op1)
      j hj0 hj1
    have hsitesj := getElem?_other_slot (emptySites pre) (emptySites mid) (emptySites post)
      (convertGpuLaunchFunc env (startState ir) pre.length op0 l0).2.2
      (convertGpuLaunchFunc env (convertGpuLaunchFunc env (startState ir) pre.length op0
          l0).1 (pre.length + 1 + mid.length) op1 l1).2.2 j
      (by rw [emptySites_length]; exact hj0) (by simp only [emptySites_length]; exact hj1)
    simp only [emptySites_length] at hsitesj
    rw [hops] at hj
    simp only [List.length_append, List.length_cons] at hj
    have key : ∀ (xs : List Operation) (k : Nat), k < xs.length → (∀ op ∈ xs, op ∈ ir.ops) →
        (pre ++ bindAllBuffersOp op0 :: (mid ++ bindAllBuffersOp op1 :: post))[j]? = xs[k]? →
        (emptySites pre ++ (convertGpuLaunchFunc env (startState ir) pre.length op0
          l0).2.2 :: (emptySites mid ++ (convertGpuLaunchFunc env
            (convertGpuLaunchFunc env (startState ir) pre.length op0 l0).1
            (pre.length + 1 + mid.length) op1 l1).2.2 :: emptySites post))[j]?
          = (emptySites xs)[k]? →
        (weaveSlots (emptySites pre ++ (convertGpuLaunchFunc env (startState ir) pre.length op0
          l0).2.2 :: (emptySites mid ++ (convertGpuLaunchFunc env
            (convertGpuLaunchFunc env (startState ir) pre.length op0 l0).1
            (pre.length + 1 + mid.length) op1 l1).2.2 :: emptySites post)) binds)[j]?
          = some [] := by
      intro xs k hk hsub h1 h2
      have hx : xs[k]? = some xs[k] := List.getElem?_eq_getElem hk
      rw [hx] at h1
      rw [emptySites_getElem?_some xs k _ hx] at h2
      have hnb := hnil j _ h1 (hnobind _ (hsub _ (List.getElem_mem hk)))
      have := weaveSlots_getElem? _ _ _ _ _ h2 hnb
      simpa using this
    by_cases c1 : j < pre.length
    · rw [if_pos c1] at hopsj hsitesj
      exact key pre j c1 (by intro op hop; rw [hops]; simp [hop]) hopsj hsitesj
    · rw [if_neg c1] at hopsj hsitesj
      by_cases c2 : j < pre.length + 1 + mid.length
      · rw [if_pos c2] at hopsj hsitesj
        exact key mid _ (by omega) (by intro op hop; rw [hops]; simp [hop]) hopsj hsitesj
      · rw [if_neg c2] at hopsj hsitesj
        exact key post _ (by omega) (by intro op hop; rw [hops]; simp [hop]) hopsj hsitesj
  · intro c hc
    rw [← g1]
    rcases List.mem_append.mp hc with hc | hc
    · exact hall calls0 (List.getElem?_mem hc0) c hc
    · exact hall calls1 (List.getElem?_mem hc1) c hc
  · intro c hc
    rcases List.mem_append.mp hc with hc | hc
    · exact f10 c hc
    · exact g9 c hc

/-- Witness of C15 (amended) on `exampleTwoLaunchIR`: two allocations, launch
0 on B, launch 1 on C and B, and a host read of B. -/
theorem two_launch_program_witness :
    ∃ r, runOnOperation exampleEnv exampleTwoLaunchIR = some r := by
  obtain ⟨r, -, -, -, -, -, -, -, -, h, -⟩ := two_launch_program exampleEnv exampleTwoLaunchIR
    [⟨OpKind.alloc, 0, 0, [], [MlirType.memref [4] ElemType.f32]⟩,
      ⟨OpKind.alloc, 0, 1, [], [MlirType.memref [4] ElemType.f32]⟩] []
    [⟨OpKind.other, 0, 4, [exampleBuffer], []⟩]
    ⟨OpKind.launchFunc exampleLaunch, 0, 2, exampleConfig ++ [exampleBuffer], []⟩
    ⟨OpKind.launchFunc exampleLaunch, 0, 3, exampleConfig ++ [exampleBufferC, exampleBuffer], []⟩
    exampleLaunch exampleLaunch exampleBuffer 0 0 [4] ElemType.f32 0 1 rfl rfl rfl rfl rfl rfl
    (by decide) (acyclic_of_definedBeforeUse exampleTwoLaunchIR (by decide)) (by decide)
    (by decide) rfl rfl (by decide) (by decide) (by decide) (by decide)
    (by
      intro b hb
      have hb2 : b ∈ [exampleBuffer] := hb
      exact ⟨[4], ElemType.f32, by rw [List.mem_singleton.mp hb2]; rfl⟩)
    (by
      intro b hb
      have hb2 : b ∈ [exampleBufferC, exampleBuffer] := hb
      rcases List.mem_pair.mp hb2 with hb2 | hb2
      · exact ⟨[4], ElemType.f32, by rw [hb2]; rfl⟩
      · exact ⟨[4], ElemType.f32, by rw [hb2]; rfl⟩)
    rfl (by decide) (by decide)
    ⟨4, by decide, fun callee h => by cases h⟩
  exact ⟨r, h⟩

/-! ## Copy mode as a union, empty dependency sets, missing shader modules -/

theorem testBit_foldl_or (f : Nat → Nat) (i : Nat) :
    ∀ (deps : List Nat) (m : Nat),
      (deps.foldl (fun mode op => mode ||| f op) m).testBit i
        = (m.testBit i || deps.any (fun op => (f op).testBit i)) := by
  intro deps
  induction deps with
  | nil => intro m; simp
  | cons a rest ih =>
    intro m
    rw [List.foldl_cons, ih, Nat.testBit_or, List.any_cons, Bool.or_assoc]

theorem foldl_or_subset (f : Nat → Nat) (deps deps2 : List Nat)
    (hsub : ∀ op ∈ deps, op ∈ deps2) :
    deps.foldl (fun mode op => mode ||| f op) 0
        ||| deps2.foldl (fun mode op => mode ||| f op) 0
      = deps2.foldl (fun mode op => mode ||| f op) 0 := by
  apply Nat.eq_of_testBit_eq
  intro i
  rw [Nat.testBit_or, testBit_foldl_or, testBit_foldl_or]
  simp only [Nat.zero_testBit, Bool.false_or]
  cases h : deps.any (fun op => (f op).testBit i) with
  | false => simp
  | true =>
    obtain ⟨op, hop, hbit⟩ := List.any_eq_true.mp h
    have : deps2.any (fun op => (f op).testBit i) = true :=
      List.any_eq_true.mpr ⟨op, hsub op hop, hbit⟩
    rw [this]
    rfl

theorem copyModeLoop_none (ir : IR) (callOp deinit : Nat) :
    ∀ (deps : List Nat) (copyMode warnings : Nat) (r : Nat × Nat),
      copyModeLoop ir none callOp deps copyMode warnings = some r →
      copyModeLoop ir (some deinit) callOp deps copyMode warnings = some r := by
  intro deps
  induction deps with
  | nil => intro m w r h; exact h
  | cons op rest ih =>
    intro m w r h
    unfold copyModeLoop at h ⊢
    split
    · rename_i hb
      rw [if_pos hb] at h
      split
      · rename_i h1
        rw [if_pos h1] at h
        exact ih _ _ r h
      · rename_i h1
        rw [if_neg h1] at h
        cases h
    · rename_i hb
      rw [if_neg hb] at h
      exact ih _ _ r h

theorem mem_getExternalDependentOperations (ir : IR) (optionalSymbols : List String)
    (value : Value) (definingOp index : Nat) (deps : List Nat)
    (hsrc : value.source = ValueSource.opResult definingOp index)
    (hdeps : getExternalDependentOperations ir optionalSymbols value = some deps) (op : Nat) :
    op ∈ deps ↔ (op = definingOp ∨ ir.Reaches value op) ∧
      isInternalOperation optionalSymbols (ir.getOp op) = false := by
  unfold getExternalDependentOperations at hdeps
  rw [hsrc] at hdeps
  simp only at hdeps
  split at hdeps
  · cases hdeps
  · rename_i operations hw
    simp only [Option.some.injEq] at hdeps
    subst hdeps
    rw [List.mem_filter, walkUses_mem ir _ _ _ _ hw op, ← reaches_iff, mem_smallSetInsert]
    simp

theorem le_of_or_eq (a b : Nat) (ha : a < 4) (hb : b < 4) (h : a ||| b = b) : a ≤ b := by
  interval_cases a <;> interval_cases b <;> first
    | omega
    | (exfalso; revert h; decide)

/-- C21: for a buffer defined by an operation of an acyclic program
(`deinitVulkan` set), `getBufferCopyMode` returns the bitwise OR of the bits
`depBits` that the operations of the external dependency set contribute: bit
`i` of the result is set exactly when some dependency contributes bit `i`.
The loop gives the same value on every list with the same members (whatever
the order), a value with no bit less and not smaller on every list that
contains the dependency set, and the value is below 4, HostToDevice being
bit 0 and DeviceToHost bit 1. When `deinitVulkan` is not set and the function
returns, it returns the same pair. -/
theorem getBufferCopyMode_union (ir : IR) (optionalSymbols : List String)
    (deinit callOp : Nat) (buffer : Value) (definingOp index : Nat)
    (hsrc : buffer.source = ValueSource.opResult definingOp index) (hacyclic : ir.Acyclic) :
    ∃ mode warnings,
      getBufferCopyMode ir optionalSymbols (some deinit) callOp buffer = some (mode, warnings) ∧
      mode = (externalDeps ir optionalSymbols buffer).foldl
        (fun m op => m ||| depBits ir deinit callOp op) 0 ∧
      (∀ i, mode.testBit i = (externalDeps ir optionalSymbols buffer).any
        (fun op => (depBits ir deinit callOp op).testBit i)) ∧
      (∀ deps2, (∀ op, op ∈ deps2 ↔ op ∈ externalDeps ir optionalSymbols buffer) →
        ∃ warnings2, copyModeLoop ir (some deinit) callOp deps2 kBufferCopyModeInit 0
          = some (mode, warnings2)) ∧
      (∀ deps2, (∀ op ∈ externalDeps ir optionalSymbols buffer, op ∈ deps2) →
        ∃ mode2 warnings2, copyModeLoop ir (some deinit) callOp deps2 kBufferCopyModeInit 0
          = some (mode2, warnings2) ∧ mode ||| mode2 = mode2 ∧ mode ≤ mode2) ∧
      mode < 4 ∧
      kBufferCopyModeHostToDevice = 2 ^ 0 ∧ kBufferCopyModeDeviceToHost = 2 ^ 1 ∧
      (∀ r, getBufferCopyMode ir optionalSymbols none callOp buffer = some r →
        r = (mode, warnings)) := by
  obtain ⟨deps, hd⟩ :=
    getExternalDependentOperations_isSome ir optionalSymbols buffer definingOp index hsrc hacyclic
  have hext : externalDeps ir optionalSymbols buffer = deps := by simp [externalDeps, hd]
  rw [hext]
  refine ⟨deps.foldl (fun m op => m ||| depBits ir deinit callOp op) 0,
    0 + deps.countP (isHazard ir deinit callOp), ?_, rfl, ?_, ?_, ?_, ?_, rfl, rfl, ?_⟩
  · simp only [getBufferCopyMode, hsrc, hd]
    rw [copyModeLoop_eq]
    rfl
  · intro i
    rw [testBit_foldl_or]
    simp
  · intro deps2 hsame
    refine ⟨0 + deps2.countP (isHazard ir deinit callOp), ?_⟩
    rw [copyModeLoop_eq]
    have h1 := foldl_or_subset (depBits ir deinit callOp) deps deps2
      (fun op hop => (hsame op).mpr hop)
    have h2 := foldl_or_subset (depBits ir deinit callOp) deps2 deps
      (fun op hop => (hsame op).mp hop)
    rw [Nat.or_comm] at h2
    have : deps2.foldl (fun m op => m ||| depBits ir deinit callOp op) kBufferCopyModeInit
        = deps.foldl (fun m op => m ||| depBits ir deinit callOp op) 0 := h1.symm.trans h2
    rw [this]
  · intro deps2 hsub
    refine ⟨deps2.foldl (fun m op => m ||| depBits ir deinit callOp op) 0,
      0 + deps2.countP (isHazard ir deinit callOp), ?_, ?_, ?_⟩
    · rw [copyModeLoop_eq]
      rfl
    · exact foldl_or_subset (depBits ir deinit callOp) deps deps2 hsub
    · exact le_of_or_eq _ _ (foldl_or_lt ir deinit callOp deps 0 (by decide))
        (foldl_or_lt ir deinit callOp deps2 0 (by decide))
        (foldl_or_subset (depBits ir deinit callOp) deps deps2 hsub)
  · exact foldl_or_lt ir deinit callOp deps 0 (by decide)
  · intro r hr
    simp only [getBufferCopyMode, hsrc, hd] at hr
    have := copyModeLoop_none ir callOp deinit deps _ _ r hr
    rw [copyModeLoop_eq] at this
    injection this with this
    exact this.symm

/-- Witness of C21 on `exampleLocalIR`. -/
theorem getBufferCopyMode_union_witness :
    ∃ mode warnings,
      getBufferCopyMode exampleLocalIR [] (some 2) 2 exampleBuffer = some (mode, warnings) ∧
      mode < 4 :=
  Exists.imp (fun _ h => Exists.imp (fun _ h2 => ⟨h2.1, h2.2.2.2.2.2.1⟩) h)
    (getBufferCopyMode_union exampleLocalIR [] 2 2 exampleBuffer 0 0 rfl
      (acyclic_of_definedBeforeUse exampleLocalIR (by decide)))

/-- C22: for a buffer defined by an operation of an acyclic program, when the
external dependency set is empty `getBufferCopyMode` returns
`kBufferCopyModeInit`, which is 0, without a warning, whatever `deinitVulkan`
is; and the set is empty when the defining operation and every operation
reached from the buffer along def-use edges are internal (allocations,
memref casts, `bindAllBuffers` calls, calls to recorded runtime symbols). -/
theorem getBufferCopyMode_no_dependency (ir : IR) (optionalSymbols : List String)
    (deinitVulkan : Option Nat) (callOp : Nat) (buffer : Value) (definingOp index : Nat)
    (hsrc : buffer.source = ValueSource.opResult definingOp index) (hacyclic : ir.Acyclic) :
    (externalDeps ir optionalSymbols buffer = [] →
      getBufferCopyMode ir optionalSymbols deinitVulkan callOp buffer
        = some (kBufferCopyModeInit, 0) ∧ kBufferCopyModeInit = 0) ∧
    ((∀ op, op = definingOp ∨ ir.Reaches buffer op →
        isInternalOperation optionalSymbols (ir.getOp op) = true) →
      externalDeps ir optionalSymbols buffer = []) := by
  obtain ⟨deps, hd⟩ :=
    getExternalDependentOperations_isSome ir optionalSymbols buffer definingOp index hsrc hacyclic
  have hext : externalDeps ir optionalSymbols buffer = deps := by simp [externalDeps, hd]
  rw [hext]
  refine ⟨?_, ?_⟩
  · intro hempty
    subst hempty
    simp only [getBufferCopyMode, hsrc, hd]
    exact ⟨rfl, rfl⟩
  · intro hint
    rw [List.eq_nil_iff_forall_not_mem]
    intro op hop
    obtain ⟨h1, h2⟩ := (mem_getExternalDependentOperations ir optionalSymbols buffer definingOp
      index deps hsrc hd op).mp hop
    rw [hint op h1] at h2
    cases h2

/-- Witness of C22 on `exampleUnusedIR`: the buffer is allocated and used by
a lowered launch only. -/
theorem getBufferCopyMode_no_dependency_witness :
    getBufferCopyMode exampleUnusedIR [] (some 1) 1 exampleBuffer = some (0, 0) :=
  ((getBufferCopyMode_no_dependency exampleUnusedIR [] (some 1) 1 exampleBuffer 0 0 rfl
    (acyclic_of_definedBeforeUse exampleUnusedIR (by decide))).1 (by decide)).1

theorem createBinaryShaderLoop_short (k : Nat) :
    ∀ (modules : List SpirvModule) (shader_index : Nat) (binary : List Nat),
      shader_index + modules.length ≤ k →
      createBinaryShaderLoop k shader_index modules binary = (LogicalResult.success, binary) := by
  intro modules
  induction modules with
  | nil => intro i b _; rfl
  | cons m rest ih =>
    intro i b h
    simp only [List.length_cons] at h
    unfold createBinaryShaderLoop
    rw [if_neg (by omega)]
    exact ih (i + 1) b (by omega)

/-- C23: when the launch index `i` is not below the number of SPIR-V modules,
`createBinaryShader` returns success with an empty binary; a launch lowered
at that index does not make the pass fail, its slot holds the
`bindAllBuffers` call, and the `createVulkanLaunchKernelAction` call created
for it carries an empty binary and the size 0. -/
theorem createBinaryShader_no_module (env : Env) (i : Nat) (hno : env.modules.length ≤ i) :
    createBinaryShader env i = (LogicalResult.success, []) ∧
    ∀ (st : PassState) (slot : Nat) (op : Operation) (launchOp : LaunchFuncOp),
      st.lauchFuncIndex = i →
        (convertGpuLaunchFunc env st slot op launchOp).1.passFailed = st.passFailed ∧
        (convertGpuLaunchFunc env st slot op launchOp).2.1 = bindAllBuffersOp op ∧
        ∃ rt inits, (convertGpuLaunchFunc env st slot op launchOp).2.2.before
            = inits ++ [createLaunchKernelActionCall rt i [] launchOp] ∧
          (createLaunchKernelActionCall rt i [] launchOp).operands[1]?
            = some (Arg.globalString (kSPIRVBinary ++ toString i) []) ∧
          (createLaunchKernelActionCall rt i [] launchOp).operands[2]?
            = some (Arg.constant 32 0) := by
  have hser : createBinaryShader env i = (LogicalResult.success, []) := by
    unfold createBinaryShader
    rw [createBinaryShaderLoop_short i env.modules 0 [] (by omega)]
    rfl
  refine ⟨hser, ?_⟩
  intro st slot op launchOp hidx
  subst hidx
  obtain ⟨-, -, -, -, pf, -, cop, cbefore, -⟩ :=
    convertGpuLaunchFunc_lowered env st slot op launchOp [] hser
  exact ⟨pf, cop, _, _, cbefore, rfl, rfl⟩

/-- Witness of C23 on `exampleEnv`, which has three modules: launch index
3. -/
theorem createBinaryShader_no_module_witness :
    createBinaryShader exampleEnv 3 = (LogicalResult.success, []) :=
  (createBinaryShader_no_module exampleEnv 3 (by decide)).1

/-- The pass on `exampleOneLaunchIR` without any SPIR-V module: it does not
fail, and the launch is lowered with an empty binary of size 0. -/
theorem no_module_example :
    (runOnOperation exampleNoModuleEnv exampleOneLaunchIR).map
        (fun r => (r.state.passFailed,
          (r.emitted.flatten.filter
            (fun c => decide (c.callee = kCreateVulkanLaunchKernelAction))).map
            (fun c => (c.operands[1]?, c.operands[2]?))))
      = some (false, [(some (Arg.globalString "SPIRV_BIN0" []), some (Arg.constant 32 0))]) := by
  decide

end pmlc.conversion.gpu
